import Mathlib

/-!
Verification of the export-selection core of the "Quick Export Collection"
Blender add-on (`src/__init__.py`).

The development shallowly embeds the pure content of the add-on:

* `LC` models a `LayerCollection` tree (name, `exclude` flag, children).
  Collection identity is modelled by the collection name, which is unique in
  a Blender file.
* `setE`/`setEList` embed `set_excluded_collections` (lines 117-181):
  the function never reassigns the root it is called on, and assigns every
  child a flag computed from the two traversal-carried booleans
  `within_collection_to_export` / `within_nonexportable`.
* `findTopmost`/`findTopmostL` embed `find_topmost_collections`
  (lines 184-204).
* A configuration model embeds `get_export_settings`,
  `get_exporter_args_from_config`, `get_properties_for_op`,
  `make_new_config_file` and `append_new_section_to_config_file`.
  The ini parser (`configparser`) and filesystem path resolution are host
  collaborators: the parsed document (`IniCfg`) and the absolute-path /
  directory-existence functions are parameters of the model.
* An orchestrator model embeds the mutation phase of `QXC_OT_export.execute`
  (lines 316-498) over an explicit scene state (objects, collections, view
  layers), parameterised by a fault assignment for every fallible host
  operation, so that rollback can be proved for every injected failure.
-/

/-! ## Layer-collection trees and `set_excluded_collections` -/

/-- A `LayerCollection`: name of the wrapped collection, its view-layer
`exclude` flag, and its child layer collections, in order. -/
inductive LC : Type where
  | mk : String → Bool → List LC → LC

/-- Collection name of a layer collection. -/
def LC.name : LC → String
  | .mk n _ _ => n

/-- Current `exclude` flag of a layer collection. -/
def LC.exclude : LC → Bool
  | .mk _ e _ => e

/-- Child layer collections. -/
def LC.children : LC → List LC
  | .mk _ _ cs => cs

/-- Replace the `exclude` flag at the root of a layer collection. -/
def LC.withExclude (b : Bool) : LC → LC
  | .mk n _ cs => .mk n b cs

mutual

/-- `set_excluded_collections(lc, collection_names_not_exportable,
collection_to_export, within_collection_to_export, within_nonexportable)`
(src lines 117-181).  The function does not reassign `lc` itself; it walks
`lc.children` with `within_collection_to_export` updated at line 160-161. -/
def setE (dis : List String) (cte : String) (wc wn : Bool) : LC → LC
  | .mk n e cs => .mk n e (setEList dis cte (wc || n == cte) wn cs)

/-- The `for clc in lc.children` loop body of `set_excluded_collections`:
each child's `exclude` is assigned, then the child is recursed into. -/
def setEList (dis : List String) (cte : String) (wc wn : Bool) : List LC → List LC
  | [] => []
  | c :: rest =>
    (if c.name == cte then
      (setE dis cte true false c).withExclude false
    else if wc then
      (setE dis cte true (wn || dis.contains c.name) c).withExclude
        (wn || dis.contains c.name)
    else
      (setE dis cte false false c).withExclude true) :: setEList dis cte wc wn rest

end

/-- The top-level call made by `execute` (src line 363):
`set_excluded_collections(new_view_layer.layer_collection,
collection_names_not_exportable, collection_to_export)` with the default
`within_collection_to_export=False, within_nonexportable=False`. -/
def runSetExcluded (dis : List String) (cte : String) (root : LC) : LC :=
  setE dis cte false false root

/-- Navigate to the subtree at a position (a list of child indices). -/
def LC.get : LC → List Nat → Option LC
  | t, [] => some t
  | t, i :: p => (t.children.get? i).bind (fun c => LC.get c p)

/-- The `exclude` flag of the node at a position. -/
def LC.flagAt (t : LC) (p : List Nat) : Option Bool :=
  (t.get p).map LC.exclude

/-- The collection name of the node at a position. -/
def LC.nameAt (t : LC) (p : List Nat) : Option String :=
  (t.get p).map LC.name

/-- Names of the nodes strictly below the root along a position: for
`p = [i₀, i₁, ...]` the names of child `i₀`, its child `i₁`, and so on
(ending with the name of the node at `p` itself). -/
def namesAlong : LC → List Nat → Option (List String)
  | _, [] => some []
  | t, i :: p =>
    (t.children.get? i).bind (fun c => (namesAlong c p).map (fun ns => c.name :: ns))

/-- One step of the traversal state of `set_excluded_collections` when a
child named `n` is processed with carried state `(wc, wn)`: result is
`(assigned exclude flag, new wc, new wn)`. -/
def stepRes (dis : List String) (cte : String) (wc wn : Bool) (n : String) :
    Bool × Bool × Bool :=
  if n == cte then (false, true, false)
  else if wc then
    let w := wn || dis.contains n
    (w, true, w)
  else (true, false, false)

/-- The flag assigned to the last node of a chain of names, starting the
traversal in state `(wc, wn)`. -/
def pathFold (dis : List String) (cte : String) : Bool → Bool → List String → Bool
  | _, _, [] => true
  | wc, wn, n :: rest =>
    let r := stepRes dis cte wc wn n
    match rest with
    | [] => r.1
    | _ :: _ => pathFold dis cte r.2.1 r.2.2 rest

/-- The processing of one child in the loop of `set_excluded_collections`:
assign the child's `exclude` per the branch taken (src lines 169-181), then
recurse into the child. -/
def procChild (dis : List String) (cte : String) (wc wn : Bool) (c : LC) : LC :=
  if c.name == cte then
    (setE dis cte true false c).withExclude false
  else if wc then
    (setE dis cte true (wn || dis.contains c.name) c).withExclude
      (wn || dis.contains c.name)
  else
    (setE dis cte false false c).withExclude true

theorem setEList_cons (dis : List String) (cte : String) (wc wn : Bool)
    (c : LC) (rest : List LC) :
    setEList dis cte wc wn (c :: rest) =
      procChild dis cte wc wn c :: setEList dis cte wc wn rest := rfl

theorem setEList_eq_map (dis : List String) (cte : String) (wc wn : Bool) :
    ∀ cs : List LC, setEList dis cte wc wn cs = cs.map (procChild dis cte wc wn)
  | [] => rfl
  | c :: rest => by
    rw [setEList_cons, setEList_eq_map dis cte wc wn rest, List.map_cons]

theorem LC.name_withExclude (b : Bool) (t : LC) : (t.withExclude b).name = t.name := by
  cases t <;> rfl

theorem LC.name_setE (dis : List String) (cte : String) (wc wn : Bool) (t : LC) :
    (setE dis cte wc wn t).name = t.name := by
  cases t <;> rfl

theorem LC.exclude_withExclude (b : Bool) (t : LC) : (t.withExclude b).exclude = b := by
  cases t <;> rfl

theorem LC.children_setE (dis : List String) (cte : String) (wc wn : Bool)
    (n : String) (e : Bool) (cs : List LC) :
    (setE dis cte wc wn (.mk n e cs)).children =
      setEList dis cte (wc || n == cte) wn cs := rfl

theorem LC.name_procChild (dis : List String) (cte : String) (wc wn : Bool) (c : LC) :
    (procChild dis cte wc wn c).name = c.name := by
  unfold procChild
  split
  · rw [LC.name_withExclude, LC.name_setE]
  · split <;> rw [LC.name_withExclude, LC.name_setE]

theorem LC.get_withExclude (b : Bool) (t : LC) (i : Nat) (p : List Nat) :
    (t.withExclude b).get (i :: p) = t.get (i :: p) := by
  cases t <;> rfl

theorem LC.flagAt_withExclude (b : Bool) (t : LC) (i : Nat) (p : List Nat) :
    (t.withExclude b).flagAt (i :: p) = t.flagAt (i :: p) := by
  unfold LC.flagAt
  rw [LC.get_withExclude]

theorem namesAlong_cons (t : LC) (i : Nat) (p : List Nat) :
    namesAlong t (i :: p) =
      (t.children.get? i).bind (fun c => (namesAlong c p).map (fun ns => c.name :: ns)) := by
  cases t; rfl

theorem LC.get_cons (t : LC) (i : Nat) (p : List Nat) :
    t.get (i :: p) = (t.children.get? i).bind (fun c => c.get p) := by
  cases t; rfl

theorem pathFold_single (dis : List String) (cte : String) (wc wn : Bool) (n : String) :
    pathFold dis cte wc wn [n] = (stepRes dis cte wc wn n).1 := rfl

theorem pathFold_cons2 (dis : List String) (cte : String) (wc wn : Bool)
    (n a : String) (rest : List String) :
    pathFold dis cte wc wn (n :: a :: rest) =
      pathFold dis cte (stepRes dis cte wc wn n).2.1 (stepRes dis cte wc wn n).2.2
        (a :: rest) := rfl

theorem stepRes_cte (dis : List String) (cte : String) (wc wn : Bool) (n : String)
    (h : (n == cte) = true) : stepRes dis cte wc wn n = (false, true, false) := by
  unfold stepRes
  simp [h]

theorem stepRes_within (dis : List String) (cte : String) (wc wn : Bool) (n : String)
    (h : (n == cte) = false) (hw : wc = true) :
    stepRes dis cte wc wn n =
      (wn || dis.contains n, true, wn || dis.contains n) := by
  unfold stepRes
  simp [h, hw]

theorem stepRes_outside (dis : List String) (cte : String) (wc wn : Bool) (n : String)
    (h : (n == cte) = false) (hw : wc = false) :
    stepRes dis cte wc wn n = (true, false, false) := by
  unfold stepRes
  simp [h, hw]

theorem exclude_procChild (dis : List String) (cte : String) (wc wn : Bool) (c : LC) :
    (procChild dis cte wc wn c).exclude = (stepRes dis cte wc wn c.name).1 := by
  cases h : (c.name == cte) with
  | true =>
    rw [stepRes_cte dis cte wc wn c.name h]
    simp [procChild, h, LC.exclude_withExclude]
  | false =>
    cases wc with
    | true =>
      rw [stepRes_within dis cte true wn c.name h rfl]
      simp [procChild, h, LC.exclude_withExclude]
    | false =>
      rw [stepRes_outside dis cte false wn c.name h rfl]
      simp [procChild, h, LC.exclude_withExclude]

/-- Characterization of `set_excluded_collections`: the flag assigned to the
node at position `p` is a function of the chain of names leading to it and of
the state `(wc, wn)` the traversal enters the subtree with. -/
theorem setE_flagAt (dis : List String) (cte : String) :
    ∀ (p : List Nat) (t : LC) (wc wn : Bool) (ns : List String),
      namesAlong t p = some ns → p ≠ [] →
      (setE dis cte wc wn t).flagAt p =
        some (pathFold dis cte (wc || t.name == cte) wn ns) := by
  intro p
  induction p with
  | nil => intro t wc wn ns _ hp; exact absurd rfl hp
  | cons i p ih =>
    intro t wc wn ns hns _
    cases t with
    | mk n e cs =>
      rw [namesAlong_cons] at hns
      simp only [LC.children] at hns
      cases hc : cs.get? i with
      | none => rw [hc] at hns; exact absurd hns (by simp)
      | some c =>
        rw [hc, Option.some_bind] at hns
        cases c with
        | mk cn ce ccs =>
          simp only [LC.name] at hns
          cases hns' : namesAlong (LC.mk cn ce ccs) p with
          | none => rw [hns'] at hns; exact absurd hns (by simp)
          | some ns' =>
            rw [hns'] at hns
            simp only [Option.map_some'] at hns
            injection hns with hns
            subst hns
            have hflag : (setE dis cte wc wn (LC.mk n e cs)).flagAt (i :: p) =
                (procChild dis cte (wc || n == cte) wn (LC.mk cn ce ccs)).flagAt p := by
              unfold LC.flagAt
              rw [LC.get_cons, LC.children_setE, setEList_eq_map, List.get?_map, hc]
              rfl
            rw [hflag]
            simp only [LC.name]
            cases p with
            | nil =>
              -- the child at `i` is the node whose flag we read
              have hns'' : ns' = [] := by
                cases hns4 : namesAlong (LC.mk cn ce ccs) [] with
                | none => rw [hns4] at hns'; cases hns'
                | some l =>
                  rw [hns4] at hns'
                  cases hns'
                  cases hns4
                  rfl
              subst hns''
              rw [pathFold_single]
              have hfl : (procChild dis cte (wc || n == cte) wn (LC.mk cn ce ccs)).flagAt [] =
                  some (procChild dis cte (wc || n == cte) wn (LC.mk cn ce ccs)).exclude := rfl
              rw [hfl, exclude_procChild]
              rfl
            | cons j p' =>
              -- recurse into the child
              have hns'ne : ns' ≠ [] := by
                intro hcontra
                subst hcontra
                rw [namesAlong_cons] at hns'
                cases hc2 : (LC.mk cn ce ccs).children.get? j with
                | none => rw [hc2] at hns'; simp at hns'
                | some c2 =>
                  rw [hc2, Option.some_bind] at hns'
                  cases h3 : namesAlong c2 p'
                  · rw [h3] at hns'; simp at hns'
                  · rw [h3] at hns'; simp at hns'
              cases hns'' : ns' with
              | nil => exact absurd hns'' hns'ne
              | cons a b =>
                subst hns''
                rw [pathFold_cons2]
                generalize (wc || n == cte) = W
                cases hcn : (cn == cte) with
                | true =>
                  have hsr : stepRes dis cte W wn cn = (false, true, false) :=
                    stepRes_cte dis cte W wn cn hcn
                  rw [hsr]
                  have hpc : procChild dis cte W wn (LC.mk cn ce ccs) =
                      (setE dis cte true false (LC.mk cn ce ccs)).withExclude false := by
                    simp [procChild, LC.name, hcn]
                  rw [hpc, LC.flagAt_withExclude,
                    ih (LC.mk cn ce ccs) true false (a :: b) hns' (by simp)]
                  simp
                | false =>
                  cases W with
                  | true =>
                    have hsr : stepRes dis cte true wn cn =
                        (wn || dis.contains cn, true, wn || dis.contains cn) :=
                      stepRes_within dis cte true wn cn hcn rfl
                    rw [hsr]
                    have hpc : procChild dis cte true wn (LC.mk cn ce ccs) =
                        (setE dis cte true (wn || dis.contains cn) (LC.mk cn ce ccs)).withExclude
                          (wn || dis.contains cn) := by
                      simp [procChild, LC.name, hcn]
                    rw [hpc, LC.flagAt_withExclude,
                      ih (LC.mk cn ce ccs) true (wn || dis.contains cn) (a :: b) hns' (by simp)]
                    simp
                  | false =>
                    have hsr : stepRes dis cte false wn cn = (true, false, false) :=
                      stepRes_outside dis cte false wn cn hcn rfl
                    rw [hsr]
                    have hpc : procChild dis cte false wn (LC.mk cn ce ccs) =
                        (setE dis cte false false (LC.mk cn ce ccs)).withExclude true := by
                      simp [procChild, LC.name, hcn]
                    rw [hpc, LC.flagAt_withExclude,
                      ih (LC.mk cn ce ccs) false false (a :: b) hns' (by simp)]
                    simp [LC.name, hcn]

theorem namesAlong_ne_nil (t : LC) (i : Nat) (p : List Nat) (ns : List String)
    (h : namesAlong t (i :: p) = some ns) : ns ≠ [] := by
  rw [namesAlong_cons] at h
  cases hc : t.children.get? i with
  | none => rw [hc] at h; cases h
  | some c =>
    rw [hc, Option.some_bind] at h
    cases h3 : namesAlong c p with
    | none => rw [h3] at h; cases h
    | some l =>
      rw [h3] at h
      simp only [Option.map_some'] at h
      injection h with h
      subst h
      simp

theorem pathFold_outside (dis : List String) (cte : String) :
    ∀ ns : List String, ns ≠ [] → (∀ x ∈ ns, x ≠ cte) →
      pathFold dis cte false false ns = true
  | [], h, _ => absurd rfl h
  | n :: rest, _, hx => by
    have hne : (n == cte) = false := beq_eq_false_iff_ne.mpr (hx n (by simp))
    cases rest with
    | nil =>
      rw [pathFold_single, stepRes_outside dis cte false false n hne rfl]
    | cons a b =>
      rw [pathFold_cons2, stepRes_outside dis cte false false n hne rfl]
      exact pathFold_outside dis cte (a :: b) (by simp)
        (fun x hxm => hx x (List.mem_cons_of_mem n hxm))

theorem pathFold_allowed (dis : List String) (cte : String) :
    ∀ ns : List String, ns ≠ [] → (∀ x ∈ ns, x ≠ cte ∧ x ∉ dis) →
      pathFold dis cte true false ns = false
  | [], h, _ => absurd rfl h
  | n :: rest, _, hx => by
    have hne : (n == cte) = false := beq_eq_false_iff_ne.mpr (hx n (by simp)).1
    have hnd : dis.contains n = false := by
      have := (hx n (by simp)).2
      simpa using this
    cases rest with
    | nil =>
      rw [pathFold_single, stepRes_within dis cte true false n hne rfl]
      simp only [hnd]
      rfl
    | cons a b =>
      rw [pathFold_cons2, stepRes_within dis cte true false n hne rfl]
      simp only [hnd, Bool.or_false, Bool.false_or]
      exact pathFold_allowed dis cte (a :: b) (by simp)
        (fun x hxm => hx x (List.mem_cons_of_mem n hxm))

theorem pathFold_wn_true (dis : List String) (cte : String) :
    ∀ ns : List String, (∀ x ∈ ns, x ≠ cte) →
      pathFold dis cte true true ns = true
  | [], _ => rfl
  | n :: rest, hx => by
    have hne : (n == cte) = false := beq_eq_false_iff_ne.mpr (hx n (by simp))
    cases rest with
    | nil =>
      rw [pathFold_single, stepRes_within dis cte true true n hne rfl]
      simp
    | cons a b =>
      rw [pathFold_cons2, stepRes_within dis cte true true n hne rfl]
      simp only [Bool.true_or]
      exact pathFold_wn_true dis cte (a :: b)
        (fun x hxm => hx x (List.mem_cons_of_mem n hxm))

theorem pathFold_disallowed (dis : List String) (cte : String) :
    ∀ (q1 : List String) (d : String) (q2 : List String) (wn : Bool),
      (∀ x ∈ q1 ++ d :: q2, x ≠ cte) → d ∈ dis →
      pathFold dis cte true wn (q1 ++ d :: q2) = true
  | [], d, q2, wn, hx, hd => by
    have hne : (d == cte) = false := beq_eq_false_iff_ne.mpr (hx d (by simp))
    have hnd : dis.contains d = true := by simpa using hd
    rw [List.nil_append]
    cases q2 with
    | nil =>
      rw [pathFold_single, stepRes_within dis cte true wn d hne rfl]
      simp only [hnd, Bool.or_true]
    | cons a b =>
      rw [pathFold_cons2, stepRes_within dis cte true wn d hne rfl]
      simp only [hnd, Bool.or_true]
      exact pathFold_wn_true dis cte (a :: b)
        (fun x hxm => hx x (by simp [hxm]))
  | n :: q1, d, q2, wn, hx, hd => by
    have hne : (n == cte) = false := beq_eq_false_iff_ne.mpr (hx n (by simp))
    rw [List.cons_append]
    have hrec : pathFold dis cte true (wn || dis.contains n) (q1 ++ d :: q2) = true :=
      pathFold_disallowed dis cte q1 d q2 _
        (fun x hxm => hx x (List.mem_cons_of_mem n hxm)) hd
    cases hq : q1 ++ d :: q2 with
    | nil => simp at hq
    | cons a b =>
      rw [hq] at hrec
      rw [pathFold_cons2, stepRes_within dis cte true wn n hne rfl]
      exact hrec

theorem pathFold_skip (dis : List String) (cte : String) :
    ∀ (pre ns2 : List String), (∀ x ∈ pre, x ≠ cte) → ns2 ≠ [] →
      pathFold dis cte false false (pre ++ ns2) = pathFold dis cte false false ns2
  | [], ns2, _, _ => by rw [List.nil_append]
  | n :: pre, ns2, hx, hne2 => by
    have hne : (n == cte) = false := beq_eq_false_iff_ne.mpr (hx n (by simp))
    rw [List.cons_append]
    have hrec : pathFold dis cte false false (pre ++ ns2) =
        pathFold dis cte false false ns2 :=
      pathFold_skip dis cte pre ns2
        (fun x hxm => hx x (List.mem_cons_of_mem n hxm)) hne2
    cases hq : pre ++ ns2 with
    | nil => exact absurd (List.append_eq_nil.mp hq).2 hne2
    | cons a b =>
      rw [hq] at hrec
      rw [pathFold_cons2, stepRes_outside dis cte false false n hne rfl]
      exact hrec

theorem pathFold_enter (dis : List String) (cte : String) (post : List String)
    (hne : post ≠ []) :
    pathFold dis cte false false (cte :: post) = pathFold dis cte true false post := by
  cases post with
  | nil => exact absurd rfl hne
  | cons a b =>
    rw [pathFold_cons2, stepRes_cte dis cte false false cte (by simp)]

/-- C2.  After one run of `set_excluded_collections` from the root layer
collection (the propagator), for every node at a nonempty position `p` with
name chain `ns` below the root: (1) if the export target is not an
ancestor-or-self of the node (in particular for every node outside the export
target's ancestor/self chain), the node is marked excluded; (2) every proper
descendant of the export target with no disallowed-named node on the path
strictly below the target is marked included (`exclude = false`); (3) every
node at or below a disallowed-named node inside the export target is marked
excluded, even when its own name is not in the disallowed set.  Name chains
are used for ancestor relations; the export target's name is unique in a
Blender file, which the chain-side conditions `x ≠ cte` express. -/
theorem C2_exclusion_flags (dis : List String) (cte : String) (root : LC)
    (p : List Nat) (ns : List String)
    (hp : p ≠ []) (hns : namesAlong root p = some ns) :
    ((root.name ≠ cte ∧ ∀ x ∈ ns, x ≠ cte) →
        (runSetExcluded dis cte root).flagAt p = some true) ∧
    (∀ pre post, root.name :: ns = pre ++ cte :: post →
        (∀ x ∈ pre, x ≠ cte) → (∀ x ∈ post, x ≠ cte ∧ x ∉ dis) → post ≠ [] →
        (runSetExcluded dis cte root).flagAt p = some false) ∧
    (∀ pre q1 d q2, root.name :: ns = pre ++ cte :: (q1 ++ d :: q2) →
        (∀ x ∈ pre, x ≠ cte) → (∀ x ∈ q1 ++ d :: q2, x ≠ cte) → d ∈ dis →
        (runSetExcluded dis cte root).flagAt p = some true) := by
  have hmain : (runSetExcluded dis cte root).flagAt p =
      some (pathFold dis cte (false || root.name == cte) false ns) :=
    setE_flagAt dis cte p root false false ns hns hp
  have hnsne : ns ≠ [] := by
    cases p with
    | nil => exact absurd rfl hp
    | cons i p' => exact namesAlong_ne_nil root i p' ns hns
  refine ⟨?_, ?_, ?_⟩
  · -- (1) target not an ancestor-or-self: excluded
    rintro ⟨hroot, hchain⟩
    have hb : (root.name == cte) = false := beq_eq_false_iff_ne.mpr hroot
    rw [hmain, hb]
    rw [show (false || false) = false from rfl]
    rw [pathFold_outside dis cte ns hnsne hchain]
  · -- (2) allowed descendant of the target: included
    intro pre post heq hpre hpost hpostne
    cases pre with
    | nil =>
      -- target is the root itself
      simp only [List.nil_append] at heq
      injection heq with h1 h2
      have hb : (root.name == cte) = true := by rw [h1]; simp
      rw [hmain, hb]
      rw [show (false || true) = true from rfl]
      rw [h2, pathFold_allowed dis cte post hpostne hpost]
    | cons r pre' =>
      injection heq with h1 h2
      rw [List.append_eq] at h2
      have hroot : root.name ≠ cte := by
        rw [h1]; exact hpre r (by simp)
      have hb : (root.name == cte) = false := beq_eq_false_iff_ne.mpr hroot
      rw [hmain, hb]
      rw [show (false || false) = false from rfl]
      rw [h2, pathFold_skip dis cte pre' (cte :: post)
          (fun x hx => hpre x (List.mem_cons_of_mem r hx)) (by simp),
        pathFold_enter dis cte post hpostne,
        pathFold_allowed dis cte post hpostne hpost]
  · -- (3) disallowed is sticky downward
    intro pre q1 d q2 heq hpre hpost hd
    cases pre with
    | nil =>
      simp only [List.nil_append] at heq
      injection heq with h1 h2
      have hb : (root.name == cte) = true := by rw [h1]; simp
      rw [hmain, hb]
      rw [show (false || true) = true from rfl]
      rw [h2, pathFold_disallowed dis cte q1 d q2 false hpost hd]
    | cons r pre' =>
      injection heq with h1 h2
      rw [List.append_eq] at h2
      have hroot : root.name ≠ cte := by
        rw [h1]; exact hpre r (by simp)
      have hb : (root.name == cte) = false := beq_eq_false_iff_ne.mpr hroot
      rw [hmain, hb]
      rw [show (false || false) = false from rfl]
      rw [h2, pathFold_skip dis cte pre' (cte :: (q1 ++ d :: q2))
          (fun x hx => hpre x (List.mem_cons_of_mem r hx)) (by simp),
        pathFold_enter dis cte (q1 ++ d :: q2) (by simp),
        pathFold_disallowed dis cte q1 d q2 false hpost hd]

/-- A concrete scene-collection tree used to witness `C2_exclusion_flags`:
`Root{ A{ Target{ X, D{ Y } }, Z }, B }` with export target `Target` and
disallowed set `{D}`. -/
def c2tree : LC :=
  .mk "Root" false
    [ .mk "A" false
        [ .mk "Target" true
            [ .mk "X" true []
            , .mk "D" false [ .mk "Y" false [] ] ]
        , .mk "Z" false [] ]
    , .mk "B" true [] ]

/-- Witness for `C2_exclusion_flags`: on `c2tree`, node `B` (outside the
target) is excluded, node `X` (allowed descendant) is included, and node `Y`
(under disallowed `D`) is excluded. -/
theorem C2_exclusion_flags_witness :
    (runSetExcluded ["D"] "Target" c2tree).flagAt [1] = some true ∧
    (runSetExcluded ["D"] "Target" c2tree).flagAt [0, 0, 0] = some false ∧
    (runSetExcluded ["D"] "Target" c2tree).flagAt [0, 0, 1, 0] = some true := by
  refine ⟨?_, ?_, ?_⟩
  · exact (C2_exclusion_flags ["D"] "Target" c2tree [1] ["B"] (by simp) rfl).1
      ⟨by decide, by decide⟩
  · exact (C2_exclusion_flags ["D"] "Target" c2tree [0, 0, 0] ["A", "Target", "X"]
      (by simp) rfl).2.1 ["Root", "A"] ["X"] rfl (by decide) (by decide) (by decide)
  · exact (C2_exclusion_flags ["D"] "Target" c2tree [0, 0, 1, 0]
      ["A", "Target", "D", "Y"] (by simp) rfl).2.2 ["Root", "A"] [] "D" ["Y"] rfl
      (by decide) (by decide) (by decide)

theorem setE_withExclude_comm (dis : List String) (cte : String) (wc wn : Bool)
    (b : Bool) (t : LC) :
    setE dis cte wc wn (t.withExclude b) = (setE dis cte wc wn t).withExclude b := by
  cases t; rfl

theorem withExclude_withExclude (a b : Bool) (t : LC) :
    (t.withExclude b).withExclude a = t.withExclude a := by
  cases t; rfl

mutual

theorem setE_idem (dis : List String) (cte : String) :
    ∀ (wc wn : Bool) (t : LC),
      setE dis cte wc wn (setE dis cte wc wn t) = setE dis cte wc wn t
  | wc, wn, .mk n e cs => by
    show LC.mk n e (setEList dis cte (wc || n == cte) wn
        (setEList dis cte (wc || n == cte) wn cs)) =
      LC.mk n e (setEList dis cte (wc || n == cte) wn cs)
    rw [setEList_idem dis cte (wc || n == cte) wn cs]

theorem setEList_idem (dis : List String) (cte : String) :
    ∀ (wc wn : Bool) (cs : List LC),
      setEList dis cte wc wn (setEList dis cte wc wn cs) = setEList dis cte wc wn cs
  | _, _, [] => rfl
  | wc, wn, c :: rest => by
    rw [setEList_cons, setEList_cons, setEList_idem dis cte wc wn rest]
    have hproc : procChild dis cte wc wn (procChild dis cte wc wn c) =
        procChild dis cte wc wn c := by
      cases hcn : (c.name == cte) with
      | true =>
        have h1 : procChild dis cte wc wn c =
            (setE dis cte true false c).withExclude false := by
          simp [procChild, hcn]
        have hname : ((setE dis cte true false c).withExclude false).name = c.name := by
          rw [LC.name_withExclude, LC.name_setE]
        have h2 : procChild dis cte wc wn ((setE dis cte true false c).withExclude false) =
            (setE dis cte true false
              ((setE dis cte true false c).withExclude false)).withExclude false := by
          unfold procChild
          rw [hname, hcn]
          simp
        rw [h1, h2, setE_withExclude_comm, withExclude_withExclude,
          setE_idem dis cte true false c]
      | false =>
        cases wc with
        | true =>
          have h1 : procChild dis cte true wn c =
              (setE dis cte true (wn || dis.contains c.name) c).withExclude
                (wn || dis.contains c.name) := by
            simp [procChild, hcn]
          have hname : ((setE dis cte true (wn || dis.contains c.name) c).withExclude
              (wn || dis.contains c.name)).name = c.name := by
            rw [LC.name_withExclude, LC.name_setE]
          have h2 : procChild dis cte true wn
              ((setE dis cte true (wn || dis.contains c.name) c).withExclude
                (wn || dis.contains c.name)) =
              (setE dis cte true (wn || dis.contains c.name)
                ((setE dis cte true (wn || dis.contains c.name) c).withExclude
                  (wn || dis.contains c.name))).withExclude
                (wn || dis.contains c.name) := by
            unfold procChild
            rw [hname, hcn]
            simp
          rw [h1, h2, setE_withExclude_comm, withExclude_withExclude,
            setE_idem dis cte true (wn || dis.contains c.name) c]
        | false =>
          have h1 : procChild dis cte false wn c =
              (setE dis cte false false c).withExclude true := by
            simp [procChild, hcn]
          have hname : ((setE dis cte false false c).withExclude true).name = c.name := by
            rw [LC.name_withExclude, LC.name_setE]
          have h2 : procChild dis cte false wn
              ((setE dis cte false false c).withExclude true) =
              (setE dis cte false false
                ((setE dis cte false false c).withExclude true)).withExclude true := by
            unfold procChild
            rw [hname, hcn]
            simp
          rw [h1, h2, setE_withExclude_comm, withExclude_withExclude,
            setE_idem dis cte false false c]
    rw [hproc]

end

/-- C8.  The exclusion propagator is idempotent: running
`set_excluded_collections` twice from the root with identical inputs yields
the same flag assignment on every node as running it once (the assigned flags
depend only on names and topology, which a run preserves). -/
theorem C8_propagator_idempotent (dis : List String) (cte : String) (root : LC) :
    runSetExcluded dis cte (runSetExcluded dis cte root) =
      runSetExcluded dis cte root := by
  unfold runSetExcluded
  exact setE_idem dis cte false false root

/-! ## `find_topmost_collections` (the merge planner) -/

mutual

/-- `find_topmost_collections(collection_names, collection)` (src lines
184-204): if the collection's name is in the list, return the singleton of
that collection and do not search its subtree; otherwise concatenate the
results for the children, in order. -/
def findTopmost (collection_names : List String) : LC → List LC
  | .mk n e cs =>
    if n ∈ collection_names then [.mk n e cs]
    else findTopmostL collection_names cs

/-- The `for c in collection.children: list.extend(...)` loop of
`find_topmost_collections`. -/
def findTopmostL (collection_names : List String) : List LC → List LC
  | [] => []
  | c :: rest => findTopmost collection_names c ++ findTopmostL collection_names rest

end

/-- Shift the leading child index of a position by one. -/
def shiftHead : List Nat → List Nat
  | [] => []
  | j :: q => (j + 1) :: q

mutual

/-- The positions (relative to the searched collection) of the collections
returned by `find_topmost_collections`. -/
def ftPos (names : List String) : LC → List (List Nat)
  | .mk n _ cs => if n ∈ names then [[]] else ftPosL names cs

/-- List version of `ftPos`, prefixing each result with its child index. -/
def ftPosL (names : List String) : List LC → List (List Nat)
  | [] => []
  | c :: rest =>
    (ftPos names c).map (fun q => 0 :: q) ++ (ftPosL names rest).map shiftHead

end

theorem ftPosL_ne_nil (names : List String) :
    ∀ (cs : List LC) (q : List Nat), q ∈ ftPosL names cs → q ≠ []
  | c :: rest, q, hq => by
    rw [show ftPosL names (c :: rest) =
        (ftPos names c).map (fun q => 0 :: q) ++ (ftPosL names rest).map shiftHead
      from rfl] at hq
    rcases List.mem_append.mp hq with h | h
    · rcases List.mem_map.mp h with ⟨q', _, hq'⟩
      rw [← hq']
      simp
    · rcases List.mem_map.mp h with ⟨r, hr, hq'⟩
      have hrne : r ≠ [] := ftPosL_ne_nil names rest r hr
      cases r with
      | nil => exact absurd rfl hrne
      | cons j r' =>
        rw [← hq']
        simp [shiftHead]

theorem ftPosL_mem (names : List String) :
    ∀ (cs : List LC) (q : List Nat),
      q ∈ ftPosL names cs ↔
        ∃ j c q', cs.get? j = some c ∧ q = j :: q' ∧ q' ∈ ftPos names c := by
  intro cs
  induction cs with
  | nil => intro q; simp [ftPosL]
  | cons c rest ih =>
    intro q
    rw [show ftPosL names (c :: rest) =
        (ftPos names c).map (fun q => 0 :: q) ++ (ftPosL names rest).map shiftHead
      from rfl]
    constructor
    · intro hq
      rcases List.mem_append.mp hq with h | h
      · rcases List.mem_map.mp h with ⟨q', hq', heq⟩
        exact ⟨0, c, q', rfl, heq.symm, hq'⟩
      · rcases List.mem_map.mp h with ⟨r, hr, heq⟩
        rcases (ih r).mp hr with ⟨j, c2, q', hget, hreq, hq'⟩
        refine ⟨j + 1, c2, q', ?_, ?_, hq'⟩
        · simpa using hget
        · rw [← heq, hreq]
          rfl
    · rintro ⟨j, c2, q', hget, rfl, hq'⟩
      cases j with
      | zero =>
        apply List.mem_append.mpr
        left
        injection hget with hget
        subst hget
        exact List.mem_map.mpr ⟨q', hq', rfl⟩
      | succ j' =>
        apply List.mem_append.mpr
        right
        apply List.mem_map.mpr
        refine ⟨j' :: q', ?_, rfl⟩
        exact (ih (j' :: q')).mpr ⟨j', c2, q', by simpa using hget, rfl, hq'⟩

theorem ftPos_mem (names : List String) (n : String) (e : Bool) (cs : List LC)
    (q : List Nat) :
    q ∈ ftPos names (.mk n e cs) ↔
      (n ∈ names ∧ q = []) ∨
      (n ∉ names ∧ ∃ j c q', cs.get? j = some c ∧ q = j :: q' ∧ q' ∈ ftPos names c) := by
  rw [show ftPos names (.mk n e cs) =
      (if n ∈ names then [[]] else ftPosL names cs) from rfl]
  by_cases h : n ∈ names
  · simp [h]
  · rw [if_neg h, ftPosL_mem]
    simp [h]

/-- Navigation below a list of sibling subtrees. -/
def getForest (cs : List LC) : List Nat → Option LC
  | [] => none
  | j :: q => (cs.get? j).bind (fun c => c.get q)

mutual

theorem ftPos_get (names : List String) :
    ∀ t : LC, (ftPos names t).map (fun q => t.get q) = (findTopmost names t).map some
  | .mk n e cs => by
    by_cases h : n ∈ names
    · rw [show ftPos names (.mk n e cs) = (if n ∈ names then [[]] else ftPosL names cs)
        from rfl,
        show findTopmost names (.mk n e cs) =
          (if n ∈ names then [LC.mk n e cs] else findTopmostL names cs) from rfl,
        if_pos h, if_pos h]
      rfl
    · rw [show ftPos names (.mk n e cs) = (if n ∈ names then [[]] else ftPosL names cs)
        from rfl,
        show findTopmost names (.mk n e cs) =
          (if n ∈ names then [LC.mk n e cs] else findTopmostL names cs) from rfl,
        if_neg h, if_neg h]
      have hcong : (ftPosL names cs).map (fun q => (LC.mk n e cs).get q) =
          (ftPosL names cs).map (getForest cs) := by
        apply List.map_congr_left
        intro q hq
        cases q with
        | nil => exact absurd rfl (ftPosL_ne_nil names cs [] hq)
        | cons j q' => rfl
      rw [hcong]
      exact ftPosL_get names cs

theorem ftPosL_get (names : List String) :
    ∀ cs : List LC,
      (ftPosL names cs).map (getForest cs) = (findTopmostL names cs).map some
  | [] => rfl
  | c :: rest => by
    rw [show ftPosL names (c :: rest) =
        (ftPos names c).map (fun q => 0 :: q) ++ (ftPosL names rest).map shiftHead
      from rfl,
      show findTopmostL names (c :: rest) =
        findTopmost names c ++ findTopmostL names rest from rfl,
      List.map_append, List.map_append, List.map_map, List.map_map]
    congr 1
    · have h1 : (getForest (c :: rest) ∘ fun q => 0 :: q) = fun q => c.get q := by
        funext q
        rfl
      rw [h1]
      exact ftPos_get names c
    · have h2 : (ftPosL names rest).map (getForest (c :: rest) ∘ shiftHead) =
          (ftPosL names rest).map (getForest rest) := by
        apply List.map_congr_left
        intro r hr
        cases r with
        | nil => exact absurd rfl (ftPosL_ne_nil names rest [] hr)
        | cons j q' => rfl
      rw [h2]
      exact ftPosL_get names rest

end

theorem ftPos_min (names : List String) :
    ∀ (p : List Nat) (t : LC) (q : List Nat),
      p ∈ ftPos names t → q ∈ ftPos names t → p <+: q → p = q := by
  intro p
  induction p with
  | nil =>
    intro t q hp hq _
    cases t with
    | mk n e cs =>
      rcases (ftPos_mem names n e cs []).mp hp with ⟨hn, _⟩ | ⟨_, j, c, p', _, hpe, _⟩
      · rcases (ftPos_mem names n e cs q).mp hq with ⟨_, hqe⟩ | ⟨hn', _⟩
        · exact hqe.symm
        · exact absurd hn hn'.elim
      · cases hpe
  | cons i p' ih =>
    intro t q hp hq hpre
    cases t with
    | mk n e cs =>
      rcases (ftPos_mem names n e cs (i :: p')).mp hp with ⟨_, hpe⟩ |
        ⟨hn, j, c, p₁, hget, hpe, hp₁⟩
      · cases hpe
      · injection hpe with hj hp₁e
        subst hj
        subst hp₁e
        rcases (ftPos_mem names n e cs q).mp hq with ⟨hn', _⟩ |
          ⟨_, k, c₂, q₁, hget₂, hqe, hq₁⟩
        · exact absurd hn' hn
        · subst hqe
          rcases List.cons_prefix_cons.mp hpre with ⟨hik, hpre'⟩
          subst hik
          rw [hget] at hget₂
          injection hget₂ with hc
          subst hc
          rw [ih c q₁ hp₁ hq₁ hpre']

theorem ftPos_cover (names : List String) :
    ∀ (s : List Nat) (t : LC) (c : LC), t.get s = some c → c.name ∈ names →
      ∃! q, q ∈ ftPos names t ∧ q <+: s := by
  intro s
  induction s with
  | nil =>
    intro t c hget hname
    have hct : c = t := by
      rw [show t.get [] = some t from rfl] at hget
      injection hget with h
      exact h.symm
    subst hct
    cases c with
    | mk n e cs =>
      simp only [LC.name] at hname
      refine ⟨[], ⟨?_, List.nil_prefix⟩, ?_⟩
      · exact (ftPos_mem names n e cs []).mpr (Or.inl ⟨hname, rfl⟩)
      · rintro q ⟨_, hqpre⟩
        exact List.prefix_nil.mp hqpre
  | cons j s' ih =>
    intro t c hget hname
    cases t with
    | mk n e cs =>
      rw [LC.get_cons] at hget
      simp only [LC.children] at hget
      cases hcj : cs.get? j with
      | none => rw [hcj] at hget; cases hget
      | some cj =>
        rw [hcj, Option.some_bind] at hget
        by_cases h : n ∈ names
        · refine ⟨[], ⟨?_, List.nil_prefix⟩, ?_⟩
          · exact (ftPos_mem names n e cs []).mpr (Or.inl ⟨h, rfl⟩)
          · rintro q ⟨hqmem, _⟩
            rcases (ftPos_mem names n e cs q).mp hqmem with ⟨_, hqe⟩ | ⟨hn', _⟩
            · exact hqe
            · exact absurd h hn'.elim
        · rcases ih cj c hget hname with ⟨q', ⟨hq'mem, hq'pre⟩, huniq⟩
          refine ⟨j :: q', ⟨?_, ?_⟩, ?_⟩
          · exact (ftPos_mem names n e cs (j :: q')).mpr
              (Or.inr ⟨h, j, cj, q', hcj, rfl, hq'mem⟩)
          · exact List.cons_prefix_cons.mpr ⟨rfl, hq'pre⟩
          · rintro r ⟨hrmem, hrpre⟩
            rcases (ftPos_mem names n e cs r).mp hrmem with ⟨hn', _⟩ |
              ⟨_, k, ck, r₁, hgetk, hre, hr₁⟩
            · exact absurd hn' h
            · subst hre
              rcases List.cons_prefix_cons.mp hrpre with ⟨hkj, hr₁pre⟩
              subst hkj
              rw [hcj] at hgetk
              injection hgetk with hck
              subst hck
              rw [huniq r₁ ⟨hr₁, hr₁pre⟩]

/-- Collections of the merge-planner scenario tree `Root{B{C,D},E}`. -/
def qxcC : LC := .mk "C" false []

/-- Scenario node `D`. -/
def qxcD : LC := .mk "D" false []

/-- Scenario node `B` with children `C`, `D`. -/
def qxcB : LC := .mk "B" false [qxcC, qxcD]

/-- Scenario node `E`. -/
def qxcE : LC := .mk "E" false []

/-- Scenario root `Root` with children `B`, `E`. -/
def qxcRoot : LC := .mk "Root" false [qxcB, qxcE]

/-- C3.  `find_topmost_collections` returns a minimal covering set.  Stated
over the positions (`ftPos`) of the returned collections, which correspond
one-to-one to the returned collections (first conjunct): no returned position
is a proper prefix (ancestor) of another; and every node of the searched
subtree whose name is requested lies below exactly one returned position.
Moreover, on the scenario tree `Root{B{C,D},E}` with requested names
`{B,E}`, the search from `Root` returns `[B, E]` and the search from `B`
returns `[B]`. -/
theorem C3_merge_planner :
    (∀ (names : List String) (t : LC),
      ((ftPos names t).map (fun q => t.get q) = (findTopmost names t).map some) ∧
      (∀ p q, p ∈ ftPos names t → q ∈ ftPos names t → p <+: q → p = q) ∧
      (∀ s c, t.get s = some c → c.name ∈ names →
        ∃! q, q ∈ ftPos names t ∧ q <+: s)) ∧
    findTopmost ["B", "E"] qxcRoot = [qxcB, qxcE] ∧
    findTopmost ["B", "E"] qxcB = [qxcB] := by
  refine ⟨?_, rfl, rfl⟩
  intro names t
  exact ⟨ftPos_get names t, fun p q => ftPos_min names p t q,
    fun s c => ftPos_cover names s t c⟩

/-- Witness for `C3_merge_planner` at concrete inputs: on the scenario tree,
minimality applied to the two returned positions, and the unique-cover
property applied to the position of requested node `B` itself. -/
theorem C3_merge_planner_witness :
    ([0] ∈ ftPos ["B", "E"] qxcRoot ∧ [1] ∈ ftPos ["B", "E"] qxcRoot ∧
      ¬ ([0] <+: [1])) ∧
    (∃! q, q ∈ ftPos ["B", "E"] qxcRoot ∧ q <+: [0]) := by
  constructor
  · refine ⟨by decide, by decide, ?_⟩
    intro hpre
    have h01 : ([0] : List Nat) = [1] :=
      (C3_merge_planner.1 ["B", "E"] qxcRoot).2.1 [0] [1] (by decide) (by decide) hpre
    cases h01
  · exact (C3_merge_planner.1 ["B", "E"] qxcRoot).2.2 [0] qxcB rfl (by decide)

/-! ## Configuration model: `get_export_settings` and exporter arguments -/

/-- Registry of supported exporters (src lines 60-62): currently only `fbx`. -/
def EXPORTERS_names : List String := ["fbx"]

/-- Name of the in-Blender text holding the settings document (src line 48). -/
def CONFIG_FILE_NAME : String := "QuickExportCollectionConfig"

/-- RNA property kinds of exporter operator parameters
(src lines 682-703: `BoolProperty`, `StringProperty`, `FloatProperty`,
`IntProperty`, `EnumProperty` with its option identifiers and
`is_enum_flag`). -/
inductive PType : Type where
  | pbool
  | pstr
  | pfloat
  | pint
  | penum (options : List String) (is_enum_flag : Bool)
deriving DecidableEq, Repr

/-- Values passed to the exporter operator.  Numeric values are carried as
their raw config strings: the model never computes with them. -/
inductive PVal : Type where
  | vb (b : Bool)
  | vs (s : String)
  | vnum (raw : String)
  | vset (l : List String)
deriving DecidableEq, Repr

/-- `get_properties_for_op` (src lines 106-112): all the properties of a
Blender export operator minus the skip list of parameters that must not be
configurable. -/
def get_properties_for_op (props : List (String × PType)) : List (String × PType) :=
  let skip := ["rna_type", "filepath", "filter_glob", "use_active_collection",
    "use_selection", "batch_mode"]
  props.filter (fun kv => !(skip.contains kv.1))

/-- `EXPORTER_PROPERTIES` (src line 114), built from the host RNA property
lists of the registered export operators. -/
def EXPORTER_PROPERTIES_model (raw : String → List (String × PType)) :
    String → List (String × PType) :=
  fun k => get_properties_for_op (raw k)

/-- The guard of src lines 279-285 under the key-membership reading of
`'use_selection' in EXPORTER_PROPERTIES[exporter_name]` (the literal Python
membership test ranges over `(name, property)` pairs, so a bare string can
never be a member; the reading under which the branch could ever fire
compares against the property names, modelled here). -/
def use_selection_guard (props : List (String × PType)) : Bool :=
  ((get_properties_for_op props).map Prod.fst).contains "use_selection"

/-- `str.lower()` over the character list (extensionally `String.toLower`,
in a form the kernel evaluates). -/
def strToLower (s : String) : String := ⟨s.toList.map Char.toLower⟩

/-- `str.startswith(pre)` over the character lists. -/
def strStartsWith (s pre : String) : Bool := pre.toList.isPrefixOf s.toList

/-- `str.endswith(suf)` over the character lists. -/
def strEndsWith (s suf : String) : Bool := suf.toList.isSuffixOf s.toList

/-- `str[n:]` over the character list. -/
def strDrop (s : String) (n : Nat) : String := ⟨s.toList.drop n⟩

/-- Helper of `strSplitComma`. -/
def splitCommaAux : List Char → List Char → List String
  | [], acc => [⟨acc.reverse⟩]
  | c :: rest, acc =>
    if c == ',' then ⟨acc.reverse⟩ :: splitCommaAux rest []
    else splitCommaAux rest (c :: acc)

/-- `val.split(',')` over the character list. -/
def strSplitComma (s : String) : List String := splitCommaAux s.toList []

/-- A parsed ini settings document: the DEFAULT section plus the named
sections, with raw string values (the `configparser` collaborator). -/
structure IniCfg : Type where
  defaults : List (String × String)
  sections : List (String × List (String × String))
deriving DecidableEq, Repr

/-- `config.has_section(name)` (the DEFAULT section is not a section). -/
def IniCfg.has_section (cfg : IniCfg) (name : String) : Bool :=
  cfg.sections.any (fun s => s.1 == name)

/-- `config.add_section(name)`. -/
def IniCfg.add_section (cfg : IniCfg) (name : String) : IniCfg :=
  { cfg with sections := cfg.sections ++ [(name, [])] }

/-- `config[sec].get(key)`: the section's value, falling back to DEFAULT. -/
def IniCfg.getOpt (cfg : IniCfg) (sec key : String) : Option String :=
  match cfg.sections.find? (fun s => s.1 == sec) with
  | some s =>
    match s.2.find? (fun kv => kv.1 == key) with
    | some kv => some kv.2
    | none => (cfg.defaults.find? (fun kv => kv.1 == key)).map Prod.snd
  | none => none

/-- `configparser` boolean literal parsing (its `BOOLEAN_STATES`). -/
def pyBool (s : String) : Option Bool :=
  let l := strToLower s
  if l == "1" || l == "yes" || l == "true" || l == "on" then some true
  else if l == "0" || l == "no" || l == "false" || l == "off" then some false
  else none

/-- `getboolean(key, fallback)`: absent keys give the fallback, unparsable
values raise `ValueError` (modelled as `Except.error`). -/
def IniCfg.getbool (cfg : IniCfg) (sec key : String) (fallback : Bool) :
    Except Unit Bool :=
  match cfg.getOpt sec key with
  | none => .ok fallback
  | some v =>
    match pyBool v with
    | some b => .ok b
    | none => .error ()

/-- Executable approximation of Python `float()` acceptance: optional sign,
at least one digit, digits and at most one decimal point.  The numeric value
is never used downstream of the parse, only acceptance matters. -/
def isFloatStr (s : String) : Bool :=
  let cs := s.toList
  let cs := match cs with
    | '+' :: r => r
    | '-' :: r => r
    | r => r
  !cs.isEmpty && cs.all (fun c => c.isDigit || c == '.') &&
    ((cs.filter (fun c => c == '.')).length ≤ 1 : Bool) && cs.any Char.isDigit

/-- Executable approximation of Python `int()` acceptance. -/
def isIntStr (s : String) : Bool :=
  let cs := s.toList
  let cs := match cs with
    | '+' :: r => r
    | '-' :: r => r
    | r => r
  !cs.isEmpty && cs.all Char.isDigit

/-- One parameter coercion of `get_exporter_args_from_config`
(src lines 681-718): `.ok none` when the key is absent in the config (the
parameter is skipped), `.error` on a type or enum-membership failure. -/
def coerceProp (cfg : IniCfg) (sec : String) (prop_name : String) :
    PType → Except Unit (Option PVal)
  | .pbool =>
    match cfg.getOpt sec prop_name with
    | none => .ok none
    | some v =>
      match pyBool v with
      | some b => .ok (some (.vb b))
      | none => .error ()
  | .pstr => .ok ((cfg.getOpt sec prop_name).map PVal.vs)
  | .pfloat =>
    match cfg.getOpt sec prop_name with
    | none => .ok none
    | some v => if isFloatStr v then .ok (some (.vnum v)) else .error ()
  | .pint =>
    match cfg.getOpt sec prop_name with
    | none => .ok none
    | some v => if isIntStr v then .ok (some (.vnum v)) else .error ()
  | .penum options is_flag =>
    match cfg.getOpt sec prop_name with
    | none => .ok none
    | some v =>
      if is_flag then
        let vals := strSplitComma v
        if vals.all (fun x => options.contains x) then .ok (some (.vset vals))
        else .error ()
      else
        if options.contains v then .ok (some (.vs v)) else .error ()

/-- `get_exporter_args_from_config` (src lines 673-722): the dictionary of
configured exporter parameters; a single coercion failure aborts with `none`
(all-or-nothing), absent keys are skipped. -/
def get_exporter_args : List (String × PType) → IniCfg → String →
    Option (List (String × PVal))
  | [], _, _ => some []
  | (k, ty) :: rest, cfg, sec =>
    match coerceProp cfg sec k ty with
    | .error () => none
    | .ok none => get_exporter_args rest cfg sec
    | .ok (some v) => (get_exporter_args rest cfg sec).map (fun l => (k, v) :: l)

/-- Dictionary lookup in an argument map. -/
def getArg (args : List (String × PVal)) (k : String) : Option PVal :=
  (args.find? (fun kv => kv.1 == k)).map Prod.snd

/-- Dictionary assignment `args[k] = v`. -/
def setArg (args : List (String × PVal)) (k : String) (v : PVal) :
    List (String × PVal) :=
  if args.any (fun kv => kv.1 == k) then
    args.map (fun kv => if kv.1 == k then (k, v) else kv)
  else args ++ [(k, v)]

/-- Dictionary deletion `args.pop(k, None)`. -/
def delArg (args : List (String × PVal)) (k : String) : List (String × PVal) :=
  args.filter (fun kv => !(kv.1 == k))

/-- `os.path.splitext` on a bare file name: split at the last dot that has a
non-dot character somewhere before it. -/
def splitext (s : String) : String × String :=
  let cs := s.toList
  let ok := fun (i : Nat) => (cs.get? i == some '.') &&
    ((List.range i).any (fun j => !(cs.get? j == some '.')))
  match ((List.range cs.length).filter ok).getLast? with
  | some i => (⟨cs.take i⟩, ⟨cs.drop i⟩)
  | none => (s, "")

/-- `bpy.path.ensure_ext(filepath, ext)` with its default case-insensitive
comparison: keep a matching extension, replace a differing one, append when
there is none. -/
def ensure_ext (filepath ext : String) : String :=
  let be := splitext filepath
  if !(be.1 == "") && !(be.2 == "") then
    if strToLower be.2 == strToLower ext then filepath else be.1 ++ ext
  else filepath ++ ext

/-- The translate table of src lines 606-607: characters illegal in file
names become underscores. -/
def sanitizeFilename (s : String) : String :=
  let bad : List Char := ['\\', '/', ':', '*', '?', '\"', '\'', '<', '>', '|']
  ⟨s.toList.map (fun c => if bad.contains c then '_' else c)⟩

/-- `os.path.join` of the resolved directory and the sanitized file name
(src line 609; the sanitized name contains no separators). -/
def joinpath (dir fname : String) : String :=
  if strEndsWith dir "/" then dir ++ fname else dir ++ "/" ++ fname

/-- The `bpy.data.texts` store: text names to contents. -/
def textsGet (texts : List (String × String)) (name : String) : Option String :=
  (texts.find? (fun t => t.1 == name)).map Prod.snd

/-- Create-or-overwrite a text block (src lines 657-659). -/
def textsSet (texts : List (String × String)) (name content : String) :
    List (String × String) :=
  if texts.any (fun t => t.1 == name) then
    texts.map (fun t => if t.1 == name then (name, content) else t)
  else texts ++ [(name, content)]

/-- The leading comment block of the generated config file (src lines
616-649).  The block is explanatory text that the add-on itself never reads
back; only its first line is reproduced here. -/
def configFileHeader : String :=
  "# Settings file for Quick Export Collection addon.\n"

/-- `make_new_config_file` (src lines 614-659): write the whole default
document, ending with a `[DEFAULT]` section and a section for the collection
that carries the resolved file name. -/
def make_new_config_file (texts : List (String × String))
    (collection_name filename : String) : List (String × String) :=
  let text := configFileHeader ++ "\n[DEFAULT]\nexporter = fbx\ndirectory = //\n\n["
    ++ collection_name ++ "]\nfilename = " ++ filename ++ "\n"
  textsSet texts CONFIG_FILE_NAME text

/-- `append_new_section_to_config_file` (src lines 662-670). -/
def append_new_section_to_config_file (texts : List (String × String))
    (collection_name filename : String) : List (String × String) :=
  let text := (textsGet texts CONFIG_FILE_NAME).getD ""
  let text := if strEndsWith text "\n" then text else text ++ "\n"
  let text := text ++ "\n[" ++ collection_name ++ "]\nfilename = " ++ filename ++ "\n"
  textsSet texts CONFIG_FILE_NAME text

/-- The per-section scan of src lines 594-603: the globally unexportable
names, the names requesting a mesh join, and the resolved joined-mesh names. -/
def scanSections (cfg : IniCfg) :
    List (String × List (String × String)) →
      Except Unit (List String × List String × List (String × String))
  | [] => .ok ([], [], [])
  | (secName, _) :: rest =>
    match cfg.getbool secName "exportable" true with
    | .error () => .error ()
    | .ok exp =>
      match cfg.getbool secName "join_meshes" false with
      | .error () => .error ()
      | .ok jm =>
        match scanSections cfg rest with
        | .error () => .error ()
        | .ok (ne, jn, jnames) =>
          .ok (if exp then ne else secName :: ne,
            if jm then secName :: jn else jn,
            if jm then
              (secName, (cfg.getOpt secName "joined_mesh_name").getD secName) :: jnames
            else jnames)

/-- Reports issued by `get_export_settings` before it returns `None`. -/
inductive CReport : Type where
  | notExportable
  | unknownExporter
  | firstRunCreated (filename : String)
  | firstRunAppended (filename : String)
  | blendNotSaved
  | missingDir
  | badParameter
deriving DecidableEq, Repr

/-- The tuple returned by a successful `get_export_settings`
(src line 611), plus the resolved directory and the raw (pre-normalization)
file name for specification purposes. -/
structure ResolvedSettings : Type where
  exporter_name : String
  args : List (String × PVal)
  export_dir : String
  raw_filename : String
  collection_names_not_exportable : List String
  collection_names_requesting_join : List String
  collection_joined_mesh_names : List (String × String)
deriving DecidableEq, Repr

/-- Outcome of `get_export_settings`: `cancelledWith` is the `return None`
paths together with the `report` issued and the text store afterwards
(`execute` then returns `CANCELLED`); `raisedError` is an uncaught
`ValueError` from a `getboolean` without surrounding handler. -/
inductive GESOut : Type where
  | cancelledWith (r : CReport) (texts : List (String × String))
  | ok (s : ResolvedSettings) (texts : List (String × String))
  | raisedError
deriving DecidableEq, Repr

/-- Lines 509-520 of the source: read the settings text; absent or blank
text means a config file must be created and the parser stays empty. -/
def readConfigDoc (parse : String → IniCfg) (texts : List (String × String)) :
    Bool × IniCfg :=
  match textsGet texts CONFIG_FILE_NAME with
  | some txt =>
    if txt.toList.all Char.isWhitespace then (true, IniCfg.mk [] [])
    else (false, parse txt)
  | none => (true, IniCfg.mk [] [])

/-- Lines 522-524: ensure the target section exists, remembering whether it
had to be added. -/
def resolveSection (cfg : IniCfg) (name : String) : IniCfg × Bool :=
  if cfg.has_section name then (cfg, false) else (cfg.add_section name, true)

/-- `QXC_OT_export.get_export_settings` (src lines 501-611).  Host
collaborators are parameters: `exporter_props` is `EXPORTER_PROPERTIES`,
`parse` is `configparser.read_string`, `abspath` is
`normpath(bpy.path.native_pathsep(bpy.path.abspath(...)))`, `isdir` is
`os.path.isdir`, `is_saved` is `bpy.data.is_saved`.  The `./`-prefix
warnings only normalize the directory string and do not affect control
flow. -/
def get_export_settings (exporter_props : String → List (String × PType))
    (parse : String → IniCfg) (abspath : String → String) (isdir : String → Bool)
    (is_saved : Bool) (texts : List (String × String)) (collection_name : String) :
    GESOut :=
  let rd := readConfigDoc parse texts
  let create_conf_file := rd.1
  let rs := resolveSection rd.2 collection_name
  let config := rs.1
  let append_section := rs.2
  match config.getbool collection_name "exportable" true with
  | .error () => .raisedError
  | .ok exportable =>
    if !exportable then .cancelledWith .notExportable texts
    else
      let exporter_name := (config.getOpt collection_name "exporter").getD "fbx"
      if !(EXPORTERS_names.contains exporter_name) then
        .cancelledWith .unknownExporter texts
      else
        let export_filename := (config.getOpt collection_name "filename").getD
          (collection_name ++ "." ++ exporter_name)
        let export_dir := (config.getOpt collection_name "directory").getD "//"
        let export_dir :=
          if strStartsWith export_dir "./" || strStartsWith export_dir ".\\" then
            "//" ++ (strDrop export_dir 2)
          else if export_dir == "." then "//"
          else export_dir
        if create_conf_file then
          .cancelledWith (.firstRunCreated export_filename)
            (make_new_config_file texts collection_name export_filename)
        else if append_section then
          .cancelledWith (.firstRunAppended export_filename)
            (append_new_section_to_config_file texts collection_name export_filename)
        else if !is_saved && strStartsWith export_dir "//" then
          .cancelledWith .blendNotSaved texts
        else
          let export_dir := abspath export_dir
          if !(isdir export_dir) then .cancelledWith .missingDir texts
          else
            match get_exporter_args (exporter_props exporter_name) config
                collection_name with
            | none => .cancelledWith .badParameter texts
            | some args =>
              match scanSections config config.sections with
              | .error () => .raisedError
              | .ok (not_exportable, req_join, joined_names) =>
                let ext_filename := sanitizeFilename
                  (ensure_ext export_filename ("." ++ exporter_name))
                let args := setArg args "filepath"
                  (.vs (joinpath export_dir ext_filename))
                .ok (ResolvedSettings.mk exporter_name args export_dir
                  export_filename not_exportable req_join joined_names) texts

/-- The settings massage of `execute` before the export call
(src lines 287-308): drop any configured `use_active_collection` /
`use_selection`, default `check_existing` to `False`, and force
`use_selection = True`. -/
def finalizeSettings (props : List (String × PType))
    (args : List (String × PVal)) : List (String × PVal) :=
  let args := delArg args "use_active_collection"
  let args := delArg args "use_selection"
  let args := if (getArg args "check_existing").isNone then
    setArg args "check_existing" (.vb false) else args
  let args := if ((props.map Prod.fst).contains "use_active_collection") then
    setArg args "use_active_collection" (.vb false) else args
  setArg args "use_selection" (.vb true)

theorem contains_eq_false_of_not_mem {α : Type} [BEq α] [LawfulBEq α]
    {l : List α} {k : α} (h : k ∉ l) :
    l.contains k = false := by
  induction l with
  | nil => rfl
  | cons a rest ih =>
    rw [List.contains_cons]
    have hka : (k == a) = false :=
      beq_eq_false_iff_ne.mpr (fun hc => h (hc ▸ List.mem_cons_self a rest))
    rw [hka, Bool.false_or]
    exact ih (fun hc => h (List.mem_cons_of_mem a hc))

theorem get_properties_for_op_no_skip (props : List (String × PType)) (k : String)
    (hk : (["rna_type", "filepath", "filter_glob", "use_active_collection",
      "use_selection", "batch_mode"].contains k) = true) :
    k ∉ (get_properties_for_op props).map Prod.fst := by
  intro hmem
  rcases List.mem_map.mp hmem with ⟨kv, hkvmem, hkey⟩
  simp only [get_properties_for_op] at hkvmem
  have hfil := List.of_mem_filter hkvmem
  rw [hkey] at hfil
  rw [hk] at hfil
  cases hfil

/-- C10.  For every exporter property list the guard condition of src lines
279-285 is false: `get_properties_for_op` removes `use_selection` via its
skip list, so `'use_selection' in EXPORTER_PROPERTIES[exporter_name]` cannot
hold and the error branch reporting a missing `use_selection` property is
unreachable (under the literal Python semantics the test compares a string
against `(name, property)` pairs and is false outright as well). -/
theorem C10_use_selection_guard_unreachable (props : List (String × PType)) :
    use_selection_guard props = false := by
  unfold use_selection_guard
  exact contains_eq_false_of_not_mem
    (get_properties_for_op_no_skip props "use_selection" (by decide))

theorem getArg_cons (kv : String × PVal) (rest : List (String × PVal)) (k : String) :
    getArg (kv :: rest) k = if kv.1 == k then some kv.2 else getArg rest k := by
  by_cases h : kv.1 = k
  · unfold getArg
    rw [@List.find?_cons_of_pos _ (fun kv => kv.1 == k) kv rest (by simp [h])]
    simp [h]
  · unfold getArg
    rw [@List.find?_cons_of_neg _ (fun kv => kv.1 == k) kv rest (by simp [h])]
    simp [h]

theorem getArg_map_set_other (k : String) (v : PVal) (k' : String) (h : k' ≠ k) :
    ∀ args : List (String × PVal),
      getArg (args.map (fun kv => if kv.1 == k then (k, v) else kv)) k' =
        getArg args k'
  | [] => rfl
  | kv :: rest => by
    rw [List.map_cons]
    by_cases hb : kv.1 = k
    · rw [getArg_cons, getArg_cons]
      simp only [hb]
      have h1 : ((k == k) = true) := by simp
      rw [if_pos h1]
      have h2 : ((k == k') = false) := beq_eq_false_iff_ne.mpr (fun hc => h hc.symm)
      rw [h2]
      simp only [Bool.false_eq_true, if_false]
      exact getArg_map_set_other k v k' h rest
    · have hbf : ((kv.1 == k) = false) := beq_eq_false_iff_ne.mpr hb
      rw [hbf]
      simp only [Bool.false_eq_true, if_false]
      rw [getArg_cons, getArg_cons]
      by_cases hb' : kv.1 = k'
      · simp [hb']
      · have hbf' : ((kv.1 == k') = false) := beq_eq_false_iff_ne.mpr hb'
        rw [hbf']
        simp only [Bool.false_eq_true, if_false]
        exact getArg_map_set_other k v k' h rest

theorem getArg_map_set_same (k : String) (v : PVal) :
    ∀ args : List (String × PVal), args.any (fun kv => kv.1 == k) = true →
      getArg (args.map (fun kv => if kv.1 == k then (k, v) else kv)) k = some v
  | kv :: rest, hany => by
    rw [List.map_cons]
    by_cases hb : kv.1 = k
    · have hbt : ((kv.1 == k) = true) := by simp [hb]
      rw [hbt]
      simp only [if_true]
      rw [getArg_cons]
      simp
    · have hbf : ((kv.1 == k) = false) := beq_eq_false_iff_ne.mpr hb
      rw [hbf]
      simp only [Bool.false_eq_true, if_false]
      rw [getArg_cons, hbf]
      simp only [Bool.false_eq_true, if_false]
      rw [List.any_cons, hbf, Bool.false_or] at hany
      exact getArg_map_set_same k v rest hany

theorem getArg_append_single_same (k : String) (v : PVal) :
    ∀ args : List (String × PVal), args.any (fun kv => kv.1 == k) = false →
      getArg (args ++ [(k, v)]) k = some v
  | [], _ => by
    rw [List.nil_append, getArg_cons]
    simp
  | kv :: rest, hany => by
    rw [List.any_cons] at hany
    rcases Bool.or_eq_false_iff.mp hany with ⟨hb, hrest⟩
    rw [List.cons_append, getArg_cons, hb]
    simp only [Bool.false_eq_true, if_false]
    exact getArg_append_single_same k v rest hrest

theorem getArg_append_single_other (k : String) (v : PVal) (k' : String) (h : k' ≠ k) :
    ∀ args : List (String × PVal), getArg (args ++ [(k, v)]) k' = getArg args k'
  | [] => by
    rw [List.nil_append, getArg_cons]
    have h1 : ((k == k') = false) := beq_eq_false_iff_ne.mpr (fun hc => h hc.symm)
    rw [h1]
    rfl
  | kv :: rest => by
    rw [List.cons_append, getArg_cons, getArg_cons]
    by_cases hb : kv.1 = k'
    · simp [hb]
    · have hbf : ((kv.1 == k') = false) := beq_eq_false_iff_ne.mpr hb
      rw [hbf]
      simp only [Bool.false_eq_true, if_false]
      exact getArg_append_single_other k v k' h rest

theorem getArg_setArg_same (args : List (String × PVal)) (k : String) (v : PVal) :
    getArg (setArg args k v) k = some v := by
  unfold setArg
  cases hany : args.any (fun kv => kv.1 == k) with
  | true =>
    rw [if_pos rfl]
    exact getArg_map_set_same k v args hany
  | false =>
    rw [if_neg (by simp)]
    exact getArg_append_single_same k v args hany

theorem getArg_setArg_other (args : List (String × PVal)) (k : String) (v : PVal)
    (k' : String) (h : k' ≠ k) :
    getArg (setArg args k v) k' = getArg args k' := by
  unfold setArg
  cases hany : args.any (fun kv => kv.1 == k) with
  | true =>
    rw [if_pos rfl]
    exact getArg_map_set_other k v k' h args
  | false =>
    rw [if_neg (by simp)]
    exact getArg_append_single_other k v k' h args

theorem getArg_delArg_same (k : String) :
    ∀ args : List (String × PVal), getArg (delArg args k) k = none
  | [] => rfl
  | kv :: rest => by
    unfold delArg
    rw [List.filter_cons]
    by_cases hb : kv.1 = k
    · have hbt : ((kv.1 == k) = true) := by simp [hb]
      rw [hbt]
      simp only [Bool.not_true, Bool.false_eq_true, if_false]
      exact getArg_delArg_same k rest
    · have hbf : ((kv.1 == k) = false) := beq_eq_false_iff_ne.mpr hb
      rw [hbf]
      simp only [Bool.not_false, if_true]
      rw [getArg_cons, hbf]
      simp only [Bool.false_eq_true, if_false]
      exact getArg_delArg_same k rest

theorem getArg_delArg_other (k : String) (k' : String) (h : k' ≠ k) :
    ∀ args : List (String × PVal), getArg (delArg args k) k' = getArg args k'
  | [] => rfl
  | kv :: rest => by
    unfold delArg
    rw [List.filter_cons]
    by_cases hb : kv.1 = k
    · have hbt : ((kv.1 == k) = true) := by simp [hb]
      rw [hbt]
      simp only [Bool.not_true, Bool.false_eq_true, if_false]
      rw [getArg_cons]
      have h2 : ((kv.1 == k') = false) := by
        rw [hb]
        exact beq_eq_false_iff_ne.mpr (fun hc => h hc.symm)
      rw [h2]
      simp only [Bool.false_eq_true, if_false]
      exact getArg_delArg_other k k' h rest
    · have hbf : ((kv.1 == k) = false) := beq_eq_false_iff_ne.mpr hb
      rw [hbf]
      simp only [Bool.not_false, if_true]
      rw [getArg_cons, getArg_cons]
      by_cases hb' : kv.1 = k'
      · simp [hb']
      · have hbf' : ((kv.1 == k') = false) := beq_eq_false_iff_ne.mpr hb'
        rw [hbf']
        simp only [Bool.false_eq_true, if_false]
        exact getArg_delArg_other k k' h rest

theorem get_exporter_args_keys (k : String) :
    ∀ (props : List (String × PType)) (cfg : IniCfg) (sec : String)
      (args : List (String × PVal)),
      get_exporter_args props cfg sec = some args →
      k ∉ props.map Prod.fst → getArg args k = none
  | [], _, _, args, h, _ => by
    injection h with h
    rw [← h]
    rfl
  | (k0, ty) :: rest, cfg, sec, args, h, hk => by
    unfold get_exporter_args at h
    split at h
    · cases h
    · exact get_exporter_args_keys k rest cfg sec args h
        (fun hc => hk (by simp [hc]))
    · cases hrest : get_exporter_args rest cfg sec with
      | none => rw [hrest] at h; cases h
      | some l =>
        rw [hrest] at h
        simp only [Option.map_some'] at h
        injection h with h
        subst h
        rw [getArg_cons]
        have hb : ((k0 == k) = false) := by
          apply beq_eq_false_iff_ne.mpr
          intro hc
          exact hk (by simp [hc])
        rw [hb]
        simp only [Bool.false_eq_true, if_false]
        exact get_exporter_args_keys k rest cfg sec l hrest
          (fun hc => hk (by simp [hc]))

theorem finalizeSettings_use_selection (props : List (String × PType))
    (m : List (String × PVal)) :
    getArg (finalizeSettings props m) "use_selection" = some (PVal.vb true) := by
  unfold finalizeSettings
  exact getArg_setArg_same _ _ _

theorem finalizeSettings_uac (props : List (String × PType))
    (m : List (String × PVal))
    (hguard : ((props.map Prod.fst).contains "use_active_collection") = false) :
    getArg (finalizeSettings props m) "use_active_collection" = none := by
  unfold finalizeSettings
  rw [hguard]
  simp only [Bool.false_eq_true, if_false]
  rw [getArg_setArg_other _ _ _ _ (by decide)]
  split
  · rw [getArg_setArg_other _ _ _ _ (by decide),
      getArg_delArg_other "use_selection" "use_active_collection" (by decide),
      getArg_delArg_same]
  · rw [getArg_delArg_other "use_selection" "use_active_collection" (by decide),
      getArg_delArg_same]

theorem finalizeSettings_other (props : List (String × PType))
    (m : List (String × PVal)) (k : String)
    (hguard : ((props.map Prod.fst).contains "use_active_collection") = false)
    (h1 : k ≠ "use_selection") (h2 : k ≠ "use_active_collection")
    (h3 : k ≠ "check_existing") :
    getArg (finalizeSettings props m) k = getArg m k := by
  unfold finalizeSettings
  rw [hguard]
  simp only [Bool.false_eq_true, if_false]
  rw [getArg_setArg_other _ _ _ _ h1]
  split
  · rw [getArg_setArg_other _ _ _ _ h3,
      getArg_delArg_other "use_selection" k h1,
      getArg_delArg_other "use_active_collection" k h2]
  · rw [getArg_delArg_other "use_selection" k h1,
      getArg_delArg_other "use_active_collection" k h2]

theorem EXPORTER_PROPERTIES_no_uac (raw : String → List (String × PType))
    (en : String) :
    (((EXPORTER_PROPERTIES_model raw en).map Prod.fst).contains
      "use_active_collection") = false :=
  contains_eq_false_of_not_mem
    (get_properties_for_op_no_skip (raw en) "use_active_collection" (by decide))

/-- C9.  Whenever the external export primitive is invoked, the parameter
map passed to it (the resolved settings after the massage of src lines
287-308) has `use_selection = True` and `filepath` equal to the resolved
export directory joined with the extension-normalized, sanitized file name,
and carries no config-supplied value for `use_selection`,
`use_active_collection`, `filepath`, `filter_glob` or `batch_mode`: the
first two are popped and reassigned, and the five keys are excluded from the
configurable parameter list by `get_properties_for_op`, so
`use_active_collection`, `filter_glob` and `batch_mode` are absent
altogether. -/
theorem C9_export_call_invariants
    (raw : String → List (String × PType)) (parse : String → IniCfg)
    (abspath : String → String) (isdir : String → Bool) (is_saved : Bool)
    (texts : List (String × String)) (collection_name : String)
    (r : ResolvedSettings) (ts : List (String × String))
    (hok : get_export_settings (EXPORTER_PROPERTIES_model raw) parse abspath isdir
      is_saved texts collection_name = GESOut.ok r ts) :
    getArg (finalizeSettings (EXPORTER_PROPERTIES_model raw r.exporter_name) r.args)
        "use_selection" = some (PVal.vb true) ∧
    getArg (finalizeSettings (EXPORTER_PROPERTIES_model raw r.exporter_name) r.args)
        "filepath" = some (PVal.vs (joinpath r.export_dir
          (sanitizeFilename (ensure_ext r.raw_filename ("." ++ r.exporter_name))))) ∧
    getArg (finalizeSettings (EXPORTER_PROPERTIES_model raw r.exporter_name) r.args)
        "use_active_collection" = none ∧
    getArg (finalizeSettings (EXPORTER_PROPERTIES_model raw r.exporter_name) r.args)
        "filter_glob" = none ∧
    getArg (finalizeSettings (EXPORTER_PROPERTIES_model raw r.exporter_name) r.args)
        "batch_mode" = none := by
  unfold get_export_settings at hok
  simp only [] at hok
  repeat' (first | exact GESOut.noConfusion hok | split at hok)
  all_goals (
    rename_i x1 args hargs x2 ne jn jns hscan
    injection hok with h1 h2
    subst h1
    subst h2
    simp only []
    refine ⟨finalizeSettings_use_selection _ _, ?_, ?_, ?_, ?_⟩
    · rw [finalizeSettings_other _ _ _ (EXPORTER_PROPERTIES_no_uac raw _)
        (by decide) (by decide) (by decide)]
      exact getArg_setArg_same _ _ _
    · exact finalizeSettings_uac _ _ (EXPORTER_PROPERTIES_no_uac raw _)
    · rw [finalizeSettings_other _ _ _ (EXPORTER_PROPERTIES_no_uac raw _)
        (by decide) (by decide) (by decide),
        getArg_setArg_other _ _ _ _ (by decide)]
      exact get_exporter_args_keys "filter_glob" _ _ _ _ hargs
        (get_properties_for_op_no_skip _ _ (by decide))
    · rw [finalizeSettings_other _ _ _ (EXPORTER_PROPERTIES_no_uac raw _)
        (by decide) (by decide) (by decide),
        getArg_setArg_other _ _ _ _ (by decide)]
      exact get_exporter_args_keys "batch_mode" _ _ _ _ hargs
        (get_properties_for_op_no_skip _ _ (by decide)))

/-- Host property list of a concrete exporter used to witness C9. -/
def c9raw : String → List (String × PType) := fun _ =>
  [("rna_type", PType.pstr), ("filepath", PType.pstr),
   ("use_selection", PType.pbool), ("check_existing", PType.pbool),
   ("object_types", PType.penum ["MESH", "LIGHT"] true)]

/-- Concrete parsed settings document used to witness C9. -/
def c9cfg : IniCfg := ⟨[("exporter", "fbx")], [("Props", [])]⟩

/-- Concrete text store used to witness C9. -/
def c9texts : List (String × String) := [(CONFIG_FILE_NAME, "[Props]")]

/-- The settings resolved from the C9 witness inputs. -/
def c9r : ResolvedSettings :=
  ⟨"fbx", [("filepath", PVal.vs "//Props.fbx")], "//", "Props.fbx", [], [], []⟩

/-- Witness for `C9_export_call_invariants` at a concrete invocation. -/
theorem C9_export_call_invariants_witness :
    getArg (finalizeSettings (EXPORTER_PROPERTIES_model c9raw c9r.exporter_name)
        c9r.args) "use_selection" = some (PVal.vb true) ∧
    getArg (finalizeSettings (EXPORTER_PROPERTIES_model c9raw c9r.exporter_name)
        c9r.args) "filepath" = some (PVal.vs (joinpath c9r.export_dir
          (sanitizeFilename (ensure_ext c9r.raw_filename ("." ++ c9r.exporter_name))))) ∧
    getArg (finalizeSettings (EXPORTER_PROPERTIES_model c9raw c9r.exporter_name)
        c9r.args) "use_active_collection" = none ∧
    getArg (finalizeSettings (EXPORTER_PROPERTIES_model c9raw c9r.exporter_name)
        c9r.args) "filter_glob" = none ∧
    getArg (finalizeSettings (EXPORTER_PROPERTIES_model c9raw c9r.exporter_name)
        c9r.args) "batch_mode" = none :=
  C9_export_call_invariants c9raw (fun _ => c9cfg) (fun s => s) (fun _ => true)
    true c9texts "Props" c9r c9texts (by rfl)

/-- Concrete text store refuting C5 as stated: the settings document exists
and is not blank. -/
def c5texts : List (String × String) := [(CONFIG_FILE_NAME, "x")]

/-- Concrete parsed document refuting C5 as stated: a DEFAULT section naming
an unsupported exporter, and no section for the target collection. -/
def c5cfg : IniCfg := ⟨[("exporter", "glb")], []⟩

/-- Counterexample to C5 as stated.  The target collection `Props` has no
section in the (present, non-empty) document, so the claim demands that the
resolver synthesize a default section and signal a first-run notice with no
export.  Instead, because the DEFAULT section resolves the exporter to the
unsupported `glb`, `get_export_settings` reports an unknown-exporter error
at src lines 541-546 — before the section-creation branch at lines 563-577 —
and the text store is left unchanged: no section is added and the report is
not a first-run notice. -/
theorem C5_counterexample :
    get_export_settings (fun _ => []) (fun _ => c5cfg) (fun s => s) (fun _ => true)
        true c5texts "Props" =
      GESOut.cancelledWith CReport.unknownExporter c5texts ∧
    c5cfg.has_section "Props" = false ∧
    textsGet c5texts CONFIG_FILE_NAME = some "x" := by
  refine ⟨by rfl, by rfl, by rfl⟩

/-- C5, amended.  For every invocation in which the settings document is
absent or blank, or the target collection has no section — provided the
section resolved against the document's defaults is exportable and names the
supported exporter — the resolver produces the first-run outcome: it writes
the default document (document absent/blank) or appends a new section
(section missing) carrying the resolved file name (the config-default
`filename` when one is set, otherwise derived from the collection name and
the exporter extension), returns the first-run cancel (so no export happens
this invocation), and the updated text store contains the document or added
section. -/
theorem C5_first_run_amended
    (exporter_props : String → List (String × PType)) (parse : String → IniCfg)
    (abspath : String → String) (isdir : String → Bool) (is_saved : Bool)
    (texts : List (String × String)) (collection_name : String)
    (create0 : Bool) (cfg0 cfg : IniCfg) (app : Bool) (fname : String)
    (hrd : readConfigDoc parse texts = (create0, cfg0))
    (hsec : resolveSection cfg0 collection_name = (cfg, app))
    (hfirst : create0 = true ∨ app = true)
    (hexp : cfg.getbool collection_name "exportable" true = Except.ok true)
    (hexporter : (cfg.getOpt collection_name "exporter").getD "fbx" = "fbx")
    (hfn : fname = (cfg.getOpt collection_name "filename").getD
      (collection_name ++ "." ++ "fbx")) :
    get_export_settings exporter_props parse abspath isdir is_saved texts
        collection_name =
      if create0 = true then
        GESOut.cancelledWith (CReport.firstRunCreated fname)
          (make_new_config_file texts collection_name fname)
      else
        GESOut.cancelledWith (CReport.firstRunAppended fname)
          (append_new_section_to_config_file texts collection_name fname) := by
  unfold get_export_settings
  simp only []
  rw [hrd]
  simp only []
  rw [hsec]
  simp only []
  rw [hexp]
  simp only [Bool.not_true, Bool.false_eq_true, if_false]
  rw [hexporter]
  rw [show (EXPORTERS_names.contains "fbx") = true from rfl]
  simp only [Bool.not_true, Bool.false_eq_true, if_false]
  rw [← hfn]
  cases create0 with
  | true => simp
  | false =>
    rcases hfirst with h | h
    · cases h
    · subst h
      simp

/-- Witness for `C5_first_run_amended`: with no settings document at all,
exporting `Props` creates the default document with a `[Props]` section and
`filename = Props.fbx`, and returns the first-run cancel. -/
theorem C5_first_run_amended_witness :
    get_export_settings (fun _ => []) (fun _ => IniCfg.mk [] []) (fun s => s)
        (fun _ => true) true [] "Props" =
      GESOut.cancelledWith (CReport.firstRunCreated "Props.fbx")
        (make_new_config_file [] "Props" "Props.fbx") :=
  C5_first_run_amended (fun _ => []) (fun _ => IniCfg.mk [] []) (fun s => s)
    (fun _ => true) true [] "Props" true (IniCfg.mk [] [])
    (IniCfg.mk [] [("Props", [])]) true "Props.fbx" rfl rfl (Or.inl rfl) rfl rfl rfl

/-! ## Orchestrator model: the mutation phase of `execute` (src lines 316-498)

Scene objects, collections and view layers are explicit state.  Selection and
the active object live in the view layer, as in Blender; `set_excluded_collections`
acts on the temporary layer only, so its effect is modelled as the layer's
exclusion assignment.  `collection.all_objects` sets are inputs (`cteObjIds`,
per-unit `objIds`), and membership of the original objects in the temporary
view layer after exclusion (`view_layer.objects`) is the input `inVL`; both
are id sets of pre-existing objects.  Every fallible host operation carries a
fault switch so that rollback is quantified over all injected failures. -/

/-- A scene object: identity, name, type tag, the two global hide flags, and
the `visible_get()` value at recording time. -/
structure OObj : Type where
  oid : Nat
  name : String
  otype : String
  hide_select : Bool
  hide_viewport : Bool
  visible : Bool
deriving DecidableEq, Repr

/-- A scene collection's global hide flags. -/
structure OCol : Type where
  cname : String
  hide_select : Bool
  hide_viewport : Bool
deriving DecidableEq, Repr

/-- A view layer: identity, per-collection exclusion flags, selection, and
active object. -/
structure VLayer : Type where
  vid : Nat
  excl : List (String × Bool)
  sel : List Nat
  activeObj : Option Nat
deriving DecidableEq, Repr

/-- The scene state. -/
structure OSt : Type where
  nextId : Nat
  objs : List OObj
  cols : List OCol
  vls : List VLayer
  activeVL : Nat
deriving DecidableEq, Repr

/-- One merge unit: a collection returned by `find_topmost_collections`,
its `all_objects` ids, and its resolved joined-mesh name. -/
structure JUnit : Type where
  uname : String
  objIds : List Nat
  jname : String
deriving DecidableEq, Repr

/-- Input of one run of the mutation phase. -/
structure Inp : Type where
  st0 : OSt
  cteObjIds : List Nat
  inVL : List Nat
  use_visible : Bool
  exclAssign : List (String × Bool)
  units : List JUnit
deriving DecidableEq, Repr

/-- Fault switches for every fallible host operation of the phase. -/
structure Faults : Type where
  failVLAdd : Bool
  failDup : Nat → Bool
  failJoin : Nat → Bool
  anomJoin : Nat → Bool
  raiseExport : Bool
  failExport : Bool

/-- The fault-free run. -/
def noFaults : Faults :=
  ⟨false, fun _ => false, fun _ => false, fun _ => false, false, false⟩

/-- Operator result. -/
inductive RRes : Type where
  | finished
  | cancelledRes
  | raised
deriving DecidableEq, Repr

/-- The reports the phase can issue on a finished export (src 469-474). -/
inductive RepMsg : Type where
  | warnEmpty
  | infoSuccess
deriving DecidableEq, Repr

/-- Observable outcome of the phase, with trace fields recorded at the
moment the export primitive is called. -/
structure Outcome : Type where
  res : RRes
  exportInvoked : Bool
  wasEmpty : Bool
  finalSel : List Nat
  joinedAtExport : List Nat
  joinedPairs : List (Nat × Nat)
  objsAtExport : List OObj
  reports : List RepMsg
deriving DecidableEq, Repr

/-- Outcome of a raise before the export call. -/
def emptyOutcome (r : RRes) : Outcome := ⟨r, false, false, [], [], [], [], []⟩

/-- `bpy.data.objects` lookup by identity. -/
def lookupObj (st : OSt) (i : Nat) : Option OObj :=
  st.objs.find? (fun o => o.oid == i)

/-- `o.type == 'MESH'` for the object with id `i`. -/
def isMeshId (st : OSt) (i : Nat) : Bool :=
  match lookupObj st i with
  | some o => o.otype == "MESH"
  | none => false

/-- Apply `f` to the active view layer. -/
def updActiveVL (f : VLayer → VLayer) (st : OSt) : OSt :=
  { st with vls := st.vls.map (fun v => if v.vid == st.activeVL then f v else v) }

/-- `context.selected_objects` of the active view layer. -/
def curSel (st : OSt) : List Nat :=
  match st.vls.find? (fun v => v.vid == st.activeVL) with
  | some v => v.sel
  | none => []

/-- `context.view_layer.objects.active`. -/
def activeObjOf (st : OSt) : Option Nat :=
  match st.vls.find? (fun v => v.vid == st.activeVL) with
  | some v => v.activeObj
  | none => none

/-- Replace a layer's selection. -/
def setSelF (l : List Nat) (v : VLayer) : VLayer := { v with sel := l }

/-- Set the active layer's selection outright. -/
def setSel (l : List Nat) (st : OSt) : OSt :=
  updActiveVL (setSelF l) st

/-- `bpy.ops.object.select_all(action='DESELECT')`. -/
def deselectAll (st : OSt) : OSt := setSel [] st

/-- `o.select_set(b)` on a layer's selection. -/
def selSetF (i : Nat) (b : Bool) (v : VLayer) : VLayer :=
  { v with sel :=
      if b then (if v.sel.contains i then v.sel else v.sel ++ [i])
      else v.sel.filter (fun j => !(j == i)) }

/-- `o.select_set(b)` for the object with id `i`. -/
def selectSet (i : Nat) (b : Bool) (st : OSt) : OSt :=
  updActiveVL (selSetF i b) st

/-- Set a layer's active object. -/
def setActiveF (i : Nat) (v : VLayer) : VLayer := { v with activeObj := some i }

/-- `context.view_layer.objects.active = ...`. -/
def setActiveObj (i : Nat) (st : OSt) : OSt :=
  updActiveVL (setActiveF i) st

/-- Replace a layer's exclusion assignment. -/
def setExclF (e : List (String × Bool)) (v : VLayer) : VLayer := { v with excl := e }

/-- The id set selected by `select_included_objects_in_collection`
(src 233-246): collection members that are in the view layer, not recorded
hidden, and of mesh type when `mesh_only`. -/
def includedIds (st : OSt) (inVL hidden colIds : List Nat) (meshOnly : Bool) :
    List Nat :=
  colIds.filter (fun i => inVL.contains i && !(hidden.contains i) &&
    (!meshOnly || isMeshId st i))

/-- `select_included_objects_in_collection` (src 233-246). -/
def selectIncluded (inVL hidden colIds : List Nat) (meshOnly : Bool) (st : OSt) :
    OSt :=
  let st := deselectAll st
  (includedIds st inVL hidden colIds meshOnly).foldl (fun s i => selectSet i true s) st

/-- `bpy.ops.object.duplicate(linked=False)` on success: one copy per
selected object with a fresh id, the copies becoming the selection. -/
def dupSelected (st : OSt) : List Nat × OSt :=
  let selIds := curSel st
  let newIds := (List.range selIds.length).map (fun k => st.nextId + k)
  let copies := (selIds.zip newIds).map (fun p =>
    match lookupObj st p.1 with
    | some o => { o with oid := p.2 }
    | none => OObj.mk p.2 "" "MESH" false false true)
  (newIds,
    setSel newIds
      { st with nextId := st.nextId + selIds.length, objs := st.objs ++ copies })

/-- `bpy.ops.object.join()` on success: the selected objects merge into the
active one; the other selected objects are removed and only the active one
stays selected. -/
def joinMerge (st : OSt) : OSt :=
  match activeObjOf st with
  | some a =>
    let selIds := curSel st
    setSel [a]
      { st with objs :=
          st.objs.filter (fun o => !(selIds.contains o.oid) || o.oid == a) }
  | none => st

/-- Rename an object (src lines 410-411). -/
def renameObj (a : Nat) (nm : String) (st : OSt) : OSt :=
  { st with objs := st.objs.map (fun o =>
      if o.oid == a then { o with name := nm } else o) }

/-- `bpy.data.objects.remove(m)`: removing an already-removed object is a
no-op (the `try/except pass` of src 480-488). -/
def removeObjById (i : Nat) (st : OSt) : OSt :=
  { st with objs := st.objs.filter (fun o => !(o.oid == i)) }

/-- The `joined_meshes` / `duplicated_meshes` / `abort_postjoin_meshes`
bookkeeping of src lines 384-386, plus the ghost `pairs` trace recording
which unit produced which joined mesh. -/
structure JAcc : Type where
  joined : List Nat
  duplicated : List Nat
  abortpj : List Nat
  pairs : List (Nat × Nat)
deriving DecidableEq, Repr

/-- Lines 405-417: post-join checks, renaming and bookkeeping for unit `u`
at loop index `i`.  The `true` component signals a raised exception. -/
def afterJoin (i : Nat) (u : JUnit) (acc : JAcc) (st : OSt) : Bool × JAcc × OSt :=
  if !((curSel st).length == 1) then
    (true, { acc with abortpj := curSel st }, st)
  else
    match curSel st with
    | a :: _ =>
      let st := renameObj a u.jname st
      if acc.joined.contains a then (true, acc, st)
      else
        (false,
         { acc with
             joined := acc.joined ++ [a]
             duplicated := []
             pairs := acc.pairs ++ [(i, a)] },
         st)
    | [] => (true, acc, st)

/-- The body of the `for c in collections_to_join` loop (src lines 390-417)
for unit `u` at index `i`. -/
def processUnit (inp : Inp) (hidden : List Nat) (f : Faults) (i : Nat) (u : JUnit)
    (acc : JAcc) (st : OSt) : Bool × JAcc × OSt :=
  let st := selectIncluded inp.inVL hidden u.objIds true st
  if (curSel st).isEmpty then (false, acc, st)
  else if f.failDup i then (true, acc, st)
  else
    let r := dupSelected st
    let st := r.2
    let acc := { acc with duplicated := r.1 }
    let st := match curSel st with
      | a :: _ => setActiveObj a st
      | [] => st
    if (curSel st).length > 1 then
      if f.failJoin i then (true, acc, st)
      else
        let st := if f.anomJoin i then st else joinMerge st
        afterJoin i u acc st
    else afterJoin i u acc st

/-- The joining loop over `collections_to_join` (src lines 390-417). -/
def joinLoop (inp : Inp) (hidden : List Nat) (f : Faults) :
    List JUnit → Nat → JAcc → OSt → Bool × JAcc × OSt
  | [], _, acc, st => (false, acc, st)
  | u :: rest, i, acc, st =>
    match processUnit inp hidden f i u acc st with
    | (true, acc', st') => (true, acc', st')
    | (false, acc', st') => joinLoop inp hidden f rest (i + 1) acc' st'

/-- The innermost `finally` (src lines 476-488): remove every object
recorded as joined, duplicated or left over from an aborted join. -/
def cleanupMeshes (acc : JAcc) (st : OSt) : OSt :=
  let st := acc.joined.foldl (fun s i => removeObjById i s) st
  let st := acc.duplicated.foldl (fun s i => removeObjById i s) st
  acc.abortpj.foldl (fun s i => removeObjById i s) st

/-- Lines 321-326: the objects recorded as globally invisible before the
export begins, when `use_visible` is configured. -/
def computeHidden (inp : Inp) : List Nat :=
  if inp.use_visible then
    (inp.st0.objs.filter (fun o =>
      inp.cteObjIds.contains o.oid && !o.visible)).map OObj.oid
  else []

/-- `save_global_properties` (src 207-224), object part: the flagged
objects of the export collection with their original flag values.  The
source keeps objects and collections in one heterogeneous list; they live
in disjoint stores, so they are modelled as a pair of lists. -/
def savedObjsOf (objs : List OObj) (cteIds : List Nat) : List (Nat × Bool × Bool) :=
  objs.filterMap (fun o =>
    if cteIds.contains o.oid && (o.hide_select || o.hide_viewport) then
      some (o.oid, o.hide_select, o.hide_viewport)
    else none)

/-- The flagged collections of the scene with their original flag values. -/
def savedColsOf (cols : List OCol) : List (String × Bool × Bool) :=
  cols.filterMap (fun c =>
    if c.hide_select || c.hide_viewport then
      some (c.cname, c.hide_select, c.hide_viewport)
    else none)

def save_global_properties (st : OSt) (cteIds : List Nat) :
    List (Nat × Bool × Bool) × List (String × Bool × Bool) :=
  (savedObjsOf st.objs cteIds, savedColsOf st.cols)

/-- Lines 367-369: clear both hide flags on every saved object/collection
(per-entry assignment over unique identities, stated as a map). -/
def clearObjF (sO : List (Nat × Bool × Bool)) (o : OObj) : OObj :=
  if sO.any (fun e => e.1 == o.oid) then
    { o with hide_select := false, hide_viewport := false }
  else o

def clearColF (sC : List (String × Bool × Bool)) (c : OCol) : OCol :=
  if sC.any (fun e => e.1 == c.cname) then
    { c with hide_select := false, hide_viewport := false }
  else c

def clearSavedProps (sO : List (Nat × Bool × Bool)) (sC : List (String × Bool × Bool))
    (st : OSt) : OSt :=
  { st with objs := st.objs.map (clearObjF sO), cols := st.cols.map (clearColF sC) }

/-- `restore_global_properties` (src 227-230). -/
def restObjF (sO : List (Nat × Bool × Bool)) (o : OObj) : OObj :=
  match sO.find? (fun e => e.1 == o.oid) with
  | some e => { o with hide_select := e.2.1, hide_viewport := e.2.2 }
  | none => o

def restColF (sC : List (String × Bool × Bool)) (c : OCol) : OCol :=
  match sC.find? (fun e => e.1 == c.cname) with
  | some e => { c with hide_select := e.2.1, hide_viewport := e.2.2 }
  | none => c

def restore_global_properties (sO : List (Nat × Bool × Bool))
    (sC : List (String × Bool × Bool)) (st : OSt) : OSt :=
  { st with objs := st.objs.map (restObjF sO), cols := st.cols.map (restColF sC) }

/-- Lines 444-448: deselect every mesh object of every merge unit. -/
def deselectUnitMeshes (units : List JUnit) (st : OSt) : OSt :=
  units.foldl (fun s u =>
    u.objIds.foldl (fun s2 i => if isMeshId s2 i then selectSet i false s2 else s2) s)
    st

/-- Lines 388-474: the innermost try block, from the joining loop to the
export call, returning the outcome, the mesh bookkeeping and the state. -/
def exportPhase (inp : Inp) (hidden : List Nat) (f : Faults) (st : OSt) :
    Outcome × JAcc × OSt :=
  match joinLoop inp hidden f inp.units 0 ⟨[], [], [], []⟩ st with
  | (true, acc, st) => (emptyOutcome .raised, acc, st)
  | (false, acc, st) =>
    let st := selectIncluded inp.inVL hidden inp.cteObjIds false st
    let st := deselectUnitMeshes inp.units st
    let st := acc.joined.foldl (fun s i => selectSet i true s) st
    let fsel := curSel st
    let isEmptySel := fsel.isEmpty
    if f.raiseExport then
      (⟨.raised, true, isEmptySel, fsel, acc.joined, acc.pairs, st.objs, []⟩, acc, st)
    else if f.failExport then
      (⟨.cancelledRes, true, isEmptySel, fsel, acc.joined, acc.pairs, st.objs, []⟩,
        acc, st)
    else
      (⟨.finished, true, isEmptySel, fsel, acc.joined, acc.pairs, st.objs,
        [if isEmptySel then RepMsg.warnEmpty else RepMsg.infoSuccess]⟩, acc, st)

/-- The mutation phase of `QXC_OT_export.execute` (src lines 316-498):
record flags, compute the hidden set, create the temporary view layer,
apply the exclusion assignment, clear the saved flags, run the joining /
selection / export phase, then the three `finally` blocks in order:
remove created meshes, restore the saved flags, switch back to the saved
view layer and delete the temporary one. -/
def executeModel (inp : Inp) (f : Faults) : Outcome × OSt :=
  let st0 := inp.st0
  let saved := save_global_properties st0 inp.cteObjIds
  let hidden := computeHidden inp
  if f.failVLAdd then (emptyOutcome .raised, st0)
  else
    let tempId := st0.nextId
    let savedVL := st0.activeVL
    let st1 : OSt :=
      { st0 with
          nextId := st0.nextId + 1
          vls := st0.vls ++ [⟨tempId, [], [], none⟩]
          activeVL := tempId }
    let st2 := updActiveVL (setExclF inp.exclAssign) st1
    let st3 := clearSavedProps saved.1 saved.2 st2
    let r := exportPhase inp hidden f st3
    let st5 := cleanupMeshes r.2.1 r.2.2
    let st6 := restore_global_properties saved.1 saved.2 st5
    let st7 : OSt :=
      { st6 with
          activeVL := savedVL
          vls := st6.vls.filter (fun v => !(v.vid == tempId)) }
    (r.1, st7)

/-- Well-formedness of the inputs: identities are unique, pre-existing ids
are below the allocator, and the merge units name pre-existing objects. -/
def WFInp (inp : Inp) : Prop :=
  (∀ o ∈ inp.st0.objs, o.oid < inp.st0.nextId) ∧
  (inp.st0.objs.map OObj.oid).Nodup ∧
  (inp.st0.cols.map OCol.cname).Nodup ∧
  (∀ v ∈ inp.st0.vls, v.vid < inp.st0.nextId) ∧
  (∀ u ∈ inp.units, (∀ i ∈ u.objIds, i < inp.st0.nextId) ∧ u.objIds.Nodup) ∧
  inp.cteObjIds.Nodup ∧
  (∀ i ∈ inp.cteObjIds, i < inp.st0.nextId)

/-- The active view layer, if present. -/
def activeLayer (st : OSt) : Option VLayer :=
  st.vls.find? (fun v => v.vid == st.activeVL)

/-- A state change that touches only the active layer's selection/active
object: every other component, and every other layer, is unchanged. -/
def SelOnly (st st2 : OSt) : Prop :=
  st2.objs = st.objs ∧ st2.cols = st.cols ∧ st2.nextId = st.nextId ∧
  st2.activeVL = st.activeVL ∧
  st2.vls.filter (fun v => !(v.vid == st.activeVL)) =
    st.vls.filter (fun v => !(v.vid == st.activeVL)) ∧
  (activeLayer st2).isSome = (activeLayer st).isSome

theorem filter_map_upd (a : Nat) (f : VLayer → VLayer) (hf : ∀ v, (f v).vid = v.vid) :
    ∀ l : List VLayer,
      (l.map (fun v => if v.vid == a then f v else v)).filter
        (fun v => !(v.vid == a)) =
      l.filter (fun v => !(v.vid == a))
  | [] => rfl
  | v :: rest => by
    rw [List.map_cons, List.filter_cons, List.filter_cons]
    by_cases h : v.vid = a
    · have h1 : (v.vid == a) = true := by simp [h]
      have h2 : ((f v).vid == a) = true := by rw [hf v]; exact h1
      rw [if_pos h1, h2, h1]
      simp only [Bool.not_true, Bool.false_eq_true, if_false]
      exact filter_map_upd a f hf rest
    · have h1 : (v.vid == a) = false := beq_eq_false_iff_ne.mpr h
      have hn : ¬((v.vid == a) = true) := by simp [h1]
      rw [if_neg hn, h1]
      simp only [Bool.not_false, if_true]
      rw [filter_map_upd a f hf rest]

theorem find?_map_upd (a : Nat) (f : VLayer → VLayer) (hf : ∀ v, (f v).vid = v.vid) :
    ∀ l : List VLayer,
      (l.map (fun v => if v.vid == a then f v else v)).find?
        (fun v => v.vid == a) =
      (l.find? (fun v => v.vid == a)).map f
  | [] => rfl
  | v :: rest => by
    rw [List.map_cons]
    by_cases h : v.vid = a
    · have h1 : (v.vid == a) = true := by simp [h]
      have h2 : ((f v).vid == a) = true := by rw [hf v]; exact h1
      rw [if_pos h1,
        @List.find?_cons_of_pos _ (fun v => v.vid == a) (f v) _ h2,
        @List.find?_cons_of_pos _ (fun v => v.vid == a) v _ h1]
      rfl
    · have h1 : (v.vid == a) = false := beq_eq_false_iff_ne.mpr h
      have hn : ¬((v.vid == a) = true) := by simp [h1]
      rw [if_neg hn,
        @List.find?_cons_of_neg _ (fun v => v.vid == a) v _ hn,
        @List.find?_cons_of_neg _ (fun v => v.vid == a) v _ hn]
      exact find?_map_upd a f hf rest

theorem activeLayer_updActiveVL (f : VLayer → VLayer) (hf : ∀ v, (f v).vid = v.vid)
    (st : OSt) : activeLayer (updActiveVL f st) = (activeLayer st).map f :=
  find?_map_upd st.activeVL f hf st.vls

theorem setSel_eq (l : List Nat) (st : OSt) :
    setSel l st = updActiveVL (setSelF l) st := rfl

theorem selectSet_eq (i : Nat) (b : Bool) (st : OSt) :
    selectSet i b st = updActiveVL (selSetF i b) st := rfl

theorem setActiveObj_eq (i : Nat) (st : OSt) :
    setActiveObj i st = updActiveVL (setActiveF i) st := rfl

theorem setSelF_vid (l : List Nat) (v : VLayer) : (setSelF l v).vid = v.vid := rfl

theorem selSetF_vid (i : Nat) (b : Bool) (v : VLayer) :
    (selSetF i b v).vid = v.vid := rfl

theorem setActiveF_vid (i : Nat) (v : VLayer) : (setActiveF i v).vid = v.vid := rfl

theorem setExclF_vid (e : List (String × Bool)) (v : VLayer) :
    (setExclF e v).vid = v.vid := rfl

theorem SelOnly_updActiveVL (f : VLayer → VLayer) (hf : ∀ v, (f v).vid = v.vid)
    (st : OSt) : SelOnly st (updActiveVL f st) := by
  refine ⟨rfl, rfl, rfl, rfl, filter_map_upd st.activeVL f hf st.vls, ?_⟩
  rw [activeLayer_updActiveVL f hf st]
  cases activeLayer st <;> rfl

theorem SelOnly_refl (st : OSt) : SelOnly st st :=
  ⟨rfl, rfl, rfl, rfl, rfl, rfl⟩

theorem SelOnly_trans {a b c : OSt} (h1 : SelOnly a b) (h2 : SelOnly b c) :
    SelOnly a c := by
  obtain ⟨o1, c1, n1, a1, f1, s1⟩ := h1
  obtain ⟨o2, c2, n2, a2, f2, s2⟩ := h2
  rw [a1] at f2 a2
  exact ⟨o2.trans o1, c2.trans c1, n2.trans n1, a2, f2.trans f1, s2.trans s1⟩

theorem SelOnly_setSel (l : List Nat) (st : OSt) : SelOnly st (setSel l st) :=
  SelOnly_updActiveVL (setSelF l) (setSelF_vid l) st

theorem SelOnly_deselectAll (st : OSt) : SelOnly st (deselectAll st) :=
  SelOnly_setSel [] st

theorem SelOnly_selectSet (i : Nat) (b : Bool) (st : OSt) :
    SelOnly st (selectSet i b st) :=
  SelOnly_updActiveVL (selSetF i b) (selSetF_vid i b) st

theorem SelOnly_setActiveObj (i : Nat) (st : OSt) :
    SelOnly st (setActiveObj i st) :=
  SelOnly_updActiveVL (setActiveF i) (setActiveF_vid i) st

theorem SelOnly_foldl {α : Type} (g : OSt → α → OSt)
    (hg : ∀ s x, SelOnly s (g s x)) :
    ∀ (l : List α) (st : OSt), SelOnly st (l.foldl g st)
  | [], _ => SelOnly_refl _
  | x :: rest, st =>
    SelOnly_trans (hg st x) (SelOnly_foldl g hg rest (g st x))

theorem SelOnly_selectIncluded (inVL hidden colIds : List Nat) (m : Bool)
    (st : OSt) : SelOnly st (selectIncluded inVL hidden colIds m st) :=
  SelOnly_trans (SelOnly_deselectAll st)
    (SelOnly_foldl _ (fun s i => SelOnly_selectSet i true s) _ _)

theorem SelOnly_deselectUnitMeshes (units : List JUnit) (st : OSt) :
    SelOnly st (deselectUnitMeshes units st) := by
  refine SelOnly_foldl _ (fun s u => ?_) units st
  refine SelOnly_foldl _ (fun s2 i => ?_) u.objIds s
  by_cases h : isMeshId s2 i = true
  · rw [if_pos h]; exact SelOnly_selectSet i false s2
  · rw [if_neg h]; exact SelOnly_refl s2

theorem curSel_eq_activeLayer (st : OSt) :
    curSel st = match activeLayer st with
      | some v => v.sel
      | none => [] := rfl

theorem curSel_setSel (l : List Nat) (st : OSt)
    (h : (activeLayer st).isSome = true) : curSel (setSel l st) = l := by
  rw [curSel_eq_activeLayer, setSel_eq,
    activeLayer_updActiveVL (setSelF l) (setSelF_vid l) st]
  cases hal : activeLayer st with
  | some v => rfl
  | none => rw [hal] at h; exact absurd h (by simp)

theorem curSel_setActiveObj (i : Nat) (st : OSt) :
    curSel (setActiveObj i st) = curSel st := by
  rw [curSel_eq_activeLayer, curSel_eq_activeLayer,
    setActiveObj_eq, activeLayer_updActiveVL (setActiveF i) (setActiveF_vid i) st]
  cases activeLayer st <;> rfl

theorem activeObjOf_eq_activeLayer (st : OSt) :
    activeObjOf st = match activeLayer st with
      | some v => v.activeObj
      | none => none := rfl

theorem activeObjOf_setActiveObj (i : Nat) (st : OSt)
    (h : (activeLayer st).isSome = true) :
    activeObjOf (setActiveObj i st) = some i := by
  rw [activeObjOf_eq_activeLayer,
    setActiveObj_eq, activeLayer_updActiveVL (setActiveF i) (setActiveF_vid i) st]
  cases hal : activeLayer st with
  | some v => rfl
  | none => rw [hal] at h; exact absurd h (by simp)

theorem curSel_selectSet_true (i : Nat) (st : OSt)
    (h : (activeLayer st).isSome = true) :
    curSel (selectSet i true st) =
      if (curSel st).contains i then curSel st else curSel st ++ [i] := by
  rw [curSel_eq_activeLayer, curSel_eq_activeLayer,
    selectSet_eq, activeLayer_updActiveVL (selSetF i true) (selSetF_vid i true) st]
  cases hal : activeLayer st with
  | some v => rfl
  | none => rw [hal] at h; exact absurd h (by simp)

theorem curSel_selectSet_false (i : Nat) (st : OSt) :
    curSel (selectSet i false st) = (curSel st).filter (fun j => !(j == i)) := by
  rw [curSel_eq_activeLayer, curSel_eq_activeLayer,
    selectSet_eq, activeLayer_updActiveVL (selSetF i false) (selSetF_vid i false) st]
  cases activeLayer st <;> rfl

theorem mem_curSel_selectSet_true {x : Nat} {st : OSt} (i : Nat)
    (h : x ∈ curSel st) : x ∈ curSel (selectSet i true st) := by
  rw [curSel_eq_activeLayer] at h
  rw [curSel_eq_activeLayer, selectSet_eq,
    activeLayer_updActiveVL (selSetF i true) (selSetF_vid i true) st]
  cases hal : activeLayer st with
  | some v =>
    rw [hal] at h
    show x ∈ (if v.sel.contains i then v.sel else v.sel ++ [i])
    by_cases hc : v.sel.contains i
    · rw [if_pos hc]; exact h
    · rw [if_neg hc]; exact List.mem_append_left _ h
  | none => rw [hal] at h; exact absurd h (by simp)

theorem self_mem_curSel_selectSet_true (i : Nat) (st : OSt)
    (h : (activeLayer st).isSome = true) :
    i ∈ curSel (selectSet i true st) := by
  rw [curSel_selectSet_true i st h]
  by_cases hc : (curSel st).contains i
  · rw [if_pos hc]; exact List.mem_of_elem_eq_true hc
  · rw [if_neg hc]; exact List.mem_append_right _ (List.mem_singleton.mpr rfl)

theorem mem_foldl_select {x : Nat} :
    ∀ (l : List Nat) (st : OSt),
      (activeLayer st).isSome = true →
      (x ∈ curSel st ∨ x ∈ l) →
      x ∈ curSel (l.foldl (fun s i => selectSet i true s) st)
  | [], st, _, h => by
    cases h with
    | inl h => exact h
    | inr h => exact absurd h (List.not_mem_nil x)
  | i :: rest, st, hsome, h => by
    rw [List.foldl_cons]
    have hsome2 : (activeLayer (selectSet i true st)).isSome = true :=
      ((SelOnly_selectSet i true st).2.2.2.2.2).trans hsome
    refine mem_foldl_select rest (selectSet i true st) hsome2 ?_
    cases h with
    | inl h => exact Or.inl (mem_curSel_selectSet_true i h)
    | inr h =>
      cases List.mem_cons.mp h with
      | inl h =>
        subst h
        exact Or.inl (self_mem_curSel_selectSet_true x st hsome)
      | inr h => exact Or.inr h

theorem mem_foldl_select_rev {x : Nat} :
    ∀ (l : List Nat) (st : OSt),
      x ∈ curSel (l.foldl (fun s i => selectSet i true s) st) →
      x ∈ curSel st ∨ x ∈ l
  | [], _, h => Or.inl h
  | i :: rest, st, h => by
    rw [List.foldl_cons] at h
    cases mem_foldl_select_rev rest (selectSet i true st) h with
    | inr h => exact Or.inr (List.mem_cons_of_mem i h)
    | inl h =>
      rw [curSel_eq_activeLayer, selectSet_eq,
        activeLayer_updActiveVL (selSetF i true) (selSetF_vid i true) st] at h
      cases hal : activeLayer st with
      | none => rw [hal] at h; exact absurd h (by simp)
      | some v =>
        rw [hal] at h
        have h2 : x ∈ (if v.sel.contains i then v.sel else v.sel ++ [i]) := h
        clear h
        by_cases hc : v.sel.contains i
        · rw [if_pos hc] at h2
          exact Or.inl (by rw [curSel_eq_activeLayer, hal]; exact h2)
        · rw [if_neg hc] at h2
          cases List.mem_append.mp h2 with
          | inl h => exact Or.inl (by rw [curSel_eq_activeLayer, hal]; exact h)
          | inr h =>
            exact Or.inr
              (by rw [List.mem_singleton.mp h]; exact List.mem_cons_self i rest)

theorem foldl_select_app :
    ∀ (l : List Nat) (st : OSt),
      (activeLayer st).isSome = true → l.Nodup →
      (∀ x ∈ l, x ∉ curSel st) →
      curSel (l.foldl (fun s i => selectSet i true s) st) = curSel st ++ l
  | [], st, _, _, _ => (List.append_nil _).symm
  | i :: rest, st, hsome, hnd, hdisj => by
    rw [List.foldl_cons]
    have hsome2 : (activeLayer (selectSet i true st)).isSome = true :=
      ((SelOnly_selectSet i true st).2.2.2.2.2).trans hsome
    have hci : (curSel st).contains i = false := by
      cases hc : (curSel st).contains i
      · rfl
      · exact absurd (List.mem_of_elem_eq_true hc)
          (hdisj i (List.mem_cons_self i rest))
    have hsel : curSel (selectSet i true st) = curSel st ++ [i] := by
      rw [curSel_selectSet_true i st hsome, hci]
      simp only [Bool.false_eq_true, if_false]
    have hrec := foldl_select_app rest (selectSet i true st) hsome2
      (List.Nodup.of_cons hnd) ?_
    · rw [hrec, hsel, List.append_assoc]
      rfl
    · intro x hx
      rw [hsel]
      intro hmem
      cases List.mem_append.mp hmem with
      | inl h => exact hdisj x (List.mem_cons_of_mem i hx) h
      | inr h =>
        rw [List.mem_singleton.mp h] at hx
        exact (List.nodup_cons.mp hnd).1 hx

theorem savedObjsOf_key_mem {cteIds : List Nat} :
    ∀ {objs : List OObj} {e : Nat × Bool × Bool},
      e ∈ savedObjsOf objs cteIds → e.1 ∈ objs.map OObj.oid := by
  intro objs e he
  obtain ⟨o, ho, hoe⟩ := List.mem_filterMap.mp he
  by_cases hc : (cteIds.contains o.oid && (o.hide_select || o.hide_viewport)) = true
  · rw [if_pos hc] at hoe
    injection hoe with h
    rw [← h]
    exact List.mem_map_of_mem OObj.oid ho
  · rw [if_neg hc] at hoe
    exact absurd hoe (Option.noConfusion)

theorem savedObjsOf_find (cteIds : List Nat) :
    ∀ (objs : List OObj), (objs.map OObj.oid).Nodup →
      ∀ o ∈ objs,
        (savedObjsOf objs cteIds).find? (fun e => e.1 == o.oid) =
          if cteIds.contains o.oid && (o.hide_select || o.hide_viewport) then
            some (o.oid, o.hide_select, o.hide_viewport)
          else none
  | [], _, o, ho => absurd ho (List.not_mem_nil o)
  | h :: rest, hnd, o, ho => by
    have hnd2 : (rest.map OObj.oid).Nodup := (List.nodup_cons.mp (by
      rw [List.map_cons] at hnd; exact hnd)).2
    have hho : h.oid ∉ rest.map OObj.oid := (List.nodup_cons.mp (by
      rw [List.map_cons] at hnd; exact hnd)).1
    have hfm : savedObjsOf (h :: rest) cteIds =
        (if cteIds.contains h.oid && (h.hide_select || h.hide_viewport) then
          some (h.oid, h.hide_select, h.hide_viewport)
        else none).toList ++ savedObjsOf rest cteIds := by
      unfold savedObjsOf
      rw [List.filterMap_cons]
      by_cases hch : (cteIds.contains h.oid && (h.hide_select || h.hide_viewport)) = true
      · rw [if_pos hch]; rfl
      · rw [if_neg hch]; rfl
    cases List.mem_cons.mp ho with
    | inl heq =>
      subst heq
      rw [hfm]
      by_cases hch : (cteIds.contains o.oid && (o.hide_select || o.hide_viewport)) = true
      · rw [if_pos hch, Option.toList_some, List.singleton_append]
        exact @List.find?_cons_of_pos (Nat × Bool × Bool) (fun e => e.1 == o.oid)
          (o.oid, o.hide_select, o.hide_viewport) (savedObjsOf rest cteIds)
          (by simp)
      · rw [if_neg hch, Option.toList_none, List.nil_append]
        refine List.find?_eq_none.mpr ?_
        intro e he
        have := savedObjsOf_key_mem he
        simp only [beq_iff_eq]
        intro hk
        exact hho (hk ▸ this)
    | inr ho2 =>
      have hne : (h.oid == o.oid) = false := by
        refine beq_eq_false_iff_ne.mpr ?_
        intro hk
        exact hho (hk ▸ List.mem_map_of_mem OObj.oid ho2)
      rw [hfm]
      by_cases hch : (cteIds.contains h.oid && (h.hide_select || h.hide_viewport)) = true
      · rw [if_pos hch, Option.toList_some, List.singleton_append,
          @List.find?_cons_of_neg _ (fun e => e.1 == o.oid)
            (h.oid, h.hide_select, h.hide_viewport) (savedObjsOf rest cteIds)
            (by simp [hne])]
        exact savedObjsOf_find cteIds rest hnd2 o ho2
      · rw [if_neg hch, Option.toList_none, List.nil_append]
        exact savedObjsOf_find cteIds rest hnd2 o ho2

theorem savedColsOf_key_mem :
    ∀ {cols : List OCol} {e : String × Bool × Bool},
      e ∈ savedColsOf cols → e.1 ∈ cols.map OCol.cname := by
  intro cols e he
  obtain ⟨c, hc, hce⟩ := List.mem_filterMap.mp he
  by_cases hb : (c.hide_select || c.hide_viewport) = true
  · rw [if_pos hb] at hce
    injection hce with h
    rw [← h]
    exact List.mem_map_of_mem OCol.cname hc
  · rw [if_neg hb] at hce
    exact absurd hce (Option.noConfusion)

theorem savedColsOf_find :
    ∀ (cols : List OCol), (cols.map OCol.cname).Nodup →
      ∀ c ∈ cols,
        (savedColsOf cols).find? (fun e => e.1 == c.cname) =
          if c.hide_select || c.hide_viewport then
            some (c.cname, c.hide_select, c.hide_viewport)
          else none
  | [], _, c, hc => absurd hc (List.not_mem_nil c)
  | h :: rest, hnd, c, hc => by
    have hnd2 : (rest.map OCol.cname).Nodup := (List.nodup_cons.mp (by
      rw [List.map_cons] at hnd; exact hnd)).2
    have hho : h.cname ∉ rest.map OCol.cname := (List.nodup_cons.mp (by
      rw [List.map_cons] at hnd; exact hnd)).1
    have hfm : savedColsOf (h :: rest) =
        (if h.hide_select || h.hide_viewport then
          some (h.cname, h.hide_select, h.hide_viewport)
        else none).toList ++ savedColsOf rest := by
      unfold savedColsOf
      rw [List.filterMap_cons]
      by_cases hch : (h.hide_select || h.hide_viewport) = true
      · rw [if_pos hch]; rfl
      · rw [if_neg hch]; rfl
    cases List.mem_cons.mp hc with
    | inl heq =>
      subst heq
      rw [hfm]
      by_cases hch : (c.hide_select || c.hide_viewport) = true
      · rw [if_pos hch, Option.toList_some, List.singleton_append]
        exact @List.find?_cons_of_pos (String × Bool × Bool) (fun e => e.1 == c.cname)
          (c.cname, c.hide_select, c.hide_viewport) (savedColsOf rest)
          (by simp)
      · rw [if_neg hch, Option.toList_none, List.nil_append]
        refine List.find?_eq_none.mpr ?_
        intro e he
        have := savedColsOf_key_mem he
        simp only [beq_iff_eq]
        intro hk
        exact hho (hk ▸ this)
    | inr hc2 =>
      have hne : (h.cname == c.cname) = false := by
        refine beq_eq_false_iff_ne.mpr ?_
        intro hk
        exact hho (hk ▸ List.mem_map_of_mem OCol.cname hc2)
      rw [hfm]
      by_cases hch : (h.hide_select || h.hide_viewport) = true
      · rw [if_pos hch, Option.toList_some, List.singleton_append,
          @List.find?_cons_of_neg _ (fun e => e.1 == c.cname)
            (h.cname, h.hide_select, h.hide_viewport) (savedColsOf rest)
            (by simp [hne])]
        exact savedColsOf_find rest hnd2 c hc2
      · rw [if_neg hch, Option.toList_none, List.nil_append]
        exact savedColsOf_find rest hnd2 c hc2

theorem restObjF_clearObjF (cteIds : List Nat) (objs : List OObj)
    (hnd : (objs.map OObj.oid).Nodup) (o : OObj) (ho : o ∈ objs) :
    restObjF (savedObjsOf objs cteIds) (clearObjF (savedObjsOf objs cteIds) o) = o := by
  have hfind := savedObjsOf_find cteIds objs hnd o ho
  by_cases hcond : (cteIds.contains o.oid && (o.hide_select || o.hide_viewport)) = true
  · rw [if_pos hcond] at hfind
    have hany : (savedObjsOf objs cteIds).any (fun e => e.1 == o.oid) = true :=
      List.any_eq_true.mpr ⟨_, List.mem_of_find?_eq_some hfind, by simp⟩
    unfold clearObjF
    rw [if_pos hany]
    unfold restObjF
    rw [show ({ o with hide_select := false, hide_viewport := false } : OObj).oid
      = o.oid from rfl, hfind]
  · rw [if_neg hcond] at hfind
    have hany : (savedObjsOf objs cteIds).any (fun e => e.1 == o.oid) = false :=
      List.any_eq_false.mpr (fun e he => List.find?_eq_none.mp hfind e he)
    unfold clearObjF
    rw [hany]
    simp only [Bool.false_eq_true, if_false]
    unfold restObjF
    rw [hfind]

theorem restColF_clearColF (cols : List OCol)
    (hnd : (cols.map OCol.cname).Nodup) (c : OCol) (hc : c ∈ cols) :
    restColF (savedColsOf cols) (clearColF (savedColsOf cols) c) = c := by
  have hfind := savedColsOf_find cols hnd c hc
  by_cases hcond : (c.hide_select || c.hide_viewport) = true
  · rw [if_pos hcond] at hfind
    have hany : (savedColsOf cols).any (fun e => e.1 == c.cname) = true :=
      List.any_eq_true.mpr ⟨_, List.mem_of_find?_eq_some hfind, by simp⟩
    unfold clearColF
    rw [if_pos hany]
    unfold restColF
    rw [show ({ c with hide_select := false, hide_viewport := false } : OCol).cname
      = c.cname from rfl, hfind]
  · rw [if_neg hcond] at hfind
    have hany : (savedColsOf cols).any (fun e => e.1 == c.cname) = false :=
      List.any_eq_false.mpr (fun e he => List.find?_eq_none.mp hfind e he)
    unfold clearColF
    rw [hany]
    simp only [Bool.false_eq_true, if_false]
    unfold restColF
    rw [hfind]

theorem restore_clear_objs (cteIds : List Nat) (objs : List OObj)
    (hnd : (objs.map OObj.oid).Nodup) :
    (objs.map (clearObjF (savedObjsOf objs cteIds))).map
      (restObjF (savedObjsOf objs cteIds)) = objs := by
  rw [List.map_map]
  have : ∀ o ∈ objs,
      (restObjF (savedObjsOf objs cteIds) ∘ clearObjF (savedObjsOf objs cteIds)) o
        = id o := by
    intro o ho
    exact restObjF_clearObjF cteIds objs hnd o ho
  rw [List.map_congr_left this, List.map_id]

theorem restore_clear_cols (cols : List OCol)
    (hnd : (cols.map OCol.cname).Nodup) :
    (cols.map (clearColF (savedColsOf cols))).map (restColF (savedColsOf cols))
      = cols := by
  rw [List.map_map]
  have : ∀ c ∈ cols,
      (restColF (savedColsOf cols) ∘ clearColF (savedColsOf cols)) c = id c := by
    intro c hc
    exact restColF_clearColF cols hnd c hc
  rw [List.map_congr_left this, List.map_id]

theorem foldl_remove_objs :
    ∀ (ids : List Nat) (st : OSt),
      (ids.foldl (fun s i => removeObjById i s) st).objs =
        st.objs.filter (fun o => !(ids.contains o.oid))
  | [], st => by
    rw [List.foldl_nil]
    refine (List.filter_eq_self.mpr ?_).symm
    intro o _
    rfl
  | i :: rest, st => by
    rw [List.foldl_cons, foldl_remove_objs rest (removeObjById i st)]
    show (st.objs.filter (fun o => !(o.oid == i))).filter
        (fun o => !(rest.contains o.oid)) = _
    rw [List.filter_filter]
    refine List.filter_congr ?_
    intro o _
    rw [List.contains_cons, Bool.not_or]
    cases (o.oid == i) <;> cases (rest.contains o.oid) <;> rfl

theorem foldl_remove_rest :
    ∀ (ids : List Nat) (st : OSt),
      (ids.foldl (fun s i => removeObjById i s) st).cols = st.cols ∧
      (ids.foldl (fun s i => removeObjById i s) st).vls = st.vls ∧
      (ids.foldl (fun s i => removeObjById i s) st).activeVL = st.activeVL ∧
      (ids.foldl (fun s i => removeObjById i s) st).nextId = st.nextId
  | [], _ => ⟨rfl, rfl, rfl, rfl⟩
  | i :: rest, st => by
    rw [List.foldl_cons]
    exact foldl_remove_rest rest (removeObjById i st)

theorem cleanupMeshes_objs (acc : JAcc) (st : OSt) :
    (cleanupMeshes acc st).objs =
      ((st.objs.filter (fun o => !(acc.joined.contains o.oid))).filter
        (fun o => !(acc.duplicated.contains o.oid))).filter
        (fun o => !(acc.abortpj.contains o.oid)) := by
  unfold cleanupMeshes
  rw [foldl_remove_objs, foldl_remove_objs, foldl_remove_objs]

theorem cleanupMeshes_rest (acc : JAcc) (st : OSt) :
    (cleanupMeshes acc st).cols = st.cols ∧
    (cleanupMeshes acc st).vls = st.vls ∧
    (cleanupMeshes acc st).activeVL = st.activeVL ∧
    (cleanupMeshes acc st).nextId = st.nextId := by
  unfold cleanupMeshes
  obtain ⟨c3, v3, a3, n3⟩ := foldl_remove_rest acc.abortpj
    (acc.duplicated.foldl (fun s i => removeObjById i s)
      (acc.joined.foldl (fun s i => removeObjById i s) st))
  obtain ⟨c2, v2, a2, n2⟩ := foldl_remove_rest acc.duplicated
    (acc.joined.foldl (fun s i => removeObjById i s) st)
  obtain ⟨c1, v1, a1, n1⟩ := foldl_remove_rest acc.joined st
  exact ⟨c3.trans (c2.trans c1), v3.trans (v2.trans v1),
    a3.trans (a2.trans a1), n3.trans (n2.trans n1)⟩

/-- Phase-wide frame condition: the active layer is the temporary one and
exists, the other layers and the collections are untouched, and the id
allocator never goes below its entry value. -/
def PhaseBase (n0 tempId : Nat) (cols0 : List OCol) (vls0 : List VLayer)
    (st : OSt) : Prop :=
  st.activeVL = tempId ∧
  (activeLayer st).isSome = true ∧
  st.vls.filter (fun v => !(v.vid == tempId)) = vls0 ∧
  st.cols = cols0 ∧
  n0 ≤ st.nextId

/-- The object store is the entry store plus extras, and every extra is a
fresh object recorded in `ids`. -/
def ExtrasIn (n0 : Nat) (core : List OObj) (ids : List Nat) (st : OSt) : Prop :=
  ∃ extras, st.objs = core ++ extras ∧ ∀ e ∈ extras, n0 ≤ e.oid ∧ e.oid ∈ ids

/-- Every recorded id is fresh and below the allocator. -/
def IdsOk (n0 : Nat) (ids : List Nat) (st : OSt) : Prop :=
  ∀ x ∈ ids, n0 ≤ x ∧ x < st.nextId

theorem PhaseBase_of_SelOnly {n0 tempId : Nat} {cols0 : List OCol}
    {vls0 : List VLayer} {st st2 : OSt} (h : PhaseBase n0 tempId cols0 vls0 st)
    (hs : SelOnly st st2) : PhaseBase n0 tempId cols0 vls0 st2 := by
  obtain ⟨ha, hi, hf, hc, hn⟩ := h
  obtain ⟨so, sc, sn, sa, sf, ss⟩ := hs
  refine ⟨sa.trans ha, ss.trans hi, ?_, sc.trans hc, sn ▸ hn⟩
  rw [ha] at sf
  exact sf.trans hf

theorem ExtrasIn_of_SelOnly {n0 : Nat} {core : List OObj} {ids : List Nat}
    {st st2 : OSt} (h : ExtrasIn n0 core ids st) (hs : SelOnly st st2) :
    ExtrasIn n0 core ids st2 := by
  obtain ⟨extras, ho, hmem⟩ := h
  exact ⟨extras, hs.1.trans ho, hmem⟩

theorem IdsOk_of_SelOnly {n0 : Nat} {ids : List Nat} {st st2 : OSt}
    (h : IdsOk n0 ids st) (hs : SelOnly st st2) : IdsOk n0 ids st2 := by
  intro x hx
  exact hs.2.2.1 ▸ h x hx

theorem ExtrasIn_mono {n0 : Nat} {core : List OObj} {ids ids2 : List Nat}
    {st : OSt} (hsub : ∀ x ∈ ids, x ∈ ids2) (h : ExtrasIn n0 core ids st) :
    ExtrasIn n0 core ids2 st := by
  obtain ⟨extras, ho, hmem⟩ := h
  exact ⟨extras, ho, fun e he => ⟨(hmem e he).1, hsub _ (hmem e he).2⟩⟩

theorem IdsOk_of_sub {n0 : Nat} {ids ids2 : List Nat} {st : OSt}
    (hsub : ∀ x ∈ ids2, x ∈ ids) (h : IdsOk n0 ids st) : IdsOk n0 ids2 st :=
  fun x hx => h x (hsub x hx)

theorem dupSelected_spec (st : OSt) (hsome : (activeLayer st).isSome = true) :
    (dupSelected st).2.cols = st.cols ∧
    (dupSelected st).2.activeVL = st.activeVL ∧
    (activeLayer (dupSelected st).2).isSome = true ∧
    (dupSelected st).2.vls.filter (fun v => !(v.vid == st.activeVL)) =
      st.vls.filter (fun v => !(v.vid == st.activeVL)) ∧
    (dupSelected st).2.nextId = st.nextId + (curSel st).length ∧
    (∃ copies, (dupSelected st).2.objs = st.objs ++ copies ∧
      (∀ c ∈ copies, c.oid ∈ (dupSelected st).1) ∧
      copies.map OObj.oid = (dupSelected st).1) ∧
    (∀ x ∈ (dupSelected st).1, st.nextId ≤ x ∧ x < st.nextId + (curSel st).length) ∧
    curSel (dupSelected st).2 = (dupSelected st).1 := by
  unfold dupSelected
  simp only []
  have hmid : (activeLayer
      { st with
          nextId := st.nextId + (curSel st).length
          objs := st.objs ++ ((curSel st).zip ((List.range (curSel st).length).map
            (fun k => st.nextId + k))).map (fun p =>
              match lookupObj st p.1 with
              | some o => { o with oid := p.2 }
              | none => OObj.mk p.2 "" "MESH" false false true) }).isSome
        = true := hsome
  refine ⟨(SelOnly_setSel _ _).2.1, (SelOnly_setSel _ _).2.2.2.1, ?_, ?_, ?_, ?_, ?_, ?_⟩
  · exact ((SelOnly_setSel _ _).2.2.2.2.2).trans hmid
  · exact (SelOnly_setSel _ _).2.2.2.2.1
  · exact (SelOnly_setSel _ _).2.2.1
  · refine ⟨_, (SelOnly_setSel _ _).1, ?_, ?_⟩
    · intro c hc
      obtain ⟨p, hp, hpc⟩ := List.mem_map.mp hc
      have hp2 := (List.of_mem_zip hp).2
      rw [← hpc]
      cases hl : lookupObj st p.1 with
      | some o => exact hp2
      | none => exact hp2
    · rw [List.map_map]
      have hpt : ∀ p ∈ (curSel st).zip ((List.range (curSel st).length).map
          (fun k => st.nextId + k)),
          (OObj.oid ∘ (fun p =>
            match lookupObj st p.1 with
            | some o => { o with oid := p.2 }
            | none => OObj.mk p.2 "" "MESH" false false true)) p = Prod.snd p := by
        intro p _
        show (match lookupObj st p.1 with
          | some o => ({ o with oid := p.2 } : OObj)
          | none => OObj.mk p.2 "" "MESH" false false true).oid = p.2
        cases lookupObj st p.1 with
        | some o => rfl
        | none => rfl
      rw [List.map_congr_left hpt]
      refine List.map_snd_zip _ _ ?_
      rw [List.length_map, List.length_range]
  · intro x hx
    obtain ⟨k, hk, hkx⟩ := List.mem_map.mp hx
    have := List.mem_range.mp hk
    omega
  · exact curSel_setSel _ _ hmid

theorem joinMerge_spec (st : OSt) (a : Nat) (hao : activeObjOf st = some a)
    (hsome : (activeLayer st).isSome = true) :
    (joinMerge st).cols = st.cols ∧
    (joinMerge st).activeVL = st.activeVL ∧
    (activeLayer (joinMerge st)).isSome = true ∧
    (joinMerge st).vls.filter (fun v => !(v.vid == st.activeVL)) =
      st.vls.filter (fun v => !(v.vid == st.activeVL)) ∧
    (joinMerge st).nextId = st.nextId ∧
    (joinMerge st).objs = st.objs.filter
      (fun o => !((curSel st).contains o.oid) || o.oid == a) ∧
    curSel (joinMerge st) = [a] := by
  unfold joinMerge
  rw [hao]
  simp only []
  have hmid : (activeLayer
      { st with
          objs := st.objs.filter
            (fun o => !((curSel st).contains o.oid) || o.oid == a) }).isSome
        = true := hsome
  refine ⟨(SelOnly_setSel _ _).2.1, (SelOnly_setSel _ _).2.2.2.1,
    ((SelOnly_setSel _ _).2.2.2.2.2).trans hmid,
    (SelOnly_setSel _ _).2.2.2.2.1, (SelOnly_setSel _ _).2.2.1,
    (SelOnly_setSel _ _).1, curSel_setSel _ _ hmid⟩

theorem rename_map_oid (a : Nat) (nm : String) (o : OObj) :
    ((if o.oid == a then { o with name := nm } else o) : OObj).oid = o.oid := by
  by_cases h : (o.oid == a) = true
  · rw [if_pos h]
  · rw [if_neg h]

theorem renameObj_frame (a : Nat) (nm : String) (st : OSt) :
    (renameObj a nm st).cols = st.cols ∧ (renameObj a nm st).vls = st.vls ∧
    (renameObj a nm st).activeVL = st.activeVL ∧
    (renameObj a nm st).nextId = st.nextId ∧
    activeLayer (renameObj a nm st) = activeLayer st ∧
    curSel (renameObj a nm st) = curSel st :=
  ⟨rfl, rfl, rfl, rfl, rfl, rfl⟩

theorem renameObj_objs_split (a : Nat) (nm : String) (core extras : List OObj)
    (hcore : ∀ o ∈ core, (o.oid == a) = false) (st : OSt)
    (hobjs : st.objs = core ++ extras) :
    (renameObj a nm st).objs = core ++ extras.map
      (fun o => if o.oid == a then { o with name := nm } else o) := by
  show st.objs.map (fun o => if o.oid == a then { o with name := nm } else o) = _
  rw [hobjs, List.map_append]
  congr 1
  have : ∀ o ∈ core,
      (fun o => if o.oid == a then ({ o with name := nm } : OObj) else o) o = id o := by
    intro o ho
    simp only [hcore o ho, Bool.false_eq_true, if_false, id]
  rw [List.map_congr_left this, List.map_id]

theorem afterJoin_single (i : Nat) (u : JUnit) (acc1 : JAcc) (st : OSt) (a : Nat)
    (ht : curSel st = [a]) :
    afterJoin i u acc1 st =
      if acc1.joined.contains a then (true, acc1, renameObj a u.jname st)
      else (false, ⟨acc1.joined ++ [a], [], acc1.abortpj, acc1.pairs ++ [(i, a)]⟩,
        renameObj a u.jname st) := by
  unfold afterJoin
  rw [ht]
  rfl

theorem afterJoin_inv {n0 tempId : Nat} {core : List OObj} {cols0 : List OCol}
    {vls0 : List VLayer} (i : Nat) (u : JUnit) (acc1 : JAcc) (st : OSt)
    (hcore : ∀ o ∈ core, o.oid < n0)
    (hbase : PhaseBase n0 tempId cols0 vls0 st)
    (hext : ExtrasIn n0 core (acc1.joined ++ curSel st) st)
    (hids : IdsOk n0 (acc1.joined ++ acc1.duplicated) st)
    (hsel : ∀ x ∈ curSel st, n0 ≤ x ∧ x < st.nextId)
    (hab : acc1.abortpj = []) :
    PhaseBase n0 tempId cols0 vls0 (afterJoin i u acc1 st).2.2 ∧
    ExtrasIn n0 core ((afterJoin i u acc1 st).2.1.joined ++
      ((afterJoin i u acc1 st).2.1.duplicated ++
        (afterJoin i u acc1 st).2.1.abortpj)) (afterJoin i u acc1 st).2.2 ∧
    IdsOk n0 ((afterJoin i u acc1 st).2.1.joined ++
      ((afterJoin i u acc1 st).2.1.duplicated ++
        (afterJoin i u acc1 st).2.1.abortpj)) (afterJoin i u acc1 st).2.2 ∧
    ((afterJoin i u acc1 st).1 = false →
      (afterJoin i u acc1 st).2.1.duplicated = [] ∧
      (afterJoin i u acc1 st).2.1.abortpj = []) := by
  by_cases hlen : (!((curSel st).length == 1)) = true
  · have heq : afterJoin i u acc1 st = (true, { acc1 with abortpj := curSel st }, st) := by
      unfold afterJoin
      rw [if_pos hlen]
    rw [heq]
    refine ⟨hbase, ?_, ?_, fun hf => absurd hf (by simp)⟩
    · refine ExtrasIn_mono ?_ hext
      intro x hx
      cases List.mem_append.mp hx with
      | inl h => exact List.mem_append_left _ h
      | inr h => exact List.mem_append_right _ (List.mem_append_right _ h)
    · intro x hx
      rcases List.mem_append.mp hx with h | h
      · exact hids x (List.mem_append_left _ h)
      · rcases List.mem_append.mp h with h | h
        · exact hids x (List.mem_append_right _ h)
        · exact hsel x h
  · have hone : ((curSel st).length == 1) = true := by
      cases h : ((curSel st).length == 1)
      · rw [h] at hlen; exact absurd rfl hlen
      · rfl
    obtain ⟨a, ht⟩ : ∃ a, curSel st = [a] := by
      cases hcs : curSel st with
      | nil => rw [hcs] at hone; exact absurd hone (by decide)
      | cons a t =>
        cases t with
        | nil => exact ⟨a, rfl⟩
        | cons b t2 => rw [hcs] at hone; simp at hone
    have ha : a ∈ curSel st := by rw [ht]; exact List.mem_singleton.mpr rfl
    have hna : n0 ≤ a := (hsel a ha).1
    have hcorea : ∀ o ∈ core, (o.oid == a) = false := by
      intro o ho
      refine beq_eq_false_iff_ne.mpr ?_
      intro hoa
      have := hcore o ho
      omega
    obtain ⟨extras, hobjs, hemem⟩ := hext
    have hsplit := renameObj_objs_split a u.jname core extras hcorea st hobjs
    rw [afterJoin_single i u acc1 st a ht]
    by_cases hj : acc1.joined.contains a = true
    · rw [if_pos hj]
      refine ⟨hbase, ?_, ?_, fun hf => absurd hf (by simp)⟩
      · refine ⟨extras.map (fun o => if o.oid == a then { o with name := u.jname } else o),
          hsplit, ?_⟩
        intro e he
        obtain ⟨e0, he0, hee⟩ := List.mem_map.mp he
        rw [← hee, rename_map_oid]
        obtain ⟨hb, hm⟩ := hemem e0 he0
        refine ⟨hb, ?_⟩
        cases List.mem_append.mp hm with
        | inl h => exact List.mem_append_left _ h
        | inr h =>
          rw [ht] at h
          rw [List.mem_singleton.mp h]
          exact List.mem_append_left _ (List.mem_of_elem_eq_true hj)
      · intro x hx
        rcases List.mem_append.mp hx with h | h
        · exact hids x (List.mem_append_left _ h)
        · rcases List.mem_append.mp h with h | h
          · exact hids x (List.mem_append_right _ h)
          · rw [hab] at h; exact absurd h (List.not_mem_nil x)
    · rw [if_neg hj]
      refine ⟨hbase, ?_, ?_, fun _ => ⟨rfl, hab⟩⟩
      · refine ⟨extras.map (fun o => if o.oid == a then { o with name := u.jname } else o),
          hsplit, ?_⟩
        intro e he
        obtain ⟨e0, he0, hee⟩ := List.mem_map.mp he
        rw [← hee, rename_map_oid]
        obtain ⟨hb, hm⟩ := hemem e0 he0
        refine ⟨hb, ?_⟩
        rw [ht] at hm
        exact List.mem_append_left _ hm
      · intro x hx
        rcases List.mem_append.mp hx with h | h
        · rcases List.mem_append.mp h with h | h
          · exact hids x (List.mem_append_left _ h)
          · rw [List.mem_singleton.mp h]; exact hsel a ha
        · rcases List.mem_append.mp h with h | h
          · exact absurd h (List.not_mem_nil x)
          · rw [hab] at h; exact absurd h (List.not_mem_nil x)

theorem processUnit_inv {n0 tempId : Nat} {core : List OObj} {cols0 : List OCol}
    {vls0 : List VLayer} (inp : Inp) (hidden : List Nat) (f : Faults) (i : Nat)
    (u : JUnit) (acc : JAcc) (st : OSt)
    (hcore : ∀ o ∈ core, o.oid < n0)
    (hbase : PhaseBase n0 tempId cols0 vls0 st)
    (hext : ExtrasIn n0 core acc.joined st)
    (hids : IdsOk n0 acc.joined st)
    (hdup : acc.duplicated = []) (hab : acc.abortpj = []) :
    PhaseBase n0 tempId cols0 vls0 (processUnit inp hidden f i u acc st).2.2 ∧
    ExtrasIn n0 core ((processUnit inp hidden f i u acc st).2.1.joined ++
      ((processUnit inp hidden f i u acc st).2.1.duplicated ++
        (processUnit inp hidden f i u acc st).2.1.abortpj))
      (processUnit inp hidden f i u acc st).2.2 ∧
    IdsOk n0 ((processUnit inp hidden f i u acc st).2.1.joined ++
      ((processUnit inp hidden f i u acc st).2.1.duplicated ++
        (processUnit inp hidden f i u acc st).2.1.abortpj))
      (processUnit inp hidden f i u acc st).2.2 ∧
    ((processUnit inp hidden f i u acc st).1 = false →
      (processUnit inp hidden f i u acc st).2.1.duplicated = [] ∧
      (processUnit inp hidden f i u acc st).2.1.abortpj = []) := by
  have hselA := SelOnly_selectIncluded inp.inVL hidden u.objIds true st
  set stA := selectIncluded inp.inVL hidden u.objIds true st with hstA
  have hbaseA := PhaseBase_of_SelOnly hbase hselA
  have hextA := ExtrasIn_of_SelOnly hext hselA
  have hidsA := IdsOk_of_SelOnly hids hselA
  have hsomeA : (activeLayer stA).isSome = true := hbaseA.2.1
  have hnilids : ∀ x ∈ acc.joined ++ (acc.duplicated ++ acc.abortpj), x ∈ acc.joined := by
    intro x hx
    rcases List.mem_append.mp hx with h | h
    · exact h
    · rw [hdup, hab] at h
      exact absurd h (List.not_mem_nil x)
  by_cases hempty : (curSel stA).isEmpty = true
  · have heq : processUnit inp hidden f i u acc st = (false, acc, stA) := by
      unfold processUnit
      simp only []
      rw [← hstA, if_pos hempty]
    rw [heq]
    exact ⟨hbaseA, ExtrasIn_mono (fun x hx => List.mem_append_left _ hx) hextA,
      IdsOk_of_sub hnilids hidsA, fun _ => ⟨hdup, hab⟩⟩
  · by_cases hfd : f.failDup i = true
    · have heq : processUnit inp hidden f i u acc st = (true, acc, stA) := by
        unfold processUnit
        simp only []
        rw [← hstA, if_neg hempty, if_pos hfd]
      rw [heq]
      exact ⟨hbaseA, ExtrasIn_mono (fun x hx => List.mem_append_left _ hx) hextA,
        IdsOk_of_sub hnilids hidsA, fun hf => absurd hf (by simp)⟩
    · obtain ⟨dcols, dact, dsome, dfilt, dnext, ⟨copies, hcopies, hcmem, hcmap⟩,
          dbnd, dsel⟩ := dupSelected_spec stA hsomeA
      have hbaseB : PhaseBase n0 tempId cols0 vls0 (dupSelected stA).2 := by
        refine ⟨dact.trans hbaseA.1, dsome, ?_, dcols.trans hbaseA.2.2.2.1, ?_⟩
        · rw [← hbaseA.1]
          exact dfilt.trans (hbaseA.1 ▸ hbaseA.2.2.1)
        · rw [dnext]
          have := hbaseA.2.2.2.2
          omega
      obtain ⟨extras, hobjsA, hmemA⟩ := hextA
      have hextB : ExtrasIn n0 core (acc.joined ++ (dupSelected stA).1)
          (dupSelected stA).2 := by
        refine ⟨extras ++ copies, by rw [hcopies, hobjsA, List.append_assoc], ?_⟩
        intro e he
        rcases List.mem_append.mp he with h | h
        · exact ⟨(hmemA e h).1, List.mem_append_left _ (hmemA e h).2⟩
        · have hid := hcmem e h
          have hb := (dbnd e.oid hid).1
          have := hbaseA.2.2.2.2
          exact ⟨by omega, List.mem_append_right _ hid⟩
      have hidsB : IdsOk n0 (acc.joined ++ (dupSelected stA).1) (dupSelected stA).2 := by
        intro x hx
        rw [dnext]
        rcases List.mem_append.mp hx with h | h
        · have := hidsA x h
          omega
        · have := dbnd x h
          have := hbaseA.2.2.2.2
          omega
      cases hr1 : (dupSelected stA).1 with
      | nil =>
        have hcsB : curSel (dupSelected stA).2 = [] := by rw [dsel, hr1]
        have heq : processUnit inp hidden f i u acc st =
            afterJoin i u ⟨acc.joined, (dupSelected stA).1, acc.abortpj, acc.pairs⟩
              (dupSelected stA).2 := by
          unfold processUnit
          simp only []
          rw [← hstA, if_neg hempty, if_neg hfd, hcsB]
          rw [hcsB]
          rfl
        rw [heq]
        refine afterJoin_inv i u _ _ hcore hbaseB ?_ ?_ ?_ hab
        · rw [hcsB]
          refine ExtrasIn_mono ?_ hextB
          intro x hx
          rcases List.mem_append.mp hx with h | h
          · exact List.mem_append_left _ h
          · rw [hr1] at h
            exact absurd h (List.not_mem_nil x)
        · exact hidsB
        · rw [hcsB]
          intro x hx
          exact absurd hx (List.not_mem_nil x)
      | cons a t =>
        have hcsB : curSel (dupSelected stA).2 = a :: t := by rw [dsel, hr1]
        have hsomeB : (activeLayer (dupSelected stA).2).isSome = true := dsome
        have hselC := SelOnly_setActiveObj a (dupSelected stA).2
        have hbaseC := PhaseBase_of_SelOnly hbaseB hselC
        have hextC := ExtrasIn_of_SelOnly hextB hselC
        have hidsC := IdsOk_of_SelOnly hidsB hselC
        have hcsC : curSel (setActiveObj a (dupSelected stA).2) = a :: t := by
          rw [curSel_setActiveObj, hcsB]
        have hao : activeObjOf (setActiveObj a (dupSelected stA).2) = some a :=
          activeObjOf_setActiveObj a _ hsomeB
        have hselmem : ∀ x ∈ curSel (setActiveObj a (dupSelected stA).2),
            n0 ≤ x ∧ x < (setActiveObj a (dupSelected stA).2).nextId := by
          intro x hx
          rw [hcsC] at hx
          refine hidsC x (List.mem_append_right _ ?_)
          rw [hr1]
          exact hx
        cases t with
        | nil =>
          have heq : processUnit inp hidden f i u acc st =
              afterJoin i u ⟨acc.joined, (dupSelected stA).1, acc.abortpj, acc.pairs⟩
                (setActiveObj a (dupSelected stA).2) := by
            unfold processUnit
            simp only []
            rw [← hstA, if_neg hempty, if_neg hfd, hcsB]
            show (if (curSel (setActiveObj a (dupSelected stA).2)).length > 1
              then _ else _) = _
            rw [hcsC, if_neg (by rw [List.length_singleton]; omega)]
          rw [heq]
          refine afterJoin_inv i u _ _ hcore hbaseC ?_ hidsC ?_ hab
          · rw [hcsC, ← hr1]
            exact hextC
          · exact hselmem
        | cons b t2 =>
          have hgt : (curSel (setActiveObj a (dupSelected stA).2)).length > 1 := by
            rw [hcsC]
            simp
          by_cases hfj : f.failJoin i = true
          · have heq : processUnit inp hidden f i u acc st =
                (true, ⟨acc.joined, (dupSelected stA).1, acc.abortpj, acc.pairs⟩,
                  setActiveObj a (dupSelected stA).2) := by
              unfold processUnit
              simp only []
              rw [← hstA, if_neg hempty, if_neg hfd, hcsB]
              show (if (curSel (setActiveObj a (dupSelected stA).2)).length > 1
                then _ else _) = _
              rw [if_pos hgt, if_pos hfj]
            rw [heq]
            refine ⟨hbaseC, ?_, ?_, fun hf => absurd hf (by simp)⟩
            · rw [hab]
              refine ExtrasIn_mono ?_ hextC
              intro x hx
              rcases List.mem_append.mp hx with h | h
              · exact List.mem_append_left _ h
              · exact List.mem_append_right _ (List.mem_append_left _ h)
            · intro x hx
              rcases List.mem_append.mp hx with h | h
              · exact hidsC x (List.mem_append_left _ h)
              · rcases List.mem_append.mp h with h | h
                · exact hidsC x (List.mem_append_right _ h)
                · rw [hab] at h
                  exact absurd h (List.not_mem_nil x)
          · by_cases han : f.anomJoin i = true
            · have heq : processUnit inp hidden f i u acc st =
                  afterJoin i u ⟨acc.joined, (dupSelected stA).1, acc.abortpj, acc.pairs⟩
                    (setActiveObj a (dupSelected stA).2) := by
                unfold processUnit
                simp only []
                rw [← hstA, if_neg hempty, if_neg hfd, hcsB]
                show (if (curSel (setActiveObj a (dupSelected stA).2)).length > 1
                  then _ else _) = _
                rw [if_pos hgt, if_neg hfj, if_pos han]
              rw [heq]
              refine afterJoin_inv i u _ _ hcore hbaseC ?_ hidsC ?_ hab
              · rw [hcsC, ← hr1]
                exact hextC
              · exact hselmem
            · obtain ⟨jcols, jact, jsome, jfilt, jnext, jobjs, jsel⟩ :=
                joinMerge_spec (setActiveObj a (dupSelected stA).2) a hao
                  hbaseC.2.1
              have hbaseD : PhaseBase n0 tempId cols0 vls0
                  (joinMerge (setActiveObj a (dupSelected stA).2)) := by
                refine ⟨jact.trans hbaseC.1, jsome, ?_, jcols.trans hbaseC.2.2.2.1, ?_⟩
                · rw [← hbaseC.1]
                  exact jfilt.trans (hbaseC.1 ▸ hbaseC.2.2.1)
                · rw [jnext]
                  exact hbaseC.2.2.2.2
              obtain ⟨extrasC, hobjsC, hmemC⟩ := hextC
              have hextD : ExtrasIn n0 core
                  (acc.joined ++ curSel (joinMerge (setActiveObj a (dupSelected stA).2)))
                  (joinMerge (setActiveObj a (dupSelected stA).2)) := by
                rw [jsel]
                refine ⟨extrasC.filter
                  (fun o => !((curSel (setActiveObj a (dupSelected stA).2)).contains o.oid)
                    || o.oid == a), ?_, ?_⟩
                · rw [jobjs, hobjsC, List.filter_append]
                  congr 1
                  refine List.filter_eq_self.mpr ?_
                  intro o ho
                  have hlt := hcore o ho
                  have hnm : o.oid ∉ curSel (setActiveObj a (dupSelected stA).2) := by
                    intro hmem
                    have := (hselmem o.oid hmem).1
                    omega
                  rw [contains_eq_false_of_not_mem hnm]
                  rfl
                · intro e he
                  have hmm := List.mem_of_mem_filter he
                  have hq := List.of_mem_filter he
                  obtain ⟨hb, hm⟩ := hmemC e hmm
                  refine ⟨hb, ?_⟩
                  rcases List.mem_append.mp hm with h | h
                  · exact List.mem_append_left _ h
                  · have hcont : ((curSel (setActiveObj a (dupSelected stA).2)).contains
                        e.oid) = true := by
                      rw [hcsC, ← hr1]
                      exact List.elem_eq_true_of_mem h
                    rw [hcont] at hq
                    simp only [Bool.not_true, Bool.false_or] at hq
                    rw [List.mem_singleton.mp (List.mem_singleton.mpr (beq_iff_eq.mp hq))]
                    exact List.mem_append_right _ (List.mem_singleton.mpr rfl)
              have hidsD : IdsOk n0 (acc.joined ++ (dupSelected stA).1)
                  (joinMerge (setActiveObj a (dupSelected stA).2)) := by
                intro x hx
                rw [jnext]
                exact hidsC x hx
              have hselD : ∀ x ∈ curSel (joinMerge (setActiveObj a (dupSelected stA).2)),
                  n0 ≤ x ∧ x < (joinMerge (setActiveObj a (dupSelected stA).2)).nextId := by
                intro x hx
                rw [jsel] at hx
                rw [jnext]
                refine hselmem x ?_
                rw [hcsC]
                rw [List.mem_singleton.mp hx]
                exact List.mem_cons_self a (b :: t2)
              have heq : processUnit inp hidden f i u acc st =
                  afterJoin i u ⟨acc.joined, (dupSelected stA).1, acc.abortpj, acc.pairs⟩
                    (joinMerge (setActiveObj a (dupSelected stA).2)) := by
                unfold processUnit
                simp only []
                rw [← hstA, if_neg hempty, if_neg hfd, hcsB]
                show (if (curSel (setActiveObj a (dupSelected stA).2)).length > 1
                  then _ else _) = _
                rw [if_pos hgt, if_neg hfj, if_neg han]
              rw [heq]
              exact afterJoin_inv i u _ _ hcore hbaseD hextD hidsD hselD hab

theorem joinLoop_inv {n0 tempId : Nat} {core : List OObj} {cols0 : List OCol}
    {vls0 : List VLayer} (inp : Inp) (hidden : List Nat) (f : Faults)
    (hcore : ∀ o ∈ core, o.oid < n0) :
    ∀ (units : List JUnit) (i : Nat) (acc : JAcc) (st : OSt),
      PhaseBase n0 tempId cols0 vls0 st →
      ExtrasIn n0 core acc.joined st →
      IdsOk n0 acc.joined st →
      acc.duplicated = [] → acc.abortpj = [] →
      PhaseBase n0 tempId cols0 vls0 (joinLoop inp hidden f units i acc st).2.2 ∧
      ExtrasIn n0 core ((joinLoop inp hidden f units i acc st).2.1.joined ++
        (((joinLoop inp hidden f units i acc st).2.1.duplicated) ++
          ((joinLoop inp hidden f units i acc st).2.1.abortpj)))
        (joinLoop inp hidden f units i acc st).2.2 ∧
      IdsOk n0 ((joinLoop inp hidden f units i acc st).2.1.joined ++
        (((joinLoop inp hidden f units i acc st).2.1.duplicated) ++
          ((joinLoop inp hidden f units i acc st).2.1.abortpj)))
        (joinLoop inp hidden f units i acc st).2.2
  | [], i, acc, st, hbase, hext, hids, hdup, hab => by
    refine ⟨hbase, ?_, ?_⟩
    · refine ExtrasIn_mono (fun x hx => List.mem_append_left _ hx) hext
    · refine IdsOk_of_sub ?_ hids
      intro x hx
      rcases List.mem_append.mp hx with h | h
      · exact h
      · have h2 : x ∈ acc.duplicated ++ acc.abortpj := h
        rw [hdup, hab] at h2
        exact absurd h2 (List.not_mem_nil x)
  | u :: rest, i, acc, st, hbase, hext, hids, hdup, hab => by
    have hpu := processUnit_inv inp hidden f i u acc st hcore hbase hext hids hdup hab
    cases hR : processUnit inp hidden f i u acc st with
    | mk raised rs =>
      cases rs with
      | mk acc2 st2 =>
        rw [hR] at hpu
        cases raised with
        | true =>
          have heq : joinLoop inp hidden f (u :: rest) i acc st = (true, acc2, st2) := by
            unfold joinLoop
            rw [hR]
          rw [heq]
          exact ⟨hpu.1, hpu.2.1, hpu.2.2.1⟩
        | false =>
          obtain ⟨hd2, ha2⟩ := hpu.2.2.2 rfl
          have heq : joinLoop inp hidden f (u :: rest) i acc st =
              joinLoop inp hidden f rest (i + 1) acc2 st2 := by
            conv_lhs => unfold joinLoop
            rw [hR]
          rw [heq]
          refine joinLoop_inv inp hidden f hcore rest (i + 1) acc2 st2 hpu.1 ?_ ?_ hd2 ha2
          · refine ExtrasIn_mono ?_ hpu.2.1
            intro x hx
            rcases List.mem_append.mp hx with h | h
            · exact h
            · rw [hd2, ha2] at h
              exact absurd h (List.not_mem_nil x)
          · exact IdsOk_of_sub (fun x hx => List.mem_append_left _ hx) hpu.2.2.1

theorem clearObjF_oid (sO : List (Nat × Bool × Bool)) (o : OObj) :
    (clearObjF sO o).oid = o.oid := by
  unfold clearObjF
  by_cases h : sO.any (fun e => e.1 == o.oid) = true
  · rw [if_pos h]
  · rw [if_neg h]

theorem exportPhase_inv {n0 tempId : Nat} {core : List OObj} {cols0 : List OCol}
    {vls0 : List VLayer} (inp : Inp) (hidden : List Nat) (f : Faults) (st3 : OSt)
    (hcore : ∀ o ∈ core, o.oid < n0)
    (hbase : PhaseBase n0 tempId cols0 vls0 st3)
    (hext : ExtrasIn n0 core [] st3) :
    PhaseBase n0 tempId cols0 vls0 (exportPhase inp hidden f st3).2.2 ∧
    ExtrasIn n0 core ((exportPhase inp hidden f st3).2.1.joined ++
      (((exportPhase inp hidden f st3).2.1.duplicated) ++
        ((exportPhase inp hidden f st3).2.1.abortpj)))
      (exportPhase inp hidden f st3).2.2 ∧
    IdsOk n0 ((exportPhase inp hidden f st3).2.1.joined ++
      (((exportPhase inp hidden f st3).2.1.duplicated) ++
        ((exportPhase inp hidden f st3).2.1.abortpj)))
      (exportPhase inp hidden f st3).2.2 := by
  have hloop := joinLoop_inv inp hidden f hcore inp.units 0 ⟨[], [], [], []⟩ st3
    hbase hext (fun x hx => absurd hx (List.not_mem_nil x)) rfl rfl
  cases hL : joinLoop inp hidden f inp.units 0 ⟨[], [], [], []⟩ st3 with
  | mk raised rs =>
    cases rs with
    | mk acc2 stL =>
      rw [hL] at hloop
      cases raised with
      | true =>
        have heq : exportPhase inp hidden f st3 = (emptyOutcome RRes.raised, acc2, stL) := by
          unfold exportPhase
          rw [hL]
        rw [heq]
        exact hloop
      | false =>
        have hsel : SelOnly stL
            (acc2.joined.foldl (fun s i => selectSet i true s)
              (deselectUnitMeshes inp.units
                (selectIncluded inp.inVL hidden inp.cteObjIds false stL))) :=
          SelOnly_trans (SelOnly_selectIncluded inp.inVL hidden inp.cteObjIds false stL)
            (SelOnly_trans (SelOnly_deselectUnitMeshes inp.units _)
              (SelOnly_foldl _ (fun s i => SelOnly_selectSet i true s) _ _))
        have h2 : (exportPhase inp hidden f st3).2 = (acc2,
            acc2.joined.foldl (fun s i => selectSet i true s)
              (deselectUnitMeshes inp.units
                (selectIncluded inp.inVL hidden inp.cteObjIds false stL))) := by
          unfold exportPhase
          rw [hL]
          cases f.raiseExport <;> cases f.failExport <;> rfl
        rw [h2]
        exact ⟨PhaseBase_of_SelOnly hloop.1 hsel,
          ExtrasIn_of_SelOnly hloop.2.1 hsel, IdsOk_of_SelOnly hloop.2.2 hsel⟩

/-- C1: for every run of the export operator and every injected failure at
any orchestrator stage after the pre-run state has been recorded, when
`execute` finishes (normally or by propagating an exception) every object's
and collection's hide flags equal their pre-run values, the active view
layer equals the pre-run one, the temporary view layer has been removed,
and no duplicated or joined meshes created during the run remain. -/
theorem C1_rollback (inp : Inp) (f : Faults) (hwf : WFInp inp) :
    (executeModel inp f).2.objs = inp.st0.objs ∧
    (executeModel inp f).2.cols = inp.st0.cols ∧
    (executeModel inp f).2.vls = inp.st0.vls ∧
    (executeModel inp f).2.activeVL = inp.st0.activeVL := by
  obtain ⟨hwf1, hwf2, hwf3, hwf4, hwf5, hwf6, hwf7⟩ := hwf
  by_cases hfv : f.failVLAdd = true
  · have heq : executeModel inp f = (emptyOutcome RRes.raised, inp.st0) := by
      unfold executeModel
      simp only []
      rw [if_pos hfv]
    rw [heq]
    exact ⟨rfl, rfl, rfl, rfl⟩
  · set sO := savedObjsOf inp.st0.objs inp.cteObjIds with hsO
    set sC := savedColsOf inp.st0.cols with hsC
    set st1 : OSt :=
      { inp.st0 with
          nextId := inp.st0.nextId + 1
          vls := inp.st0.vls ++ [⟨inp.st0.nextId, [], [], none⟩]
          activeVL := inp.st0.nextId } with hst1
    set st3 : OSt := clearSavedProps sO sC (updActiveVL (setExclF inp.exclAssign) st1)
      with hst3
    set R := exportPhase inp (computeHidden inp) f st3 with hRdef
    have heq : (executeModel inp f).2 =
        { restore_global_properties sO sC (cleanupMeshes R.2.1 R.2.2) with
            activeVL := inp.st0.activeVL
            vls := (restore_global_properties sO sC
              (cleanupMeshes R.2.1 R.2.2)).vls.filter
                (fun v => !(v.vid == inp.st0.nextId)) } := by
      unfold executeModel
      simp only []
      rw [if_neg hfv]
      rfl
    have hfind1 : st1.vls.find? (fun (v : VLayer) => v.vid == inp.st0.nextId) =
        some (VLayer.mk inp.st0.nextId [] [] none) := by
      have h0 : inp.st0.vls.find? (fun (v : VLayer) => v.vid == inp.st0.nextId)
          = none := by
        refine List.find?_eq_none.mpr ?_
        intro v hv
        have := hwf4 v hv
        simp only [beq_iff_eq]
        omega
      show (inp.st0.vls ++ [VLayer.mk inp.st0.nextId [] [] none]).find?
        (fun (v : VLayer) => v.vid == inp.st0.nextId) = _
      rw [List.find?_append, h0, Option.none_or]
      rw [@List.find?_cons_of_pos _ (fun (v : VLayer) => v.vid == inp.st0.nextId)
        (VLayer.mk inp.st0.nextId [] [] none) [] (by simp)]
    have hbase3 : PhaseBase inp.st0.nextId inp.st0.nextId
        (inp.st0.cols.map (clearColF sC)) inp.st0.vls st3 := by
      refine ⟨rfl, ?_, ?_, rfl, Nat.le_succ inp.st0.nextId⟩
      · show ((updActiveVL (setExclF inp.exclAssign) st1).vls.find?
          (fun v => v.vid == inp.st0.nextId)).isSome = true
        have : (updActiveVL (setExclF inp.exclAssign) st1).vls.find?
            (fun v => v.vid == inp.st0.nextId) =
            (st1.vls.find? (fun v => v.vid == inp.st0.nextId)).map
              (setExclF inp.exclAssign) :=
          find?_map_upd inp.st0.nextId (setExclF inp.exclAssign)
            (setExclF_vid inp.exclAssign) st1.vls
        rw [this, hfind1]
        rfl
      · show ((updActiveVL (setExclF inp.exclAssign) st1).vls).filter
          (fun v => !(v.vid == inp.st0.nextId)) = inp.st0.vls
        rw [show (updActiveVL (setExclF inp.exclAssign) st1).vls =
          st1.vls.map (fun v => if v.vid == inp.st0.nextId
            then setExclF inp.exclAssign v else v) from rfl]
        rw [filter_map_upd inp.st0.nextId (setExclF inp.exclAssign)
          (setExclF_vid inp.exclAssign) st1.vls]
        show (inp.st0.vls ++ [VLayer.mk inp.st0.nextId [] [] none]).filter
          (fun v => !(v.vid == inp.st0.nextId)) = inp.st0.vls
        rw [List.filter_append]
        have h1 : ([VLayer.mk inp.st0.nextId [] [] none]).filter
            (fun (v : VLayer) => !(v.vid == inp.st0.nextId)) = [] := by
          simp
        have h2 : inp.st0.vls.filter (fun v => !(v.vid == inp.st0.nextId)) =
            inp.st0.vls := by
          refine List.filter_eq_self.mpr ?_
          intro v hv
          have := hwf4 v hv
          simp only [Bool.not_eq_eq_eq_not, Bool.not_true, beq_eq_false_iff_ne]
          omega
        rw [h1, h2, List.append_nil]
    have hcore : ∀ o ∈ inp.st0.objs.map (clearObjF sO), o.oid < inp.st0.nextId := by
      intro o ho
      obtain ⟨o0, ho0, hoe⟩ := List.mem_map.mp ho
      rw [← hoe, clearObjF_oid]
      exact hwf1 o0 ho0
    have hext3 : ExtrasIn inp.st0.nextId (inp.st0.objs.map (clearObjF sO)) [] st3 :=
      ⟨[], by rw [List.append_nil]; rfl, fun e he => absurd he (List.not_mem_nil e)⟩
    have hP := exportPhase_inv inp (computeHidden inp) f st3 hcore hbase3 hext3
    rw [← hRdef] at hP
    obtain ⟨extras, hobjsF, hmemF⟩ := hP.2.1
    have hJ : ∀ x ∈ R.2.1.joined, inp.st0.nextId ≤ x :=
      fun x hx => (hP.2.2 x (List.mem_append_left _ hx)).1
    have hD : ∀ x ∈ R.2.1.duplicated, inp.st0.nextId ≤ x :=
      fun x hx => (hP.2.2 x (List.mem_append_right _ (List.mem_append_left _ hx))).1
    have hA : ∀ x ∈ R.2.1.abortpj, inp.st0.nextId ≤ x :=
      fun x hx => (hP.2.2 x (List.mem_append_right _ (List.mem_append_right _ hx))).1
    have hcorefilter : ∀ (ids : List Nat), (∀ x ∈ ids, inp.st0.nextId ≤ x) →
        (inp.st0.objs.map (clearObjF sO)).filter
          (fun o => !(ids.contains o.oid)) = inp.st0.objs.map (clearObjF sO) := by
      intro ids hids
      refine List.filter_eq_self.mpr ?_
      intro o ho
      have hno : o.oid ∉ ids := by
        intro hmem
        have := hids o.oid hmem
        have := hcore o ho
        omega
      rw [contains_eq_false_of_not_mem hno]
      rfl
    have h5objs : (cleanupMeshes R.2.1 R.2.2).objs =
        inp.st0.objs.map (clearObjF sO) := by
      rw [cleanupMeshes_objs, hobjsF, List.filter_append, List.filter_append,
        List.filter_append, hcorefilter R.2.1.joined hJ,
        hcorefilter R.2.1.duplicated hD, hcorefilter R.2.1.abortpj hA]
      have hextnil : ((extras.filter (fun o => !(R.2.1.joined.contains o.oid))).filter
          (fun o => !(R.2.1.duplicated.contains o.oid))).filter
          (fun o => !(R.2.1.abortpj.contains o.oid)) = [] := by
        refine List.filter_eq_nil_iff.mpr ?_
        intro e he
        have he2 := List.mem_of_mem_filter he
        have he3 := List.mem_of_mem_filter he2
        have hf1 := List.of_mem_filter he2
        have hf2 := List.of_mem_filter he
        simp only [] at hf1 hf2
        obtain ⟨hb, hm⟩ := hmemF e he3
        rcases List.mem_append.mp hm with h | h
        · have hc : R.2.1.joined.contains e.oid = true := List.elem_eq_true_of_mem h
          rw [hc] at hf1
          exact absurd hf1 (by simp)
        · rcases List.mem_append.mp h with h | h
          · have hc : R.2.1.duplicated.contains e.oid = true :=
              List.elem_eq_true_of_mem h
            rw [hc] at hf2
            exact absurd hf2 (by simp)
          · have hc : R.2.1.abortpj.contains e.oid = true :=
              List.elem_eq_true_of_mem h
            intro hcontra
            rw [hc] at hcontra
            exact absurd hcontra (by simp)
      rw [hextnil, List.append_nil]
    have h6objs : (restore_global_properties sO sC (cleanupMeshes R.2.1 R.2.2)).objs
        = inp.st0.objs := by
      show (cleanupMeshes R.2.1 R.2.2).objs.map (restObjF sO) = inp.st0.objs
      rw [h5objs, hsO]
      exact restore_clear_objs inp.cteObjIds inp.st0.objs hwf2
    have h6cols : (restore_global_properties sO sC (cleanupMeshes R.2.1 R.2.2)).cols
        = inp.st0.cols := by
      show (cleanupMeshes R.2.1 R.2.2).cols.map (restColF sC) = inp.st0.cols
      rw [(cleanupMeshes_rest R.2.1 R.2.2).1, hP.1.2.2.2.1, hsC]
      exact restore_clear_cols inp.st0.cols hwf3
    have h6vls : (restore_global_properties sO sC (cleanupMeshes R.2.1 R.2.2)).vls
        = R.2.2.vls := by
      show (cleanupMeshes R.2.1 R.2.2).vls = R.2.2.vls
      exact (cleanupMeshes_rest R.2.1 R.2.2).2.1
    rw [heq]
    refine ⟨h6objs, h6cols, ?_, rfl⟩
    show (restore_global_properties sO sC (cleanupMeshes R.2.1 R.2.2)).vls.filter
      (fun v => !(v.vid == inp.st0.nextId)) = inp.st0.vls
    rw [h6vls]
    exact hP.1.2.2.1

theorem mem_curSel_foldl_rev {α : Type} (g : OSt → α → OSt)
    (hg : ∀ s a x, x ∈ curSel (g s a) → x ∈ curSel s) :
    ∀ (l : List α) (st : OSt) (x : Nat), x ∈ curSel (l.foldl g st) → x ∈ curSel st
  | [], _, _, h => h
  | a :: rest, st, x, h =>
    hg st a x (mem_curSel_foldl_rev g hg rest (g st a) x h)

theorem objs_foldl_pres {α : Type} (g : OSt → α → OSt)
    (hg : ∀ s a, (g s a).objs = s.objs) :
    ∀ (l : List α) (st : OSt), (l.foldl g st).objs = st.objs
  | [], _ => rfl
  | a :: rest, st => (objs_foldl_pres g hg rest (g st a)).trans (hg st a)

theorem curSel_selectSet_false_sub {x : Nat} (i : Nat) (st : OSt)
    (h : x ∈ curSel (selectSet i false st)) : x ∈ curSel st := by
  rw [curSel_selectSet_false] at h
  exact List.mem_of_mem_filter h

theorem dmStep_sub (s2 : OSt) (i : Nat) (x : Nat)
    (h : x ∈ curSel (if isMeshId s2 i then selectSet i false s2 else s2)) :
    x ∈ curSel s2 := by
  by_cases hm : isMeshId s2 i = true
  · rw [if_pos hm] at h
    exact curSel_selectSet_false_sub i s2 h
  · rw [if_neg hm] at h
    exact h

theorem dmStep_objs (s2 : OSt) (i : Nat) :
    (if isMeshId s2 i then selectSet i false s2 else s2).objs = s2.objs := by
  by_cases hm : isMeshId s2 i = true
  · rw [if_pos hm]; rfl
  · rw [if_neg hm]

theorem dmInner_sub (ids : List Nat) (st : OSt) (x : Nat)
    (h : x ∈ curSel (ids.foldl
      (fun s2 i => if isMeshId s2 i then selectSet i false s2 else s2) st)) :
    x ∈ curSel st :=
  mem_curSel_foldl_rev _ dmStep_sub ids st x h

theorem dmInner_objs (ids : List Nat) (st : OSt) :
    (ids.foldl (fun s2 i => if isMeshId s2 i then selectSet i false s2 else s2)
      st).objs = st.objs :=
  objs_foldl_pres _ dmStep_objs ids st

theorem deselectUnitMeshes_sub (units : List JUnit) (st : OSt) (x : Nat)
    (h : x ∈ curSel (deselectUnitMeshes units st)) : x ∈ curSel st := by
  unfold deselectUnitMeshes at h
  exact mem_curSel_foldl_rev _ (fun s u x2 h2 => dmInner_sub u.objIds s x2 h2)
    units st x h

theorem deselectUnitMeshes_objs (units : List JUnit) (st : OSt) :
    (deselectUnitMeshes units st).objs = st.objs := by
  unfold deselectUnitMeshes
  exact objs_foldl_pres _ (fun s u => dmInner_objs u.objIds s) units st

theorem not_mem_curSel_selectSet_false_self (x : Nat) (st : OSt) :
    x ∉ curSel (selectSet x false st) := by
  rw [curSel_selectSet_false]
  intro h
  have := List.of_mem_filter h
  simp at this

theorem dmInner_kills :
    ∀ (ids : List Nat) (st : OSt) (x : Nat), x ∈ ids → isMeshId st x = true →
      x ∉ curSel (ids.foldl
        (fun s2 i => if isMeshId s2 i then selectSet i false s2 else s2) st)
  | [], _, x, hx, _ => absurd hx (List.not_mem_nil x)
  | i :: rest, st, x, hx, hm => by
    rw [List.foldl_cons]
    cases List.mem_cons.mp hx with
    | inl hxi =>
      subst hxi
      have hstep : x ∉ curSel (if isMeshId st x then selectSet x false st else st) := by
        rw [if_pos hm]
        exact not_mem_curSel_selectSet_false_self x st
      intro hmem
      exact hstep (dmInner_sub rest _ x hmem)
    | inr hxr =>
      have hm2 : isMeshId (if isMeshId st i then selectSet i false st else st) x
          = true := by
        show (match lookupObj (if isMeshId st i then selectSet i false st else st) x
          with
          | some o => o.otype == "MESH"
          | none => false) = true
        unfold lookupObj
        rw [dmStep_objs]
        exact hm
      exact dmInner_kills rest _ x hxr hm2

theorem deselectUnitMeshes_kills :
    ∀ (units : List JUnit) (st : OSt) (u : JUnit) (x : Nat), u ∈ units →
      x ∈ u.objIds → isMeshId st x = true →
      x ∉ curSel (deselectUnitMeshes units st)
  | [], _, u, x, hu, _, _ => absurd hu (List.not_mem_nil u)
  | u0 :: rest, st, u, x, hu, hx, hm => by
    show x ∉ curSel (rest.foldl _
      (u0.objIds.foldl
        (fun s2 i => if isMeshId s2 i then selectSet i false s2 else s2) st))
    cases List.mem_cons.mp hu with
    | inl huu =>
      subst huu
      have hkill := dmInner_kills u.objIds st x hx hm
      intro hmem
      exact hkill (mem_curSel_foldl_rev
        (fun s u2 => u2.objIds.foldl
          (fun s2 i => if isMeshId s2 i then selectSet i false s2 else s2) s)
        (fun s u2 x2 h2 => dmInner_sub u2.objIds s x2 h2) rest _ x hmem)
    | inr hur =>
      have hm2 : isMeshId (u0.objIds.foldl
          (fun s2 i => if isMeshId s2 i then selectSet i false s2 else s2) st) x
          = true := by
        show (match lookupObj (u0.objIds.foldl
            (fun s2 i => if isMeshId s2 i then selectSet i false s2 else s2) st) x
          with
          | some o => o.otype == "MESH"
          | none => false) = true
        unfold lookupObj
        rw [dmInner_objs]
        exact hm
      exact deselectUnitMeshes_kills rest _ u x hur hx hm2

theorem curSel_selectIncluded (inVL hidden colIds : List Nat) (m : Bool) (st : OSt)
    (hsome : (activeLayer st).isSome = true) (hnd : colIds.Nodup) :
    curSel (selectIncluded inVL hidden colIds m st) =
      includedIds st inVL hidden colIds m := by
  have hsome2 : (activeLayer (deselectAll st)).isSome = true :=
    ((SelOnly_deselectAll st).2.2.2.2.2).trans hsome
  have hempty : curSel (deselectAll st) = [] := curSel_setSel [] st hsome
  have hincl : includedIds (deselectAll st) inVL hidden colIds m =
      includedIds st inVL hidden colIds m := rfl
  show curSel ((includedIds (deselectAll st) inVL hidden colIds m).foldl
      (fun s i => selectSet i true s) (deselectAll st)) = _
  rw [foldl_select_app _ _ hsome2 (by rw [hincl]; exact hnd.filter _)
    (by rw [hempty]; intro x _ h; exact absurd h (List.not_mem_nil x)), hempty,
    List.nil_append, hincl]

theorem find?_map_oid (a : Nat) (rf : OObj → OObj) (hrf : ∀ o, (rf o).oid = o.oid) :
    ∀ l : List OObj,
      (l.map rf).find? (fun o => o.oid == a) = (l.find? (fun o => o.oid == a)).map rf
  | [] => rfl
  | o :: rest => by
    rw [List.map_cons]
    by_cases h : (o.oid == a) = true
    · have h2 : ((rf o).oid == a) = true := by rw [hrf o]; exact h
      rw [@List.find?_cons_of_pos _ (fun o => o.oid == a) (rf o) _ h2,
        @List.find?_cons_of_pos _ (fun o => o.oid == a) o _ h]
      rfl
    · have h2 : ¬(((rf o).oid == a) = true) := by rw [hrf o]; exact h
      rw [@List.find?_cons_of_neg _ (fun o => o.oid == a) (rf o) _ h2,
        @List.find?_cons_of_neg _ (fun o => o.oid == a) o _ h]
      exact find?_map_oid a rf hrf rest

theorem lookup_low {n0 : Nat} (core extras : List OObj) (st : OSt)
    (hobjs : st.objs = core ++ extras) (hhi : ∀ e ∈ extras, n0 ≤ e.oid)
    (x : Nat) (hx : x < n0) :
    lookupObj st x = core.find? (fun o => o.oid == x) := by
  unfold lookupObj
  rw [hobjs, List.find?_append]
  have hnone : extras.find? (fun o => o.oid == x) = none := by
    refine List.find?_eq_none.mpr ?_
    intro e he
    have := hhi e he
    simp only [beq_iff_eq]
    omega
  rw [hnone]
  cases core.find? (fun o => o.oid == x) <;> rfl

theorem clearObjF_otype (sO : List (Nat × Bool × Bool)) (o : OObj) :
    (clearObjF sO o).otype = o.otype := by
  unfold clearObjF
  by_cases h : sO.any (fun e => e.1 == o.oid) = true
  · rw [if_pos h]
  · rw [if_neg h]

theorem isMeshId_bridge {n0 : Nat} (sO : List (Nat × Bool × Bool)) (base : OSt)
    (extras : List OObj) (st : OSt)
    (hobjs : st.objs = base.objs.map (clearObjF sO) ++ extras)
    (hhi : ∀ e ∈ extras, n0 ≤ e.oid) (x : Nat) (hx : x < n0) :
    isMeshId st x = isMeshId base x := by
  unfold isMeshId
  rw [lookup_low _ extras st hobjs hhi x hx,
    find?_map_oid x (clearObjF sO) (clearObjF_oid sO)]
  show (match (lookupObj base x).map (clearObjF sO) with
    | some o => o.otype == "MESH"
    | none => false) = _
  cases lookupObj base x with
  | none => rfl
  | some o =>
    show ((clearObjF sO o).otype == "MESH") = (o.otype == "MESH")
    rw [clearObjF_otype]

theorem isMeshId_congr (st st2 : OSt) (x : Nat)
    (h : lookupObj st x = lookupObj st2 x) : isMeshId st x = isMeshId st2 x := by
  unfold isMeshId
  rw [h]

theorem includedIds_congr (st st2 : OSt) (inVL hidden colIds : List Nat) (m : Bool)
    (h : ∀ i ∈ colIds, isMeshId st i = isMeshId st2 i) :
    includedIds st inVL hidden colIds m = includedIds st2 inVL hidden colIds m := by
  unfold includedIds
  refine List.filter_congr ?_
  intro i hi
  rw [h i hi]

theorem lookup_SelOnly {st st2 : OSt} (hs : SelOnly st st2) (x : Nat) :
    lookupObj st2 x = lookupObj st x := by
  unfold lookupObj
  rw [hs.1]

theorem find?_filter_keep (x : Nat) (q : OObj → Bool)
    (hq : ∀ o : OObj, o.oid = x → q o = true) :
    ∀ l : List OObj,
      (l.filter q).find? (fun o => o.oid == x) = l.find? (fun o => o.oid == x)
  | [] => rfl
  | o :: rest => by
    rw [List.filter_cons]
    by_cases h : (o.oid == x) = true
    · have hqo := hq o (beq_iff_eq.mp h)
      rw [hqo]
      simp only [if_true]
      rw [@List.find?_cons_of_pos _ (fun o => o.oid == x) o _ h,
        @List.find?_cons_of_pos _ (fun o => o.oid == x) o _ h]
    · by_cases hqo : q o = true
      · rw [hqo]
        simp only [if_true]
        rw [@List.find?_cons_of_neg _ (fun o => o.oid == x) o _ h,
          @List.find?_cons_of_neg _ (fun o => o.oid == x) o _ h]
        exact find?_filter_keep x q hq rest
      · rw [eq_false_of_ne_true hqo]
        simp only [Bool.false_eq_true, if_false]
        rw [@List.find?_cons_of_neg _ (fun o => o.oid == x) o _ h]
        exact find?_filter_keep x q hq rest

theorem find?_rename_other (a : Nat) (nm : String) (x : Nat) (hxa : x ≠ a) :
    ∀ l : List OObj,
      (l.map (fun o => if o.oid == a then { o with name := nm } else o)).find?
        (fun o => o.oid == x) = l.find? (fun o => o.oid == x)
  | [] => rfl
  | o :: rest => by
    rw [List.map_cons]
    by_cases h : (o.oid == x) = true
    · have hoa : (o.oid == a) = false :=
        beq_eq_false_iff_ne.mpr (by rw [beq_iff_eq.mp h]; exact hxa)
      have hhead : (if o.oid == a then ({ o with name := nm } : OObj) else o) = o := by
        rw [hoa]
        simp only [Bool.false_eq_true, if_false]
      rw [hhead, @List.find?_cons_of_pos _ (fun o => o.oid == x) o _ h,
        @List.find?_cons_of_pos _ (fun o => o.oid == x) o _ h]
    · have h2 : ¬((((if o.oid == a then ({ o with name := nm } : OObj) else o)).oid
          == x) = true) := by
        rw [rename_map_oid]
        exact h
      rw [@List.find?_cons_of_neg OObj (fun o => o.oid == x)
          (if o.oid == a then { o with name := nm } else o)
          (rest.map (fun o => if o.oid == a then { o with name := nm } else o)) h2,
        @List.find?_cons_of_neg OObj (fun o => o.oid == x) o rest h]
      exact find?_rename_other a nm x hxa rest

theorem lookup_rename_other (a : Nat) (nm : String) (st : OSt) (x : Nat)
    (hxa : x ≠ a) : lookupObj (renameObj a nm st) x = lookupObj st x := by
  show (st.objs.map (fun o => if o.oid == a then { o with name := nm } else o)).find?
    (fun o => o.oid == x) = _
  exact find?_rename_other a nm x hxa st.objs

theorem lookup_dup (st : OSt) (hsome : (activeLayer st).isSome = true) (x : Nat)
    (hx : x < st.nextId) : lookupObj (dupSelected st).2 x = lookupObj st x := by
  obtain ⟨_, _, _, _, _, ⟨copies, hcopies, hcmem, _⟩, dbnd, _⟩ :=
    dupSelected_spec st hsome
  unfold lookupObj
  rw [hcopies, List.find?_append]
  have hnone : copies.find? (fun o => o.oid == x) = none := by
    refine List.find?_eq_none.mpr ?_
    intro c hc
    have := (dbnd c.oid (hcmem c hc)).1
    simp only [beq_iff_eq]
    omega
  rw [hnone]
  cases st.objs.find? (fun o => o.oid == x) <;> rfl

theorem rename_map_oid_fn {a : Nat} {nm : String} :
    ∀ o : OObj, ((fun o => if o.oid == a then { o with name := nm } else o) o).oid
      = o.oid := by
  intro o
  exact rename_map_oid a nm o

theorem processUnit_noFault {n0 tempId : Nat} {core : List OObj} {cols0 : List OCol}
    {vls0 : List VLayer} (inp : Inp) (hidden : List Nat) (i : Nat) (u : JUnit)
    (acc : JAcc) (st : OSt)
    (hcore : ∀ o ∈ core, o.oid < n0)
    (hbase : PhaseBase n0 tempId cols0 vls0 st)
    (hext : ExtrasIn n0 core acc.joined st)
    (hids : IdsOk n0 acc.joined st)
    (hund : u.objIds.Nodup) :
    (processUnit inp hidden noFaults i u acc st).1 = false ∧
    st.nextId ≤ (processUnit inp hidden noFaults i u acc st).2.2.nextId ∧
    (∀ x, x < st.nextId →
      lookupObj (processUnit inp hidden noFaults i u acc st).2.2 x
        = lookupObj st x) ∧
    (includedIds st inp.inVL hidden u.objIds true = [] →
      (processUnit inp hidden noFaults i u acc st).2.1 = acc) ∧
    (includedIds st inp.inVL hidden u.objIds true ≠ [] →
      ∃ a, (processUnit inp hidden noFaults i u acc st).2.1.pairs
          = acc.pairs ++ [(i, a)] ∧
        (processUnit inp hidden noFaults i u acc st).2.1.joined
          = acc.joined ++ [a] ∧
        st.nextId ≤ a ∧
        a < (processUnit inp hidden noFaults i u acc st).2.2.nextId ∧
        (lookupObj (processUnit inp hidden noFaults i u acc st).2.2 a).map OObj.name
          = some u.jname) := by
  have hselA := SelOnly_selectIncluded inp.inVL hidden u.objIds true st
  set stA := selectIncluded inp.inVL hidden u.objIds true st with hstA
  have hsomeA : (activeLayer stA).isSome = true :=
    (hselA.2.2.2.2.2).trans hbase.2.1
  have hnextA : stA.nextId = st.nextId := hselA.2.2.1
  have hca : curSel stA = includedIds st inp.inVL hidden u.objIds true := by
    rw [hstA]
    exact curSel_selectIncluded inp.inVL hidden u.objIds true st hbase.2.1 hund
  by_cases hinc : includedIds st inp.inVL hidden u.objIds true = []
  · have hempty : (curSel stA).isEmpty = true := by rw [hca, hinc]; rfl
    have heq : processUnit inp hidden noFaults i u acc st = (false, acc, stA) := by
      unfold processUnit
      simp only []
      rw [← hstA, if_pos hempty]
    rw [heq]
    refine ⟨rfl, Nat.le_of_eq hnextA.symm, ?_, fun _ => rfl,
      fun hne => absurd hinc hne⟩
    intro x _
    exact lookup_SelOnly hselA x
  · have hempty : ¬((curSel stA).isEmpty = true) := by
      rw [hca]
      cases h : includedIds st inp.inVL hidden u.objIds true with
      | nil => exact absurd h hinc
      | cons y ys => simp
    obtain ⟨dcols, dact, dsome, dfilt, dnext, ⟨copies, hcopies, hcmem, hcmap⟩,
        dbnd, dsel⟩ := dupSelected_spec stA hsomeA
    obtain ⟨extras, hobjsA, hmemA⟩ := ExtrasIn_of_SelOnly hext hselA
    have hlowA : ∀ o2 ∈ stA.objs, o2.oid < stA.nextId := by
      intro o2 ho2
      rw [hobjsA] at ho2
      rw [hnextA]
      rcases List.mem_append.mp ho2 with h | h
      · have := hcore o2 h
        have := hbase.2.2.2.2
        omega
      · exact (hids o2.oid (hmemA o2 h).2).2
    have hlen : (dupSelected stA).1.length = (curSel stA).length := by
      show ((List.range (curSel stA).length).map (fun k => stA.nextId + k)).length = _
      rw [List.length_map, List.length_range]
    cases hr1 : (dupSelected stA).1 with
    | nil =>
      exfalso
      rw [hr1] at hlen
      have : curSel stA = [] := List.eq_nil_of_length_eq_zero hlen.symm
      rw [hca] at this
      exact hinc this
    | cons a t =>
      have hcsB : curSel (dupSelected stA).2 = a :: t := by rw [dsel, hr1]
      have hamem : a ∈ (dupSelected stA).1 := by
        rw [hr1]
        exact List.mem_cons_self a t
      have habnd := dbnd a hamem
      have hnotj : acc.joined.contains a = false := by
        refine contains_eq_false_of_not_mem ?_
        intro hmem
        have := (hids a hmem).2
        rw [← hnextA] at this
        omega
      have hselC := SelOnly_setActiveObj a (dupSelected stA).2
      have hcsC : curSel (setActiveObj a (dupSelected stA).2) = a :: t := by
        rw [curSel_setActiveObj, hcsB]
      have hao : activeObjOf (setActiveObj a (dupSelected stA).2) = some a :=
        activeObjOf_setActiveObj a _ dsome
      have hsomeC : (activeLayer (setActiveObj a (dupSelected stA).2)).isSome = true :=
        (hselC.2.2.2.2.2).trans dsome
      have hprefnone : stA.objs.find? (fun o => o.oid == a) = none := by
        refine List.find?_eq_none.mpr ?_
        intro o2 ho2
        have := hlowA o2 ho2
        simp only [beq_iff_eq]
        omega
      have hexc : ∃ c ∈ copies, c.oid = a := by
        have : a ∈ copies.map OObj.oid := by
          rw [hcmap]
          exact hamem
        obtain ⟨c, hc, hce⟩ := List.mem_map.mp this
        exact ⟨c, hc, hce⟩
      have hlookB : ∃ c, lookupObj (dupSelected stA).2 a = some c ∧ c.oid = a := by
        have hfs : ((dupSelected stA).2.objs.find? (fun o => o.oid == a)).isSome
            = true := by
          refine List.find?_isSome.mpr ?_
          obtain ⟨c, hc, hce⟩ := hexc
          refine ⟨c, ?_, by simp [hce]⟩
          rw [hcopies]
          exact List.mem_append_right _ hc
        cases hfc : (dupSelected stA).2.objs.find? (fun o => o.oid == a) with
        | none => rw [hfc] at hfs; exact absurd hfs (by simp)
        | some c =>
          refine ⟨c, hfc, ?_⟩
          have := List.find?_some hfc
          exact beq_iff_eq.mp this
      obtain ⟨c, hlookBc, hcoid⟩ := hlookB
      have hlookC : lookupObj (setActiveObj a (dupSelected stA).2) a = some c :=
        (lookup_SelOnly hselC a).trans hlookBc
      have hstabB : ∀ x, x < st.nextId → lookupObj (dupSelected stA).2 x
          = lookupObj st x := by
        intro x hx
        rw [lookup_dup stA hsomeA x (by omega), lookup_SelOnly hselA x]
      have hstabC : ∀ x, x < st.nextId →
          lookupObj (setActiveObj a (dupSelected stA).2) x = lookupObj st x := by
        intro x hx
        rw [lookup_SelOnly hselC x]
        exact hstabB x hx
      have hanext : st.nextId ≤ a := by rw [← hnextA]; exact habnd.1
      have hane : ∀ x, x < st.nextId → x ≠ a := by
        intro x hx hxa
        omega
      cases t with
      | nil =>
        have heq : processUnit inp hidden noFaults i u acc st =
            afterJoin i u ⟨acc.joined, (dupSelected stA).1, acc.abortpj, acc.pairs⟩
              (setActiveObj a (dupSelected stA).2) := by
          unfold processUnit
          simp only []
          rw [← hstA, if_neg hempty]
          rw [if_neg (show ¬(noFaults.failDup i = true) by simp [noFaults])]
          rw [hcsB]
          show (if (curSel (setActiveObj a (dupSelected stA).2)).length > 1
            then _ else _) = _
          rw [hcsC, if_neg (by rw [List.length_singleton]; omega)]
        rw [heq, afterJoin_single i u _ _ a hcsC,
          if_neg (show ¬(acc.joined.contains a = true) by rw [hnotj]; simp)]
        refine ⟨rfl, ?_, ?_, fun hc => absurd hc hinc, fun _ => ?_⟩
        · show st.nextId ≤ (dupSelected stA).2.nextId
          rw [dnext, hnextA]
          omega
        · intro x hx
          show lookupObj (renameObj a u.jname (setActiveObj a (dupSelected stA).2)) x
            = lookupObj st x
          rw [lookup_rename_other a u.jname _ x (hane x hx)]
          exact hstabC x hx
        · refine ⟨a, rfl, rfl, hanext, ?_, ?_⟩
          · show a < (dupSelected stA).2.nextId
            rw [dnext]
            exact habnd.2
          · show ((lookupObj (renameObj a u.jname
              (setActiveObj a (dupSelected stA).2)) a).map OObj.name) = _
            have : lookupObj (renameObj a u.jname (setActiveObj a (dupSelected stA).2)) a
                = (lookupObj (setActiveObj a (dupSelected stA).2) a).map
                  (fun o => if o.oid == a then { o with name := u.jname } else o) := by
              show ((setActiveObj a (dupSelected stA).2).objs.map
                (fun o => if o.oid == a then { o with name := u.jname } else o)).find?
                  (fun o => o.oid == a) = _
              exact find?_map_oid a _ rename_map_oid_fn
                (setActiveObj a (dupSelected stA).2).objs
            rw [this, hlookC]
            show some ((if c.oid == a then { c with name := u.jname } else c) : OObj).name
              = some u.jname
            rw [if_pos (by simp [hcoid])]
      | cons b t2 =>
        have hgt : (curSel (setActiveObj a (dupSelected stA).2)).length > 1 := by
          rw [hcsC]
          simp
        obtain ⟨jcols, jact, jsome, jfilt, jnext, jobjs, jsel⟩ :=
          joinMerge_spec (setActiveObj a (dupSelected stA).2) a hao hsomeC
        have hqa : ∀ o : OObj, o.oid = a →
            ((fun o => !((curSel (setActiveObj a (dupSelected stA).2)).contains o.oid)
              || o.oid == a) o) = true := by
          intro o hoa
          simp [hoa]
        have hlookD : lookupObj (joinMerge (setActiveObj a (dupSelected stA).2)) a
            = some c := by
          show (joinMerge (setActiveObj a (dupSelected stA).2)).objs.find?
            (fun o => o.oid == a) = some c
          rw [jobjs, find?_filter_keep a _ hqa]
          exact hlookC
        have hstabD : ∀ x, x < st.nextId →
            lookupObj (joinMerge (setActiveObj a (dupSelected stA).2)) x
              = lookupObj st x := by
          intro x hx
          have hqx : ∀ o : OObj, o.oid = x →
              ((fun o => !((curSel (setActiveObj a (dupSelected stA).2)).contains o.oid)
                || o.oid == a) o) = true := by
            intro o hox
            simp only []
            have hxn : o.oid ∉ curSel (setActiveObj a (dupSelected stA).2) := by
              rw [hcsC, ← hr1]
              intro hmem
              have := (dbnd o.oid hmem).1
              rw [hnextA] at this
              omega
            rw [contains_eq_false_of_not_mem hxn]
            rfl
          show (joinMerge (setActiveObj a (dupSelected stA).2)).objs.find?
            (fun o => o.oid == x) = _
          rw [jobjs, find?_filter_keep x _ hqx]
          exact hstabC x hx
        have heq : processUnit inp hidden noFaults i u acc st =
            afterJoin i u ⟨acc.joined, (dupSelected stA).1, acc.abortpj, acc.pairs⟩
              (joinMerge (setActiveObj a (dupSelected stA).2)) := by
          unfold processUnit
          simp only []
          rw [← hstA, if_neg hempty]
          rw [if_neg (show ¬(noFaults.failDup i = true) by simp [noFaults])]
          rw [hcsB]
          show (if (curSel (setActiveObj a (dupSelected stA).2)).length > 1
            then _ else _) = _
          rw [if_pos hgt]
          rw [if_neg (show ¬(noFaults.failJoin i = true) by simp [noFaults])]
          rw [if_neg (show ¬(noFaults.anomJoin i = true) by simp [noFaults])]
        rw [heq, afterJoin_single i u _ _ a jsel,
          if_neg (show ¬(acc.joined.contains a = true) by rw [hnotj]; simp)]
        refine ⟨rfl, ?_, ?_, fun hc => absurd hc hinc, fun _ => ?_⟩
        · show st.nextId ≤ (joinMerge (setActiveObj a (dupSelected stA).2)).nextId
          rw [jnext]
          show st.nextId ≤ (dupSelected stA).2.nextId
          rw [dnext, hnextA]
          omega
        · intro x hx
          show lookupObj (renameObj a u.jname
            (joinMerge (setActiveObj a (dupSelected stA).2))) x = lookupObj st x
          rw [lookup_rename_other a u.jname _ x (hane x hx)]
          exact hstabD x hx
        · refine ⟨a, rfl, rfl, hanext, ?_, ?_⟩
          · show a < (joinMerge (setActiveObj a (dupSelected stA).2)).nextId
            rw [jnext]
            show a < (dupSelected stA).2.nextId
            rw [dnext]
            exact habnd.2
          · show ((lookupObj (renameObj a u.jname
              (joinMerge (setActiveObj a (dupSelected stA).2))) a).map OObj.name) = _
            have : lookupObj (renameObj a u.jname
                (joinMerge (setActiveObj a (dupSelected stA).2))) a
                = (lookupObj (joinMerge (setActiveObj a (dupSelected stA).2)) a).map
                  (fun o => if o.oid == a then { o with name := u.jname } else o) := by
              show ((joinMerge (setActiveObj a (dupSelected stA).2)).objs.map
                (fun o => if o.oid == a then { o with name := u.jname } else o)).find?
                  (fun o => o.oid == a) = _
              exact find?_map_oid a _ rename_map_oid_fn
                (joinMerge (setActiveObj a (dupSelected stA).2)).objs
            rw [this, hlookD]
            show some ((if c.oid == a then { c with name := u.jname } else c) : OObj).name
              = some u.jname
            rw [if_pos (by simp [hcoid])]

theorem joinLoop_noFault {n0 tempId : Nat} {core : List OObj} {cols0 : List OCol}
    {vls0 : List VLayer} (inp : Inp) (hidden : List Nat)
    (hcore : ∀ o ∈ core, o.oid < n0) :
    ∀ (units : List JUnit) (i : Nat) (acc : JAcc) (st : OSt),
      PhaseBase n0 tempId cols0 vls0 st →
      ExtrasIn n0 core acc.joined st →
      IdsOk n0 acc.joined st →
      acc.duplicated = [] → acc.abortpj = [] →
      (∀ u ∈ units, u.objIds.Nodup ∧ ∀ x ∈ u.objIds, x < n0) →
      (joinLoop inp hidden noFaults units i acc st).1 = false ∧
      st.nextId ≤ (joinLoop inp hidden noFaults units i acc st).2.2.nextId ∧
      (∀ x, x < st.nextId →
        lookupObj (joinLoop inp hidden noFaults units i acc st).2.2 x
          = lookupObj st x) ∧
      (∀ x ∈ acc.joined,
        x ∈ (joinLoop inp hidden noFaults units i acc st).2.1.joined) ∧
      (∃ newPairs, (joinLoop inp hidden noFaults units i acc st).2.1.pairs
          = acc.pairs ++ newPairs ∧
        ∀ pr ∈ newPairs, i ≤ pr.1 ∧ st.nextId ≤ pr.2) ∧
      (∀ k u2, units.get? k = some u2 →
        (includedIds st inp.inVL hidden u2.objIds true = [] →
          ((joinLoop inp hidden noFaults units i acc st).2.1.pairs).countP
              (fun pr => pr.1 == i + k) =
            acc.pairs.countP (fun pr => pr.1 == i + k)) ∧
        (includedIds st inp.inVL hidden u2.objIds true ≠ [] →
          ((joinLoop inp hidden noFaults units i acc st).2.1.pairs).countP
              (fun pr => pr.1 == i + k) =
            acc.pairs.countP (fun pr => pr.1 == i + k) + 1 ∧
          ∃ a, (i + k, a) ∈ (joinLoop inp hidden noFaults units i acc st).2.1.pairs ∧
            a ∈ (joinLoop inp hidden noFaults units i acc st).2.1.joined ∧ n0 ≤ a ∧
            (lookupObj (joinLoop inp hidden noFaults units i acc st).2.2 a).map
              OObj.name = some u2.jname))
  | [], i, acc, st, hbase, hext, hids, hdup, hab, hu => by
    refine ⟨rfl, Nat.le_refl _, fun x _ => rfl, fun x hx => hx,
      ⟨[], (List.append_nil _).symm, fun pr hpr => absurd hpr (List.not_mem_nil pr)⟩,
      ?_⟩
    intro k u2 hk
    rw [List.get?_nil] at hk
    exact Option.noConfusion hk
  | u0 :: rest, i, acc, st, hbase, hext, hids, hdup, hab, hu => by
    have hu0 := hu u0 (List.mem_cons_self u0 rest)
    have hpuI := processUnit_inv inp hidden noFaults i u0 acc st hcore hbase hext
      hids hdup hab
    have hpuN := processUnit_noFault inp hidden i u0 acc st hcore hbase hext
      hids hu0.1
    cases hR : processUnit inp hidden noFaults i u0 acc st with
    | mk raised rs =>
      cases rs with
      | mk acc2 st2 =>
        rw [hR] at hpuI hpuN
        cases raised with
        | true => exact absurd hpuN.1 (by simp)
        | false =>
          obtain ⟨hd2, ha2⟩ := hpuI.2.2.2 rfl
          have heq : joinLoop inp hidden noFaults (u0 :: rest) i acc st =
              joinLoop inp hidden noFaults rest (i + 1) acc2 st2 := by
            conv_lhs => unfold joinLoop
            rw [hR]
          have hext2 : ExtrasIn n0 core acc2.joined st2 := by
            refine ExtrasIn_mono ?_ hpuI.2.1
            intro x hx
            rcases List.mem_append.mp hx with h | h
            · exact h
            · rw [hd2, ha2] at h
              exact absurd h (List.not_mem_nil x)
          have hids2 : IdsOk n0 acc2.joined st2 :=
            IdsOk_of_sub (fun x hx => List.mem_append_left _ hx) hpuI.2.2.1
          have hrec := joinLoop_noFault inp hidden hcore rest (i + 1) acc2 st2
            hpuI.1 hext2 hids2 hd2 ha2
            (fun u2 hu2 => hu u2 (List.mem_cons_of_mem u0 hu2))
          rw [heq]
          have hn0st : n0 ≤ st.nextId := hbase.2.2.2.2
          have hstep_nextId : st.nextId ≤ st2.nextId := hpuN.2.1
          have hstep_stab : ∀ x, x < st.nextId → lookupObj st2 x = lookupObj st x :=
            hpuN.2.2.1
          have hbr : ∀ u2 ∈ rest, includedIds st2 inp.inVL hidden u2.objIds true
              = includedIds st inp.inVL hidden u2.objIds true := by
            intro u2 hu2
            refine includedIds_congr st2 st inp.inVL hidden u2.objIds true ?_
            intro xi hxi
            refine isMeshId_congr st2 st xi ?_
            refine hstep_stab xi ?_
            have := (hu u2 (List.mem_cons_of_mem u0 hu2)).2 xi hxi
            omega
          have hacc2 :
              (includedIds st inp.inVL hidden u0.objIds true = [] → acc2 = acc) ∧
              (includedIds st inp.inVL hidden u0.objIds true ≠ [] →
                ∃ a, acc2.pairs = acc.pairs ++ [(i, a)] ∧
                  acc2.joined = acc.joined ++ [a] ∧
                  st.nextId ≤ a ∧ a < st2.nextId ∧
                  (lookupObj st2 a).map OObj.name = some u0.jname) :=
            ⟨hpuN.2.2.2.1, hpuN.2.2.2.2⟩
          obtain ⟨hrecF, hrecN, hrecStab, hrecJ, ⟨np2, hnp2, hnp2b⟩, hrecCnt⟩ := hrec
          refine ⟨hrecF, Nat.le_trans hstep_nextId hrecN, ?_, ?_, ?_, ?_⟩
          · intro x hx
            rw [hrecStab x (by omega), hstep_stab x hx]
          · intro x hx
            refine hrecJ x ?_
            by_cases hinc0 : includedIds st inp.inVL hidden u0.objIds true = []
            · rw [hacc2.1 hinc0]
              exact hx
            · obtain ⟨a, _, hj2, _, _, _⟩ := hacc2.2 hinc0
              rw [hj2]
              exact List.mem_append_left _ hx
          · by_cases hinc0 : includedIds st inp.inVL hidden u0.objIds true = []
            · refine ⟨np2, ?_, ?_⟩
              · rw [hnp2, hacc2.1 hinc0]
              · intro pr hpr
                have := hnp2b pr hpr
                omega
            · obtain ⟨a, hp2, _, hsa, _, _⟩ := hacc2.2 hinc0
              refine ⟨(i, a) :: np2, ?_, ?_⟩
              · rw [hnp2, hp2, List.append_assoc]
                rfl
              · intro pr hpr
                cases List.mem_cons.mp hpr with
                | inl h =>
                  subst h
                  exact ⟨Nat.le_refl i, hsa⟩
                | inr h =>
                  have := hnp2b pr h
                  omega
          · intro k u2 hk
            cases k with
            | zero =>
              have hu2u0 : u2 = u0 := by
                rw [List.get?_cons_zero] at hk
                exact (Option.some_inj.mp hk).symm
              subst hu2u0
              have hnp2zero : np2.countP (fun pr => pr.1 == i + 0) = 0 := by
                refine List.countP_eq_zero.mpr ?_
                intro pr hpr
                have := hnp2b pr hpr
                simp only [beq_iff_eq]
                omega
              have hcnt : ((joinLoop inp hidden noFaults rest (i + 1) acc2
                  st2).2.1.pairs).countP (fun pr => pr.1 == i + 0) =
                  acc2.pairs.countP (fun pr => pr.1 == i + 0) := by
                rw [hnp2, List.countP_append, hnp2zero]
                omega
              constructor
              · intro hinc0
                rw [hcnt, hacc2.1 hinc0]
              · intro hinc0
                obtain ⟨a, hp2, hj2, hsa, haN, hname⟩ := hacc2.2 hinc0
                have hone : ([(i, a)].countP (fun pr => pr.1 == i + 0)) = 1 := by
                  simp
                refine ⟨?_, ?_⟩
                · rw [hcnt, hp2, List.countP_append, hone]
                · refine ⟨a, ?_, ?_, by omega, ?_⟩
                  · rw [Nat.add_zero, hnp2, hp2]
                    exact List.mem_append_left _
                      (List.mem_append_right _ (List.mem_singleton.mpr rfl))
                  · refine hrecJ a ?_
                    rw [hj2]
                    exact List.mem_append_right _ (List.mem_singleton.mpr rfl)
                  · rw [hrecStab a haN]
                    exact hname
            | succ k2 =>
              have hk2 : rest.get? k2 = some u2 := by
                rw [List.get?_cons_succ] at hk
                exact hk
              have hu2mem : u2 ∈ rest := List.get?_mem hk2
              have hidx : i + (k2 + 1) = i + 1 + k2 := by omega
              have hacnt : acc2.pairs.countP (fun pr => pr.1 == i + 1 + k2) =
                  acc.pairs.countP (fun pr => pr.1 == i + 1 + k2) := by
                by_cases hinc0 : includedIds st inp.inVL hidden u0.objIds true = []
                · rw [hacc2.1 hinc0]
                · obtain ⟨a, hp2, _, _, _, _⟩ := hacc2.2 hinc0
                  rw [hp2, List.countP_append]
                  have : ([(i, a)].countP (fun pr => pr.1 == i + 1 + k2)) = 0 := by
                    refine List.countP_eq_zero.mpr ?_
                    intro pr hpr
                    rw [List.mem_singleton.mp hpr]
                    simp only [beq_iff_eq]
                    omega
                  rw [this]
                  omega
              have hrk := hrecCnt k2 u2 hk2
              rw [hbr u2 hu2mem] at hrk
              constructor
              · intro hincu
                rw [hidx, hrk.1 hincu, hacnt]
              · intro hincu
                obtain ⟨hc1, a, hmem, hjm, hn0a, hname⟩ := hrk.2 hincu
                refine ⟨?_, ⟨a, ?_, hjm, hn0a, hname⟩⟩
                · rw [hidx, hc1, hacnt]
                · rw [hidx]
                  exact hmem

/-- The state entering the export phase: temporary view layer added and made
active, exclusion assignment applied, saved hide flags cleared
(src lines 351-369). -/
def phaseEntry (inp : Inp) : OSt :=
  clearSavedProps (savedObjsOf inp.st0.objs inp.cteObjIds)
    (savedColsOf inp.st0.cols)
    (updActiveVL (setExclF inp.exclAssign)
      { inp.st0 with
          nextId := inp.st0.nextId + 1
          vls := inp.st0.vls ++ [⟨inp.st0.nextId, [], [], none⟩]
          activeVL := inp.st0.nextId })

theorem executeModel_outcome (inp : Inp) (f : Faults) (hfv : f.failVLAdd = false) :
    (executeModel inp f).1 =
      (exportPhase inp (computeHidden inp) f (phaseEntry inp)).1 := by
  unfold executeModel
  simp only []
  rw [if_neg (by simp [hfv])]
  rfl

theorem phaseEntry_base (inp : Inp)
    (hwf1 : ∀ o ∈ inp.st0.objs, o.oid < inp.st0.nextId)
    (hwf4 : ∀ v ∈ inp.st0.vls, v.vid < inp.st0.nextId) :
    PhaseBase inp.st0.nextId inp.st0.nextId
      (inp.st0.cols.map (clearColF (savedColsOf inp.st0.cols))) inp.st0.vls
      (phaseEntry inp) ∧
    (∀ o ∈ inp.st0.objs.map (clearObjF (savedObjsOf inp.st0.objs inp.cteObjIds)),
      o.oid < inp.st0.nextId) ∧
    ExtrasIn inp.st0.nextId
      (inp.st0.objs.map (clearObjF (savedObjsOf inp.st0.objs inp.cteObjIds))) []
      (phaseEntry inp) := by
  set st1 : OSt :=
    { inp.st0 with
        nextId := inp.st0.nextId + 1
        vls := inp.st0.vls ++ [⟨inp.st0.nextId, [], [], none⟩]
        activeVL := inp.st0.nextId } with hst1
  refine ⟨⟨rfl, ?_, ?_, rfl, Nat.le_succ inp.st0.nextId⟩, ?_, ?_⟩
  · show ((updActiveVL (setExclF inp.exclAssign) st1).vls.find?
      (fun v => v.vid == inp.st0.nextId)).isSome = true
    have hmap : (updActiveVL (setExclF inp.exclAssign) st1).vls.find?
        (fun v => v.vid == inp.st0.nextId) =
        (st1.vls.find? (fun v => v.vid == inp.st0.nextId)).map
          (setExclF inp.exclAssign) :=
      find?_map_upd inp.st0.nextId (setExclF inp.exclAssign)
        (setExclF_vid inp.exclAssign) st1.vls
    have h0 : inp.st0.vls.find? (fun (v : VLayer) => v.vid == inp.st0.nextId)
        = none := by
      refine List.find?_eq_none.mpr ?_
      intro v hv
      have := hwf4 v hv
      simp only [beq_iff_eq]
      omega
    have hfind1 : st1.vls.find? (fun (v : VLayer) => v.vid == inp.st0.nextId) =
        some (VLayer.mk inp.st0.nextId [] [] none) := by
      show (inp.st0.vls ++ [VLayer.mk inp.st0.nextId [] [] none]).find?
        (fun (v : VLayer) => v.vid == inp.st0.nextId) = _
      rw [List.find?_append, h0, Option.none_or]
      rw [@List.find?_cons_of_pos _ (fun (v : VLayer) => v.vid == inp.st0.nextId)
        (VLayer.mk inp.st0.nextId [] [] none) [] (by simp)]
    rw [hmap, hfind1]
    rfl
  · show ((updActiveVL (setExclF inp.exclAssign) st1).vls).filter
      (fun v => !(v.vid == inp.st0.nextId)) = inp.st0.vls
    rw [show (updActiveVL (setExclF inp.exclAssign) st1).vls =
      st1.vls.map (fun v => if v.vid == inp.st0.nextId
        then setExclF inp.exclAssign v else v) from rfl]
    rw [filter_map_upd inp.st0.nextId (setExclF inp.exclAssign)
      (setExclF_vid inp.exclAssign) st1.vls]
    show (inp.st0.vls ++ [VLayer.mk inp.st0.nextId [] [] none]).filter
      (fun v => !(v.vid == inp.st0.nextId)) = inp.st0.vls
    rw [List.filter_append]
    have h1 : ([VLayer.mk inp.st0.nextId [] [] none]).filter
        (fun (v : VLayer) => !(v.vid == inp.st0.nextId)) = [] := by
      simp
    have h2 : inp.st0.vls.filter (fun v => !(v.vid == inp.st0.nextId)) =
        inp.st0.vls := by
      refine List.filter_eq_self.mpr ?_
      intro v hv
      have := hwf4 v hv
      simp only [Bool.not_eq_eq_eq_not, Bool.not_true, beq_eq_false_iff_ne]
      omega
    rw [h1, h2, List.append_nil]
  · intro o ho
    obtain ⟨o0, ho0, hoe⟩ := List.mem_map.mp ho
    rw [← hoe, clearObjF_oid]
    exact hwf1 o0 ho0
  · exact ⟨[], by rw [List.append_nil]; rfl, fun e he => absurd he (List.not_mem_nil e)⟩

theorem phaseEntry_objs (inp : Inp) :
    (phaseEntry inp).objs =
      inp.st0.objs.map (clearObjF (savedObjsOf inp.st0.objs inp.cteObjIds)) ++ [] := by
  rw [List.append_nil]
  rfl

theorem isMeshId_phaseEntry (inp : Inp) (x : Nat) (hx : x < inp.st0.nextId) :
    isMeshId (phaseEntry inp) x = isMeshId inp.st0 x :=
  isMeshId_bridge (savedObjsOf inp.st0.objs inp.cteObjIds) inp.st0 [] (phaseEntry inp)
    (phaseEntry_objs inp) (fun e he => absurd he (List.not_mem_nil e)) x hx

/-- C6: in every export run with the visibility filter active, a leaf
recorded as globally invisible before the export began is absent from the
final selection passed to the export primitive, even when tree-included. -/
theorem C6_hidden_excluded (inp : Inp) (f : Faults) (hwf : WFInp inp)
    (hvis : inp.use_visible = true) (o : OObj) (ho : o ∈ inp.st0.objs)
    (hcte : o.oid ∈ inp.cteObjIds) (hnv : o.visible = false)
    (hexp : (executeModel inp f).1.exportInvoked = true) :
    o.oid ∉ (executeModel inp f).1.finalSel := by
  obtain ⟨hwf1, hwf2, hwf3, hwf4, hwf5, hwf6, hwf7⟩ := hwf
  by_cases hfv : f.failVLAdd = true
  · exfalso
    have heq : executeModel inp f = (emptyOutcome RRes.raised, inp.st0) := by
      unfold executeModel
      simp only []
      rw [if_pos hfv]
    rw [heq] at hexp
    exact absurd hexp (by simp [emptyOutcome])
  · have hfv2 : f.failVLAdd = false := eq_false_of_ne_true hfv
    rw [executeModel_outcome inp f hfv2] at hexp ⊢
    obtain ⟨hbase, hcore, hext⟩ := phaseEntry_base inp hwf1 hwf4
    have hloop := joinLoop_inv inp (computeHidden inp) f hcore inp.units 0
      ⟨[], [], [], []⟩ (phaseEntry inp) hbase hext
      (fun x hx => absurd hx (List.not_mem_nil x)) rfl rfl
    cases hL : joinLoop inp (computeHidden inp) f inp.units 0 ⟨[], [], [], []⟩
        (phaseEntry inp) with
    | mk raised rs =>
      cases rs with
      | mk acc2 stL =>
        rw [hL] at hloop
        cases raised with
        | true =>
          exfalso
          have heq2 : (exportPhase inp (computeHidden inp) f (phaseEntry inp)).1
              = emptyOutcome RRes.raised := by
            unfold exportPhase
            rw [hL]
          rw [heq2] at hexp
          exact absurd hexp (by simp [emptyOutcome])
        | false =>
          have hfs : (exportPhase inp (computeHidden inp) f
                (phaseEntry inp)).1.finalSel
              = curSel (acc2.joined.foldl (fun s i => selectSet i true s)
                (deselectUnitMeshes inp.units
                  (selectIncluded inp.inVL (computeHidden inp) inp.cteObjIds false
                    stL))) := by
            unfold exportPhase
            rw [hL]
            cases f.raiseExport <;> cases f.failExport <;> rfl
          rw [hfs]
          intro hmem
          rcases mem_foldl_select_rev acc2.joined _ hmem with h7 | hj
          · have h6 := deselectUnitMeshes_sub inp.units _ o.oid h7
            have hsomeL : (activeLayer stL).isSome = true := hloop.1.2.1
            rw [curSel_selectIncluded inp.inVL (computeHidden inp) inp.cteObjIds
              false stL hsomeL hwf6] at h6
            have hpred := List.of_mem_filter h6
            simp only [Bool.and_eq_true] at hpred
            have hhid : (computeHidden inp).contains o.oid = true := by
              refine List.elem_eq_true_of_mem ?_
              unfold computeHidden
              rw [if_pos hvis]
              refine List.mem_map.mpr ⟨o, ?_, rfl⟩
              refine List.mem_filter.mpr ⟨ho, ?_⟩
              rw [hnv]
              simp [hcte]
            rw [hhid] at hpred
            simp at hpred
          · have := (hloop.2.2 o.oid (List.mem_append_left _ hj)).1
            have := hwf1 o ho
            omega

/-- C7: in a fault-free run the export primitive is always invoked and the
operator finishes successfully; an empty final selection yields a success
outcome carrying an emptiness warning, never a failure. -/
theorem C7_empty_selection_warns (inp : Inp) (hwf : WFInp inp) :
    (executeModel inp noFaults).1.exportInvoked = true ∧
    (executeModel inp noFaults).1.res = RRes.finished ∧
    (executeModel inp noFaults).1.wasEmpty
      = (executeModel inp noFaults).1.finalSel.isEmpty ∧
    ((executeModel inp noFaults).1.finalSel.isEmpty = true →
      (executeModel inp noFaults).1.reports = [RepMsg.warnEmpty]) ∧
    ((executeModel inp noFaults).1.finalSel.isEmpty = false →
      (executeModel inp noFaults).1.reports = [RepMsg.infoSuccess]) := by
  obtain ⟨hwf1, hwf2, hwf3, hwf4, hwf5, hwf6, hwf7⟩ := hwf
  rw [executeModel_outcome inp noFaults rfl]
  obtain ⟨hbase, hcore, hext⟩ := phaseEntry_base inp hwf1 hwf4
  have hnf := joinLoop_noFault inp (computeHidden inp) hcore inp.units 0
    ⟨[], [], [], []⟩ (phaseEntry inp) hbase hext
    (fun x hx => absurd hx (List.not_mem_nil x)) rfl rfl
    (fun u hu => ⟨(hwf5 u hu).2, fun x hx => (hwf5 u hu).1 x hx⟩)
  cases hL : joinLoop inp (computeHidden inp) noFaults inp.units 0 ⟨[], [], [], []⟩
      (phaseEntry inp) with
  | mk raised rs =>
    cases rs with
    | mk acc2 stL =>
      rw [hL] at hnf
      cases raised with
      | true => exact absurd hnf.1 (by simp)
      | false =>
        set stSel := acc2.joined.foldl (fun s i => selectSet i true s)
          (deselectUnitMeshes inp.units
            (selectIncluded inp.inVL (computeHidden inp) inp.cteObjIds false stL))
          with hstSel
        have hout : (exportPhase inp (computeHidden inp) noFaults
            (phaseEntry inp)).1 =
            ⟨RRes.finished, true, (curSel stSel).isEmpty, curSel stSel,
              acc2.joined, acc2.pairs, stSel.objs,
              [if (curSel stSel).isEmpty then RepMsg.warnEmpty
               else RepMsg.infoSuccess]⟩ := by
          unfold exportPhase
          rw [hL]
          rfl
        rw [hout]
        refine ⟨rfl, rfl, rfl, ?_, ?_⟩
        · intro h
          have h2 : (curSel stSel).isEmpty = true := h
          show [if (curSel stSel).isEmpty then RepMsg.warnEmpty
            else RepMsg.infoSuccess] = [RepMsg.warnEmpty]
          rw [h2]
          rfl
        · intro h
          have h2 : (curSel stSel).isEmpty = false := h
          show [if (curSel stSel).isEmpty then RepMsg.warnEmpty
            else RepMsg.infoSuccess] = [RepMsg.infoSuccess]
          rw [h2]
          rfl

/-- C4 (amended): in a fault-free run, after the merge adjustment of the
selection no original mesh leaf under any merge unit remains selected, and
each merge unit whose mesh selection is nonempty contributes exactly one
joined leaf — carrying the unit's resolved joined-output name — to the
final selection; a unit with no included meshes contributes none. -/
theorem C4_merge_selection (inp : Inp) (hwf : WFInp inp) :
    (executeModel inp noFaults).1.exportInvoked = true ∧
    (∀ u ∈ inp.units, ∀ x ∈ u.objIds, isMeshId inp.st0 x = true →
      x ∉ (executeModel inp noFaults).1.finalSel) ∧
    (∀ k u, inp.units.get? k = some u →
      (includedIds inp.st0 inp.inVL (computeHidden inp) u.objIds true = [] →
        ((executeModel inp noFaults).1.joinedPairs).countP
          (fun pr => pr.1 == k) = 0) ∧
      (includedIds inp.st0 inp.inVL (computeHidden inp) u.objIds true ≠ [] →
        ((executeModel inp noFaults).1.joinedPairs).countP
          (fun pr => pr.1 == k) = 1 ∧
        ∃ a, (k, a) ∈ (executeModel inp noFaults).1.joinedPairs ∧
          a ∈ (executeModel inp noFaults).1.finalSel ∧
          (((executeModel inp noFaults).1.objsAtExport).find?
            (fun ob => ob.oid == a)).map OObj.name = some u.jname)) := by
  obtain ⟨hwf1, hwf2, hwf3, hwf4, hwf5, hwf6, hwf7⟩ := hwf
  rw [executeModel_outcome inp noFaults rfl]
  obtain ⟨hbase, hcore, hext⟩ := phaseEntry_base inp hwf1 hwf4
  have hnf := joinLoop_noFault inp (computeHidden inp) hcore inp.units 0
    ⟨[], [], [], []⟩ (phaseEntry inp) hbase hext
    (fun x hx => absurd hx (List.not_mem_nil x)) rfl rfl
    (fun u hu => ⟨(hwf5 u hu).2, fun x hx => (hwf5 u hu).1 x hx⟩)
  have hloop := joinLoop_inv inp (computeHidden inp) noFaults hcore inp.units 0
    ⟨[], [], [], []⟩ (phaseEntry inp) hbase hext
    (fun x hx => absurd hx (List.not_mem_nil x)) rfl rfl
  cases hL : joinLoop inp (computeHidden inp) noFaults inp.units 0 ⟨[], [], [], []⟩
      (phaseEntry inp) with
  | mk raised rs =>
    cases rs with
    | mk acc2 stL =>
      rw [hL] at hnf hloop
      cases raised with
      | true => exact absurd hnf.1 (by simp)
      | false =>
        set stSel := acc2.joined.foldl (fun s i => selectSet i true s)
          (deselectUnitMeshes inp.units
            (selectIncluded inp.inVL (computeHidden inp) inp.cteObjIds false stL))
          with hstSel
        have hout : (exportPhase inp (computeHidden inp) noFaults
            (phaseEntry inp)).1 =
            ⟨RRes.finished, true, (curSel stSel).isEmpty, curSel stSel,
              acc2.joined, acc2.pairs, stSel.objs,
              [if (curSel stSel).isEmpty then RepMsg.warnEmpty
               else RepMsg.infoSuccess]⟩ := by
          unfold exportPhase
          rw [hL]
          rfl
        rw [hout]
        obtain ⟨extrasL, hobjsL, hmemL⟩ := hloop.2.1
        have hsomeL : (activeLayer stL).isSome = true := hloop.1.2.1
        have hmeshL : ∀ x, x < inp.st0.nextId →
            isMeshId stL x = isMeshId inp.st0 x := by
          intro x hx
          exact isMeshId_bridge (savedObjsOf inp.st0.objs inp.cteObjIds) inp.st0
            extrasL stL hobjsL (fun e he => (hmemL e he).1) x hx
        have hsel6 := SelOnly_selectIncluded inp.inVL (computeHidden inp)
          inp.cteObjIds false stL
        have hchain : SelOnly stL stSel :=
          SelOnly_trans hsel6
            (SelOnly_trans (SelOnly_deselectUnitMeshes inp.units _)
              (SelOnly_foldl _ (fun s i => SelOnly_selectSet i true s) _ _))
        refine ⟨rfl, ?_, ?_⟩
        · intro u hu x hx hmesh hmem
          have hxlt : x < inp.st0.nextId := (hwf5 u hu).1 x hx
          rcases mem_foldl_select_rev acc2.joined _ hmem with h7 | hj
          · have hmesh6 : isMeshId (selectIncluded inp.inVL (computeHidden inp)
                inp.cteObjIds false stL) x = true := by
              have : lookupObj (selectIncluded inp.inVL (computeHidden inp)
                  inp.cteObjIds false stL) x = lookupObj stL x := by
                unfold lookupObj
                rw [hsel6.1]
              rw [isMeshId_congr _ stL x this, hmeshL x hxlt]
              exact hmesh
            exact deselectUnitMeshes_kills inp.units _ u x hu hx hmesh6 h7
          · have := (hloop.2.2 x (List.mem_append_left _ hj)).1
            omega
        · intro k u hk
          have hbridge : includedIds (phaseEntry inp) inp.inVL (computeHidden inp)
              u.objIds true
              = includedIds inp.st0 inp.inVL (computeHidden inp) u.objIds true := by
            refine includedIds_congr _ _ _ _ _ _ ?_
            intro xi hxi
            exact isMeshId_phaseEntry inp xi
              ((hwf5 u (List.get?_mem hk)).1 xi hxi)
          have hcnt := hnf.2.2.2.2.2 k u hk
          rw [hbridge] at hcnt
          have hzk : (0 : Nat) + k = k := Nat.zero_add k
          constructor
          · intro hinc
            have h0 := hcnt.1 hinc
            rw [hzk] at h0
            show acc2.pairs.countP (fun pr => pr.1 == k) = 0
            rw [h0]
            rfl
          · intro hinc
            obtain ⟨hc1, a, hmem, hjm, hn0a, hname⟩ := hcnt.2 hinc
            rw [hzk] at hc1 hmem
            refine ⟨?_, ⟨a, hmem, ?_, ?_⟩⟩
            · show acc2.pairs.countP (fun pr => pr.1 == k) = 1
              rw [hc1]
              rfl
            · show a ∈ curSel stSel
              have hsomeBase : (activeLayer (deselectUnitMeshes inp.units
                  (selectIncluded inp.inVL (computeHidden inp) inp.cteObjIds false
                    stL))).isSome = true :=
                ((SelOnly_deselectUnitMeshes inp.units _).2.2.2.2.2).trans
                  ((hsel6.2.2.2.2.2).trans hsomeL)
              exact mem_foldl_select acc2.joined _ hsomeBase (Or.inr hjm)
            · show ((stSel.objs.find? (fun ob => ob.oid == a)).map OObj.name)
                = some u.jname
              have hobjsSel : stSel.objs = stL.objs := hchain.1
              rw [hobjsSel]
              exact hname

/-- C1 witness scenario: three objects (one with hide flags set), a flagged
collection, and a join fault injected at the first merge unit. -/
def c1st0 : OSt :=
  ⟨3,
   [⟨0, "Cube", "MESH", true, false, true⟩,
    ⟨1, "Tri", "MESH", false, true, true⟩,
    ⟨2, "Lamp", "LIGHT", false, false, false⟩],
   [⟨"Props", true, true⟩],
   [⟨0, [("Props", false)], [2], some 2⟩],
   0⟩

def c1inp : Inp :=
  ⟨c1st0, [0, 1, 2], [0, 1, 2], true, [("Other", true)], [⟨"Sub", [0, 1], "SubJoined"⟩]⟩

def c1faults : Faults :=
  ⟨false, fun _ => false, fun i => i == 0, fun _ => false, false, false⟩

theorem C1_rollback_witness :
    WFInp c1inp ∧
    ((executeModel c1inp c1faults).2.objs = c1inp.st0.objs ∧
     (executeModel c1inp c1faults).2.cols = c1inp.st0.cols ∧
     (executeModel c1inp c1faults).2.vls = c1inp.st0.vls ∧
     (executeModel c1inp c1faults).2.activeVL = c1inp.st0.activeVL) :=
  ⟨by unfold WFInp; decide, C1_rollback c1inp c1faults (by unfold WFInp; decide)⟩

/-- C4 counterexample scenario: a single merge unit whose collection holds
only a non-mesh object. -/
def c4inp : Inp :=
  ⟨⟨2,
    [⟨0, "Light", "LIGHT", false, false, true⟩,
     ⟨1, "Cube", "MESH", false, false, true⟩],
    [], [⟨0, [], [], none⟩], 0⟩,
   [0, 1], [0, 1], false, [], [⟨"Sub", [0], "SubJoined"⟩]⟩

/-- C4 counterexample: with a planned merge unit holding no mesh objects,
the fault-free export invokes the primitive but produces no joined leaf at
all, so "exactly one joined leaf per merge unit is selected" fails. -/
theorem C4_counterexample :
    c4inp.units.length = 1 ∧
    (executeModel c4inp noFaults).1.exportInvoked = true ∧
    (executeModel c4inp noFaults).1.joinedPairs = [] ∧
    (executeModel c4inp noFaults).1.joinedAtExport = [] :=
  ⟨rfl, rfl, rfl, rfl⟩

/-- C4 witness scenario: one unit with two meshes and one unit with only a
non-mesh object. -/
def c4winp : Inp :=
  ⟨⟨3,
    [⟨0, "CubeA", "MESH", false, false, true⟩,
     ⟨1, "CubeB", "MESH", false, false, true⟩,
     ⟨2, "Lamp", "LIGHT", false, false, true⟩],
    [], [⟨0, [], [], none⟩], 0⟩,
   [0, 1, 2], [0, 1, 2], false, [],
   [⟨"Merge", [0, 1], "MergedMesh"⟩, ⟨"Empty", [2], "NothingJoined"⟩]⟩

theorem C4_merge_selection_witness :
    WFInp c4winp ∧
    ((executeModel c4winp noFaults).1.exportInvoked = true ∧
     (∀ u ∈ c4winp.units, ∀ x ∈ u.objIds, isMeshId c4winp.st0 x = true →
       x ∉ (executeModel c4winp noFaults).1.finalSel) ∧
     (∀ k u, c4winp.units.get? k = some u →
       (includedIds c4winp.st0 c4winp.inVL (computeHidden c4winp) u.objIds true
           = [] →
         ((executeModel c4winp noFaults).1.joinedPairs).countP
           (fun pr => pr.1 == k) = 0) ∧
       (includedIds c4winp.st0 c4winp.inVL (computeHidden c4winp) u.objIds true
           ≠ [] →
         ((executeModel c4winp noFaults).1.joinedPairs).countP
           (fun pr => pr.1 == k) = 1 ∧
         ∃ a, (k, a) ∈ (executeModel c4winp noFaults).1.joinedPairs ∧
           a ∈ (executeModel c4winp noFaults).1.finalSel ∧
           (((executeModel c4winp noFaults).1.objsAtExport).find?
             (fun ob => ob.oid == a)).map OObj.name = some u.jname))) :=
  ⟨by unfold WFInp; decide, C4_merge_selection c4winp (by unfold WFInp; decide)⟩

/-- C6 witness scenario: a viewport-invisible mesh inside the export
collection with the visibility filter on. -/
def c6inp : Inp :=
  ⟨⟨2,
    [⟨0, "Hidden", "MESH", false, false, false⟩,
     ⟨1, "Vis", "MESH", false, false, true⟩],
    [], [⟨0, [], [], none⟩], 0⟩,
   [0, 1], [0, 1], true, [], []⟩

theorem C6_hidden_excluded_witness :
    WFInp c6inp ∧ c6inp.use_visible = true ∧
    (⟨0, "Hidden", "MESH", false, false, false⟩ : OObj) ∈ c6inp.st0.objs ∧
    (executeModel c6inp noFaults).1.exportInvoked = true ∧
    (0 : Nat) ∉ (executeModel c6inp noFaults).1.finalSel :=
  ⟨by unfold WFInp; decide, rfl, by decide, rfl,
   C6_hidden_excluded c6inp noFaults (by unfold WFInp; decide) rfl
     ⟨0, "Hidden", "MESH", false, false, false⟩ (by decide) (by decide) rfl rfl⟩

/-- C7 witness scenario: an export collection with no objects at all, so the
final selection is empty. -/
def c7inp : Inp :=
  ⟨⟨1, [⟨0, "Solo", "MESH", false, false, true⟩], [], [⟨0, [], [], none⟩], 0⟩,
   [], [], false, [], []⟩

theorem C7_empty_selection_warns_witness :
    WFInp c7inp ∧
    ((executeModel c7inp noFaults).1.exportInvoked = true ∧
     (executeModel c7inp noFaults).1.res = RRes.finished ∧
     (executeModel c7inp noFaults).1.wasEmpty
       = (executeModel c7inp noFaults).1.finalSel.isEmpty ∧
     ((executeModel c7inp noFaults).1.finalSel.isEmpty = true →
       (executeModel c7inp noFaults).1.reports = [RepMsg.warnEmpty]) ∧
     ((executeModel c7inp noFaults).1.finalSel.isEmpty = false →
       (executeModel c7inp noFaults).1.reports = [RepMsg.infoSuccess])) :=
  ⟨by unfold WFInp; decide,
   C7_empty_selection_warns c7inp (by unfold WFInp; decide)⟩
